import Mathlib

/-!
# Pipegame (net): a shallow embedding of the puzzle engine

The C sources embedded here are `game.c`, `game_ext.c`, `game_aux.c`,
`game_private.c` and `game_tools.c`.

Conventions of the embedding.

* The enumerations `shape`, `direction` and `edge_status` are inductive types.
* A `game` is the C structure `game_s`; the two dense arrays are lists indexed
  by the row-major index `WIDTH * i + j`, the two `queue`s used as LIFO stacks
  are lists whose head is the top of the stack.
* Functions that mutate a `game` through a pointer return the new game.
* The mixed `uint`/`int` arithmetic of `game_get_ajacent_square` is spelled out
  with explicit conversions modulo `2^32`.  The number of entries that
  `game_new_empty_ext` allocates, the index `game_nb_cols(g) * i + j` of the
  four accessors, and the size of the array `visited` of `game_is_connected`
  and the positions `i * w + j` in it, are computed in `unsigned int`, modulo
  `2^32`.  The positions in the local array `t_shape` of the solver are written
  without the reduction; they are below `2^32` in every game of less than
  `2^32` cells.
* Loops that have no syntactic bound (`while (stack_top > 0)`, the recursion of
  `solve_rec`) take a fuel argument; the callers pass a fuel that is proved
  sufficient.
* `game_is_connected`, `game_won`, `solve_rec`, `game_solve` and
  `game_nb_solutions` give the value that a run returns; their work stack is a
  list.  The functions whose name ends in `_checked` follow the same statements
  with the array `stack` of the source, of `2 * stack_size` integers: their
  result is `none` when a push writes past the end of that array.
* `game_nb_solutions_mem` runs `game_nb_solutions` on a memory of games, in
  which a pointer is the position of a game.
-/

namespace Pipegame

/-! ## Data model -/

/-- Modelled from the spec: the enumeration `shape` of game.h, a header that is
not among the sources.  The six piece shapes, in the order of the tables
`_code`, `square2str` and `shapeToChar`. -/
inductive shape where
  | EMPTY
  | ENDPOINT
  | SEGMENT
  | CORNER
  | TEE
  | CROSS
  deriving DecidableEq, Inhabited

/-- Modelled from the spec: the enumeration `direction` of game.h, a header
that is not among the sources.  NORTH = 0, EAST = 1, SOUTH = 2, WEST = 3, as in
the tables `DIR2OFFSET` and `directionToChar`; no value is negative, so the
type is an `unsigned int`. -/
inductive direction where
  | NORTH
  | EAST
  | SOUTH
  | WEST
  deriving DecidableEq, Inhabited

/-- Modelled from the spec: the enumeration `edge_status` of game.h, a header
that is not among the sources. -/
inductive edge_status where
  | NOEDGE
  | MATCH
  | MISMATCH
  deriving DecidableEq, Inhabited

/-- Integer value of a direction. -/
def dir_val : direction → Nat
  | .NORTH => 0
  | .EAST => 1
  | .SOUTH => 2
  | .WEST => 3

/-- Direction whose integer value is `n % 4`. -/
def dir_of_val (n : Nat) : direction :=
  match n % 4 with
  | 0 => .NORTH
  | 1 => .EAST
  | 2 => .SOUTH
  | _ => .WEST

/-- Number of directions, `NB_DIRS`. -/
def NB_DIRS : Nat := 4

/-- The four directions in the order of the loops `for (d = 0; d < NB_DIRS; d++)`. -/
def all_dirs : List direction :=
  [direction.NORTH, direction.EAST, direction.SOUTH, direction.WEST]

/-- Structure `move_s` of game_private.h. -/
structure move where
  i : Nat
  j : Nat
  old : direction
  new : direction
  deriving DecidableEq

/-- Structure `game_s` of game_struct.h.  The type `queue` of queue.h, which is
not among the sources, is used as a LIFO stack only: it is a list whose head is
the top of the stack. -/
structure game where
  HEIGHT : Nat
  WIDTH : Nat
  tab_shape : List shape
  tab_direction : List direction
  is_wrapping : Bool
  undo_mooves : List move
  redo_mooves : List move
  deriving DecidableEq

/-- Representation invariant of a `game_s` built by `game_new_empty_ext` in
which every cell has its own entry: the two dimensions are `uint` values, both
arrays hold `HEIGHT * WIDTH` entries, and that number, which
`game_new_empty_ext` computes in `unsigned int`, is a `uint` value too. -/
def game_wf (g : game) : Prop :=
  g.HEIGHT < 4294967296 ∧ g.WIDTH < 4294967296 ∧
    g.tab_shape.length = g.HEIGHT * g.WIDTH ∧ g.tab_direction.length = g.HEIGHT * g.WIDTH ∧
    g.HEIGHT * g.WIDTH < 4294967296

instance (g : game) : Decidable (game_wf g) := by
  unfold game_wf; infer_instance

/-! ## game_ext.c and game.c: accessors -/

/-- Function `game_nb_rows`. -/
def game_nb_rows (g : game) : Nat := g.HEIGHT

/-- Function `game_nb_cols`. -/
def game_nb_cols (g : game) : Nat := g.WIDTH

/-- Function `game_is_wrapping`. -/
def game_is_wrapping (g : game) : Bool := g.is_wrapping

/-- Function `game_set_piece_shape`.  The index `game_nb_cols(g) * i + j` is
computed in `unsigned int`. -/
def game_set_piece_shape (g : game) (i j : Nat) (s : shape) : game :=
  { g with tab_shape := g.tab_shape.set ((game_nb_cols g * i + j) % 4294967296) s }

/-- Function `game_set_piece_orientation`.  The index is computed in
`unsigned int`. -/
def game_set_piece_orientation (g : game) (i j : Nat) (o : direction) : game :=
  { g with tab_direction := g.tab_direction.set ((game_nb_cols g * i + j) % 4294967296) o }

/-- Function `game_get_piece_shape`.  The index is computed in `unsigned int`. -/
def game_get_piece_shape (g : game) (i j : Nat) : shape :=
  g.tab_shape.getD ((game_nb_cols g * i + j) % 4294967296) shape.EMPTY

/-- Function `game_get_piece_orientation`.  The index is computed in
`unsigned int`. -/
def game_get_piece_orientation (g : game) (i j : Nat) : direction :=
  g.tab_direction.getD ((game_nb_cols g * i + j) % 4294967296) direction.NORTH

/-- Row-major double loop `for (i < h) for (j < w) body(i, j)` over a state. -/
def for_cells {α : Type} (h w : Nat) (body : Nat → Nat → α → α) (a : α) : α :=
  (List.range h).foldl (fun a i => (List.range w).foldl (fun a j => body i j a) a) a

/-- Function `game_new_empty_ext`: the number of entries of both arrays is
`size = nb_rows * nb_cols`, a product of `unsigned int`; `calloc` fills both
arrays with zeros, that is EMPTY and NORTH; both stacks are new and empty. -/
def game_new_empty_ext (nb_rows nb_cols : Nat) (wrapping : Bool) : game :=
  { HEIGHT := nb_rows
    WIDTH := nb_cols
    tab_shape := List.replicate ((nb_rows * nb_cols) % 4294967296) shape.EMPTY
    tab_direction := List.replicate ((nb_rows * nb_cols) % 4294967296) direction.NORTH
    is_wrapping := wrapping
    undo_mooves := []
    redo_mooves := [] }

/-- Function `game_copy`. -/
def game_copy (g : game) : game :=
  let game_c := game_new_empty_ext (game_nb_rows g) (game_nb_cols g) (game_is_wrapping g)
  for_cells (game_nb_rows g) (game_nb_cols g)
    (fun i j game_c =>
      game_set_piece_shape
        (game_set_piece_orientation game_c i j (game_get_piece_orientation g i j))
        i j (game_get_piece_shape g i j))
    game_c

/-! ## game_aux.c -/

/-- Conversion of an integer to `unsigned int`. -/
def to_uint (x : Int) : Int := x % 4294967296

/-- Conversion of an integer to `int` (two's complement). -/
def to_int (x : Int) : Int :=
  if x % 4294967296 < 2147483648 then x % 4294967296 else x % 4294967296 - 4294967296

/-- Table `DIR2OFFSET`. -/
def DIR2OFFSET : direction → Int × Int
  | .NORTH => (-1, 0)
  | .EAST => (0, 1)
  | .SOUTH => (1, 0)
  | .WEST => (0, -1)

/-- Macro `OPPOSITE_DIR`. -/
def OPPOSITE_DIR (d : direction) : direction := dir_of_val ((dir_val d + 2) % NB_DIRS)

/-- Macro `NEXT_DIR_CW`. -/
def NEXT_DIR_CW (d : direction) : direction := dir_of_val ((dir_val d + 1) % NB_DIRS)

/-- Function `game_get_ajacent_square`; `none` stands for the result `false`,
`some (i_next, j_next)` for `true` with the two output parameters.  The sum
`i + i_offset` is computed in `unsigned int` and stored in an `int`; with
wrapping on, `ii + game_nb_rows(g)` is again unsigned, reduced modulo the
number of rows and stored in an `int`. -/
def game_get_ajacent_square (g : game) (i j : Nat) (d : direction) : Option (Nat × Nat) :=
  let h := game_nb_rows g
  let w := game_nb_cols g
  let i_offset := (DIR2OFFSET d).1
  let j_offset := (DIR2OFFSET d).2
  let ii := to_int (to_uint ((i : Int) + i_offset))
  let jj := to_int (to_uint ((j : Int) + j_offset))
  let ii := if game_is_wrapping g then to_int (to_uint (ii + (h : Int)) % (h : Int)) else ii
  let jj := if game_is_wrapping g then to_int (to_uint (jj + (w : Int)) % (w : Int)) else jj
  if ii < 0 ∨ ii ≥ to_int (h : Int) then none
  else if jj < 0 ∨ jj ≥ to_int (w : Int) then none
  else some (ii.toNat, jj.toNat)

/-- Function `game_has_half_edge`. -/
def game_has_half_edge (g : game) (i j : Nat) (d : direction) : Bool :=
  let s := game_get_piece_shape g i j
  let o := game_get_piece_orientation g i j
  match s with
  | .EMPTY => false
  | .ENDPOINT => d == o
  | .SEGMENT => d == o || d == OPPOSITE_DIR o
  | .TEE => d != OPPOSITE_DIR o
  | .CORNER => d == o || d == NEXT_DIR_CW o
  | .CROSS => true

/-- Function `game_check_edge`. -/
def game_check_edge (g : game) (i j : Nat) (d : direction) : edge_status :=
  let hasHE1 := game_has_half_edge g i j d
  let hasHE2 :=
    match game_get_ajacent_square g i j d with
    | some (i_next, j_next) => game_has_half_edge g i_next j_next (OPPOSITE_DIR d)
    | none => false
  if hasHE1 && hasHE2 then edge_status.MATCH
  else if hasHE1 || hasHE2 then edge_status.MISMATCH
  else edge_status.NOEDGE

/-- Function `game_is_well_paired`: the three nested loops return false at the
first MISMATCH. -/
def game_is_well_paired (g : game) : Bool :=
  (List.range (game_nb_rows g)).all fun i =>
    (List.range (game_nb_cols g)).all fun j =>
      all_dirs.all fun d => game_check_edge g i j d != edge_status.MISMATCH

/-- First loop of `game_is_connected`: the first non-empty cell in row-major
order, `none` when `start_i` stays at -1. -/
def find_start (g : game) : Option (Nat × Nat) :=
  (List.range (game_nb_rows g)).findSome? fun i =>
    (List.range (game_nb_cols g)).findSome? fun j =>
      if game_get_piece_shape g i j != shape.EMPTY then some (i, j) else none

/-- State of the flood fill of `game_is_connected`: the work stack (top first,
one entry per pushed pair) and the `visited` array. -/
structure fill_state where
  stack : List (Nat × Nat)
  visited : List Bool
  deriving DecidableEq

/-- Body of the loop `for (d = 0; d < NB_DIRS; d++)` of the flood fill, at the
popped cell `(i, j)`. -/
def fill_push (g : game) (i j : Nat) (st : fill_state) (d : direction) : fill_state :=
  match game_get_ajacent_square g i j d with
  | some (i_next, j_next) =>
    if game_has_half_edge g i j d && game_check_edge g i j d == edge_status.MATCH
        && !(st.visited.getD ((i_next * game_nb_cols g + j_next) % 4294967296) false) then
      { st with stack := (i_next, j_next) :: st.stack }
    else st
  | none => st

/-- One iteration of the loop `while (stack_top > 0)`. -/
def fill_step (g : game) (st : fill_state) : fill_state :=
  match st.stack with
  | [] => st
  | (i, j) :: rest =>
    if st.visited.getD ((i * game_nb_cols g + j) % 4294967296) false then
      { st with stack := rest }
    else
      all_dirs.foldl (fill_push g i j)
        { stack := rest
          visited := st.visited.set ((i * game_nb_cols g + j) % 4294967296) true }

/-- Loop `while (stack_top > 0)` of the flood fill, bounded by a fuel. -/
def fill_loop (g : game) : Nat → fill_state → fill_state
  | 0, st => st
  | fuel + 1, st =>
    match st.stack with
    | [] => st
    | _ :: _ => fill_loop g fuel (fill_step g st)

/-- Function `game_is_connected`: the value that a run returns.  The work
stack is a list, so that a push is always possible; the capacity of the C
array is not part of this function, it is part of
`game_is_connected_checked`. -/
def game_is_connected (g : game) : Bool :=
  let h := game_nb_rows g
  let w := game_nb_cols g
  let stack_size := (h * w) % 4294967296
  match find_start g with
  | none => true
  | some (start_i, start_j) =>
    let st := fill_loop g (4 * (h * w) + 1)
      { stack := [(start_i, start_j)], visited := List.replicate stack_size false }
    (List.range h).all fun i =>
      (List.range w).all fun j =>
        !(game_get_piece_shape g i j != shape.EMPTY &&
          !(st.visited.getD ((i * w + j) % 4294967296) false))

/-- Function `game_won`. -/
def game_won (g : game) : Bool :=
  game_is_connected g && game_is_well_paired g

/-- Number of `int`s of the array `stack` of `game_is_connected`: the argument
of `malloc` is `2 * stack_size * sizeof(int)`, in which `stack_size = h * w`
and `2 * stack_size` are products of `unsigned int`. -/
def stack_capacity (g : game) : Nat :=
  (2 * ((game_nb_rows g * game_nb_cols g) % 4294967296)) % 4294967296

/-- The two statements `stack[stack_top++] = i; stack[stack_top++] = j;` on a
stack that holds `n` pairs stay inside the array `stack`, and `stack_top`, an
`int`, does not overflow. -/
def push_fits (g : game) (n : Nat) : Bool :=
  decide (2 * n + 2 ≤ stack_capacity g) && decide (2 * n + 2 ≤ 2147483647)

/-- Body of the loop `for (d = 0; d < NB_DIRS; d++)` of the flood fill with the
array `stack` of the source: `none` when the push writes past its end. -/
def fill_push_checked (g : game) (i j : Nat) (st : fill_state) (d : direction) :
    Option fill_state :=
  match game_get_ajacent_square g i j d with
  | some (i_next, j_next) =>
    if game_has_half_edge g i j d && game_check_edge g i j d == edge_status.MATCH
        && !(st.visited.getD ((i_next * game_nb_cols g + j_next) % 4294967296) false) then
      if push_fits g st.stack.length then some { st with stack := (i_next, j_next) :: st.stack }
      else none
    else some st
  | none => some st

/-- One iteration of the loop `while (stack_top > 0)` with the array `stack` of
the source. -/
def fill_step_checked (g : game) (st : fill_state) : Option fill_state :=
  match st.stack with
  | [] => some st
  | (i, j) :: rest =>
    if st.visited.getD ((i * game_nb_cols g + j) % 4294967296) false then
      some { st with stack := rest }
    else
      all_dirs.foldl (fun st d => st.bind fun st => fill_push_checked g i j st d)
        (some { stack := rest
                visited := st.visited.set ((i * game_nb_cols g + j) % 4294967296) true })

/-- Loop `while (stack_top > 0)` with the array `stack` of the source, bounded
by a fuel. -/
def fill_loop_checked (g : game) : Nat → fill_state → Option fill_state
  | 0, st => some st
  | fuel + 1, st =>
    match st.stack with
    | [] => some st
    | _ :: _ =>
      match fill_step_checked g st with
      | some st => fill_loop_checked g fuel st
      | none => none

/-- Function `game_is_connected` with the array `stack` of the source: `none`
when a push writes past the end of the array. -/
def game_is_connected_checked (g : game) : Option Bool :=
  let h := game_nb_rows g
  let w := game_nb_cols g
  let stack_size := (h * w) % 4294967296
  match find_start g with
  | none => some true
  | some (start_i, start_j) =>
    if push_fits g 0 then
      match fill_loop_checked g (4 * (h * w) + 1)
          { stack := [(start_i, start_j)], visited := List.replicate stack_size false } with
      | some st =>
        some ((List.range h).all fun i =>
          (List.range w).all fun j =>
            !(game_get_piece_shape g i j != shape.EMPTY &&
              !(st.visited.getD ((i * w + j) % 4294967296) false)))
      | none => none
    else none

/-- Function `game_won` on top of `game_is_connected_checked`; the operator
`&&` calls `game_is_well_paired` only when `game_is_connected` returned
true. -/
def game_won_checked (g : game) : Option Bool :=
  match game_is_connected_checked g with
  | some c => some (c && game_is_well_paired g)
  | none => none

/-- Function `game_play_move`.  The enumeration `direction` has no negative
value and is an `unsigned int`, so `old + nb_quarter_turns + NB_DIRS` is
computed modulo `2^32` before the remainder by `NB_DIRS` is taken. -/
def game_play_move (g : game) (i j : Nat) (nb_quarter_turns : Int) : game :=
  let old := game_get_piece_orientation g i j
  let new := dir_of_val
    (Int.toNat (to_uint ((dir_val old : Int) + nb_quarter_turns + (NB_DIRS : Int))) % NB_DIRS)
  let g := game_set_piece_orientation g i j new
  { g with redo_mooves := [], undo_mooves := { i := i, j := j, old := old, new := new } :: g.undo_mooves }

/-- Function `game_undo`. -/
def game_undo (g : game) : game :=
  match g.undo_mooves with
  | [] => g
  | m :: rest =>
    let g := { g with undo_mooves := rest }
    let g := game_set_piece_orientation g m.i m.j m.old
    { g with redo_mooves := m :: g.redo_mooves }

/-- Function `game_redo`. -/
def game_redo (g : game) : game :=
  match g.redo_mooves with
  | [] => g
  | m :: rest =>
    let g := { g with redo_mooves := rest }
    let g := game_set_piece_orientation g m.i m.j m.new
    { g with undo_mooves := m :: g.undo_mooves }

/-! ## game_tools.c: the solver -/

/-- Table `directions`: NORTH_B, EAST_B, SOUTH_B, WEST_B. -/
def directions : direction → Nat
  | .NORTH => 1
  | .EAST => 2
  | .SOUTH => 4
  | .WEST => 8

/-- Function `init_Array`, on an array `t_shape` of `uint8_t`. -/
def init_Array (g : game) (t_shape : List Nat) : List Nat :=
  let nb_rows := game_nb_rows g
  let nb_cols := game_nb_cols g
  for_cells nb_rows nb_cols
    (fun i j t_shape =>
      let s := game_get_piece_shape g i j
      let t_shape := t_shape.set (i * nb_cols + j) 0
      match s with
      | .EMPTY | .CROSS =>
        t_shape.set (i * nb_cols + j) (t_shape.getD (i * nb_cols + j) 0 ||| 1)
      | .SEGMENT =>
        t_shape.set (i * nb_cols + j) (t_shape.getD (i * nb_cols + j) 0 ||| (1 ||| 2))
      | _ =>
        t_shape.set (i * nb_cols + j) (t_shape.getD (i * nb_cols + j) 0 ||| (((8 ||| 2) ||| 1) ||| 4)))
    t_shape

/-- Statement `t_shape[i * nb_cols + j] &= ~directions[d]` on `uint8_t`. -/
def clear_dir (g : game) (i j : Nat) (d : direction) (t_shape : List Nat) : List Nat :=
  t_shape.set (i * game_nb_cols g + j)
    (t_shape.getD (i * game_nb_cols g + j) 0 &&& (255 - directions d))

/-- Counting loop at the end of `isMismatch`: `n` iterations left, `nb_piece`
counted so far; true when `nb_piece` reaches 3.  The loop tests the piece at
`(i, j)` at every iteration, as the source does. -/
def facing_loop (g : game) (i j : Nat) : Nat → Nat → Bool
  | 0, _ => false
  | n + 1, nb_piece =>
    let nb_piece := if game_get_piece_shape g i j != shape.EMPTY then nb_piece + 1 else nb_piece
    if nb_piece == 3 then true else facing_loop g i j n nb_piece

/-- Function `isMismatch`; returns the result and the array `t_shape` after the
call.  `nb_rows - 1` and `nb_cols - 1` are unsigned. -/
def isMismatch (g : game) (i j : Nat) (d : direction) (t_shape : List Nat) : Bool × List Nat :=
  let nb_cols := game_nb_cols g
  let nb_rows := game_nb_rows g
  let last_row := (nb_rows + 4294967295) % 4294967296
  let last_col := (nb_cols + 4294967295) % 4294967296
  let isEndpoint := game_get_piece_shape g i j == shape.ENDPOINT
  let wrapping := game_is_wrapping g
  if !wrapping && i == 0 && game_check_edge g i j direction.NORTH == edge_status.MISMATCH then
    (true, clear_dir g i j d t_shape)
  else if !wrapping && j == 0 && game_check_edge g i j direction.WEST == edge_status.MISMATCH then
    (true, clear_dir g i j d t_shape)
  else if !wrapping && i == last_row
      && game_check_edge g i j direction.SOUTH == edge_status.MISMATCH then
    (true, clear_dir g i j d t_shape)
  else if !wrapping && j == last_col
      && game_check_edge g i j direction.EAST == edge_status.MISMATCH then
    (true, clear_dir g i j d t_shape)
  else if decide (i ≥ 1) && game_check_edge g i j direction.NORTH == edge_status.MISMATCH then
    let s := game_get_piece_shape g (i - 1) j
    (true, if s == shape.EMPTY || s == shape.CROSS then clear_dir g i j d t_shape else t_shape)
  else if decide (j ≥ 1) && game_check_edge g i j direction.WEST == edge_status.MISMATCH then
    let s := game_get_piece_shape g i (j - 1)
    (true, if s == shape.EMPTY || s == shape.CROSS then clear_dir g i j d t_shape else t_shape)
  else if game_is_wrapping g && i == last_row
      && game_check_edge g i j direction.SOUTH == edge_status.MISMATCH then
    let s := game_get_piece_shape g 0 j
    (true, if s == shape.EMPTY || s == shape.CROSS then clear_dir g i j d t_shape else t_shape)
  else if game_is_wrapping g && j == last_col
      && game_check_edge g i j direction.EAST == edge_status.MISMATCH then
    let s := game_get_piece_shape g i 0
    (true, if s == shape.EMPTY || s == shape.CROSS then clear_dir g i j d t_shape else t_shape)
  else if isEndpoint && decide (nb_cols * nb_rows > 2)
      && game_check_edge g i j d == edge_status.MATCH then
    let next := (game_get_ajacent_square g i j d).getD (0, 0)
    if game_get_piece_shape g next.1 next.2 == shape.ENDPOINT then
      if facing_loop g i j (nb_cols * nb_rows) 0 then (true, clear_dir g i j d t_shape)
      else (false, t_shape)
    else (false, t_shape)
  else (false, t_shape)

/-- State threaded through `solve_rec`: the value returned by the last call,
the working game, the counter behind the pointer `count` (`none` when the
pointer is NULL) and the array `t_shape`. -/
structure solve_state where
  ret : Bool
  g : game
  count : Option Nat
  t_shape : List Nat
  deriving DecidableEq

/-- Function `solve_rec`.  The fuel bounds the depth of the recursion: one more
than the number of cells left is enough.  The counter is an `unsigned int`. -/
def solve_rec : Nat → game → Nat → Nat → Option Nat → List Nat → solve_state
  | 0, g, _, _, count, t_shape => { ret := false, g := g, count := count, t_shape := t_shape }
  | fuel + 1, g, pos, size, count, t_shape =>
    if pos == size then
      let won := game_won g
      { ret := won
        g := g
        count := if won then count.map (fun c => (c + 1) % 4294967296) else count
        t_shape := t_shape }
    else
      let nb_cols := game_nb_cols g
      let j := pos % game_nb_cols g
      let i := pos / game_nb_cols g
      all_dirs.foldl
        (fun (st : solve_state) (d : direction) =>
          if st.ret then st
          else if st.t_shape.getD (i * nb_cols + j) 0 &&& directions d != 0 then
            let g := game_set_piece_orientation st.g i j d
            let mm := isMismatch g i j d st.t_shape
            if !mm.1 then
              let r := solve_rec fuel g (pos + 1) size st.count mm.2
              { r with ret := r.ret && r.count.isNone }
            else { st with g := g, t_shape := mm.2 }
          else st)
        { ret := false, g := g, count := count, t_shape := t_shape }

/-- The game behind the pointer `p` in the memory `mem`: the games that exist
are the entries of `mem` and a pointer is a position in `mem`.  A pointer that
names no game reads as a grid without cells. -/
def mem_read (mem : List game) (p : Nat) : game :=
  mem.getD p (game_new_empty_ext 0 0 false)

/-- Function `game_nb_solutions` on the memory `mem`, called with the pointer
`g`; returns the counter and the memory after the call.  `game_copy` allocates
a new game, behind the games that exist; `init_Array` and `solve_rec` are
called with the pointer `g_copy`, and what `solve_rec` writes goes to the game
behind that pointer; `game_delete` frees it. -/
def game_nb_solutions_mem (mem : List game) (g : Nat) : Nat × List game :=
  let g_copy := mem.length
  let mem := mem ++ [game_copy (mem_read mem g)]
  let nb_sols := 0
  let size := game_nb_cols (mem_read mem g) * game_nb_rows (mem_read mem g)
  let t_shape := init_Array (mem_read mem g_copy) (List.replicate size 0)
  let r := solve_rec (size + 1) (mem_read mem g_copy) 0 size (some nb_sols) t_shape
  let mem := mem.set g_copy r.g
  let mem := mem.eraseIdx g_copy
  (r.count.getD 0, mem)

/-- Function `game_nb_solutions` called on a game `g` that is alone in the
memory; returns the counter and the game behind the pointer `g` after the
call. -/
def game_nb_solutions (g : game) : Nat × game :=
  let r := game_nb_solutions_mem [g] 0
  (r.1, mem_read r.2 0)

/-- Function `game_solve`; returns the result and the game `g` as it is after
the call. -/
def game_solve (g : game) : Bool × game :=
  if game_won g then (true, g)
  else
    let g_copy := game_copy g
    let size := game_nb_cols g * game_nb_rows g
    let t_shape := init_Array g_copy (List.replicate size 0)
    let r := solve_rec (size + 1) g_copy 0 size none t_shape
    let g :=
      if r.ret then
        for_cells (game_nb_rows g) (game_nb_cols g)
          (fun i j g =>
            game_set_piece_shape
              (game_set_piece_orientation g i j (game_get_piece_orientation r.g i j))
              i j (game_get_piece_shape r.g i j))
          g
      else g
    (game_won g, g)

/-- Function `solve_rec` on top of `game_won_checked`: `none` when a call of
`game_won` writes past the end of its work stack. -/
def solve_rec_checked : Nat → game → Nat → Nat → Option Nat → List Nat → Option solve_state
  | 0, g, _, _, count, t_shape =>
    some { ret := false, g := g, count := count, t_shape := t_shape }
  | fuel + 1, g, pos, size, count, t_shape =>
    if pos == size then
      match game_won_checked g with
      | some won =>
        some { ret := won
               g := g
               count := if won then count.map (fun c => (c + 1) % 4294967296) else count
               t_shape := t_shape }
      | none => none
    else
      let nb_cols := game_nb_cols g
      let j := pos % game_nb_cols g
      let i := pos / game_nb_cols g
      all_dirs.foldl
        (fun (st : Option solve_state) (d : direction) =>
          match st with
          | none => none
          | some st =>
            if st.ret then some st
            else if st.t_shape.getD (i * nb_cols + j) 0 &&& directions d != 0 then
              let g := game_set_piece_orientation st.g i j d
              let mm := isMismatch g i j d st.t_shape
              if !mm.1 then
                match solve_rec_checked fuel g (pos + 1) size st.count mm.2 with
                | some r => some { r with ret := r.ret && r.count.isNone }
                | none => none
              else some { st with g := g, t_shape := mm.2 }
            else some st)
        (some { ret := false, g := g, count := count, t_shape := t_shape })

/-- Function `game_nb_solutions` on top of `solve_rec_checked`: the counter,
or `none` when a call of `game_won` writes past the end of its work stack. -/
def game_nb_solutions_checked (g : game) : Option Nat :=
  let g_copy := game_copy g
  let nb_sols := 0
  let size := game_nb_cols g * game_nb_rows g
  let t_shape := init_Array g_copy (List.replicate size 0)
  match solve_rec_checked (size + 1) g_copy 0 size (some nb_sols) t_shape with
  | some r => some (r.count.getD 0)
  | none => none

/-- Function `game_solve` on top of `game_won_checked` and `solve_rec_checked`:
the result and the game `g` after the call, or `none` when a call of
`game_won` writes past the end of its work stack. -/
def game_solve_checked (g : game) : Option (Bool × game) :=
  match game_won_checked g with
  | none => none
  | some true => some (true, g)
  | some false =>
    let g_copy := game_copy g
    let size := game_nb_cols g * game_nb_rows g
    let t_shape := init_Array g_copy (List.replicate size 0)
    match solve_rec_checked (size + 1) g_copy 0 size none t_shape with
    | none => none
    | some r =>
      let g :=
        if r.ret then
          for_cells (game_nb_rows g) (game_nb_cols g)
            (fun i j g =>
              game_set_piece_shape
                (game_set_piece_orientation g i j (game_get_piece_orientation r.g i j))
                i j (game_get_piece_shape r.g i j))
            g
        else g
      match game_won_checked g with
      | some won => some (won, g)
      | none => none

/-! ## game.c, game_ext.c and game_aux.c: construction, comparison, reset -/

/-- Function `game_new_ext`; an absent array (NULL pointer) is `none`.  The
arrays are read at the row-major index `i * nb_cols + j`, computed in
`unsigned int`. -/
def game_new_ext (nb_rows nb_cols : Nat) (shapes : Option (List shape))
    (orientations : Option (List direction)) (wrapping : Bool) : game :=
  let g := game_new_empty_ext nb_rows nb_cols wrapping
  if shapes.isNone && orientations.isNone then g
  else
    for_cells nb_rows nb_cols
      (fun i j g =>
        let g :=
          match shapes with
          | some l =>
            game_set_piece_shape g i j (l.getD ((i * nb_cols + j) % 4294967296) shape.EMPTY)
          | none => g
        match orientations with
        | some l =>
          game_set_piece_orientation g i j
            (l.getD ((i * nb_cols + j) % 4294967296) direction.NORTH)
        | none => g)
      g

/-- Modelled from the spec: the constant `DEFAULT_SIZE` of game.h, a header that
is not among the sources; the default layout is 5 by 5. -/
def DEFAULT_SIZE : Nat := 5

/-- Function `game_new`. -/
def game_new (shapes : Option (List shape)) (orientations : Option (List direction)) : game :=
  game_new_ext DEFAULT_SIZE DEFAULT_SIZE shapes orientations false

/-- Function `game_new_empty`. -/
def game_new_empty : game := game_new_empty_ext DEFAULT_SIZE DEFAULT_SIZE false

/-- Function `game_equal`: each test that returns false in the source is a
conjunct here. -/
def game_equal (g1 g2 : game) (ignore_orientation : Bool) : Bool :=
  if game_nb_cols g1 != game_nb_cols g2 || game_nb_rows g1 != game_nb_rows g2 then false
  else if game_is_wrapping g1 != game_is_wrapping g2 then false
  else
    (List.range (game_nb_rows g1)).all fun i =>
      (List.range (game_nb_cols g1)).all fun j =>
        (ignore_orientation ||
          !(game_get_piece_orientation g1 i j != game_get_piece_orientation g2 i j)) &&
        !(game_get_piece_shape g1 i j != game_get_piece_shape g2 i j)

/-- Function `game_reset_orientation`; `_stack_clear` leaves an empty stack. -/
def game_reset_orientation (g : game) : game :=
  let g := for_cells (game_nb_rows g) (game_nb_cols g)
    (fun i j g => game_set_piece_orientation g i j direction.NORTH) g
  { g with undo_mooves := [], redo_mooves := [] }

/-- Table `default_p`. -/
def default_p : List shape :=
  [shape.CORNER, shape.ENDPOINT, shape.ENDPOINT, shape.CORNER, shape.ENDPOINT,
   shape.TEE, shape.TEE, shape.TEE, shape.TEE, shape.TEE,
   shape.ENDPOINT, shape.ENDPOINT, shape.TEE, shape.ENDPOINT, shape.SEGMENT,
   shape.ENDPOINT, shape.TEE, shape.TEE, shape.CORNER, shape.SEGMENT,
   shape.ENDPOINT, shape.TEE, shape.ENDPOINT, shape.ENDPOINT, shape.ENDPOINT]

/-- Table `default_o`. -/
def default_o : List direction :=
  [direction.WEST, direction.NORTH, direction.WEST, direction.NORTH, direction.SOUTH,
   direction.SOUTH, direction.WEST, direction.NORTH, direction.EAST, direction.EAST,
   direction.EAST, direction.NORTH, direction.WEST, direction.WEST, direction.EAST,
   direction.SOUTH, direction.SOUTH, direction.NORTH, direction.WEST, direction.NORTH,
   direction.EAST, direction.WEST, direction.SOUTH, direction.EAST, direction.SOUTH]

/-- Table `default_s`. -/
def default_s : List direction :=
  [direction.EAST, direction.WEST, direction.EAST, direction.SOUTH, direction.SOUTH,
   direction.EAST, direction.SOUTH, direction.SOUTH, direction.NORTH, direction.WEST,
   direction.NORTH, direction.NORTH, direction.EAST, direction.WEST, direction.SOUTH,
   direction.EAST, direction.SOUTH, direction.NORTH, direction.SOUTH, direction.NORTH,
   direction.EAST, direction.NORTH, direction.WEST, direction.NORTH, direction.NORTH]

/-- Function `game_default`. -/
def game_default : game := game_new (some default_p) (some default_o)

/-- Function `game_default_solution`. -/
def game_default_solution : game := game_new (some default_p) (some default_s)

/-! ## game_tools.c: saving and loading

A file is the list of its characters.  The calls of the C library are modelled
as far as `game_save` exercises them: `fprintf` with `%u` and `%c`, `fscanf`
with `%u`, `%c` and white space in the format. -/

/-- Table `shapeToChar`. -/
def shapeToChar : shape → Char
  | .EMPTY => 'E'
  | .ENDPOINT => 'N'
  | .SEGMENT => 'S'
  | .CORNER => 'C'
  | .TEE => 'T'
  | .CROSS => 'X'

/-- Table `directionToChar`. -/
def directionToChar : direction → Char
  | .NORTH => 'N'
  | .EAST => 'E'
  | .SOUTH => 'S'
  | .WEST => 'W'

/-- Table `shape_map`, indexed by an `unsigned char`; the entries without an
initialiser are zero, that is EMPTY. -/
def shape_map (c : Char) : shape :=
  if c = 'E' then shape.EMPTY
  else if c = 'N' then shape.ENDPOINT
  else if c = 'S' then shape.SEGMENT
  else if c = 'C' then shape.CORNER
  else if c = 'T' then shape.TEE
  else if c = 'X' then shape.CROSS
  else shape.EMPTY

/-- Table `direction_map`, indexed by an `unsigned char`; the entries without
an initialiser are zero, that is NORTH. -/
def direction_map (c : Char) : direction :=
  if c = 'N' then direction.NORTH
  else if c = 'E' then direction.EAST
  else if c = 'S' then direction.SOUTH
  else if c = 'W' then direction.WEST
  else direction.NORTH

/-- The space character of the formats. -/
def SPACE : Char := Char.ofNat 32

/-- The newline character of the formats. -/
def NEWLINE : Char := Char.ofNat 10

/-- C library `isspace` in the C locale: space, and the characters from
horizontal tab (9) to carriage return (13). -/
def isspace (c : Char) : Bool :=
  c.toNat == 32 || (9 ≤ c.toNat && c.toNat ≤ 13)

/-- C library `isdigit`. -/
def isdigit (c : Char) : Bool :=
  48 ≤ c.toNat && c.toNat ≤ 57

/-- Conversion `%u` of `fprintf`: the decimal digits of `n`, most significant
first, put in front of `acc`.  The first argument bounds the number of digits. -/
def print_uint_aux : Nat → Nat → List Char → List Char
  | 0, _, acc => acc
  | fuel + 1, n, acc =>
    if n < 10 then Char.ofNat (48 + n) :: acc
    else print_uint_aux fuel (n / 10) (Char.ofNat (48 + n % 10) :: acc)

/-- Conversion `%u` of `fprintf` for a `uint`, which has at most ten digits. -/
def print_uint (n : Nat) : List Char := print_uint_aux 10 n []

/-- Function `game_save`: the text written to the file. -/
def game_save (g : game) : List Char :=
  let f := print_uint (game_nb_rows g) ++ [SPACE] ++ print_uint (game_nb_cols g) ++ [SPACE] ++
    print_uint (if game_is_wrapping g then 1 else 0) ++ [NEWLINE]
  (List.range (game_nb_rows g)).foldl
    (fun f i =>
      (List.range (game_nb_cols g)).foldl
        (fun f j =>
          let s := game_get_piece_shape g i j
          let d := game_get_piece_orientation g i j
          let shape_char := shapeToChar s
          let direction_char := directionToChar d
          f ++ [shape_char, direction_char, SPACE])
        f ++ [NEWLINE])
    f

/-- White space in a format of `fscanf`, and the white space that `%u` skips:
the longest run of white-space characters is consumed. -/
def skip_space : List Char → List Char
  | [] => []
  | c :: cs => if isspace c then skip_space cs else c :: cs

/-- The longest run of decimal digits, accumulated onto `v`. -/
def scan_digits : List Char → Nat → Nat × List Char
  | [], v => (v, [])
  | c :: cs, v => if isdigit c then scan_digits cs (10 * v + (c.toNat - 48)) else (v, c :: cs)

/-- Conversion `%u` of `fscanf`: the value and the rest of the input, or `none`
for a matching failure.  A sign, which the conversion also accepts, and a value
that does not fit a `uint` are treated as failures: `game_save` writes
neither. -/
def scan_uint (f : List Char) : Option (Nat × List Char) :=
  match skip_space f with
  | [] => none
  | c :: cs =>
    if isdigit c then
      let r := scan_digits (c :: cs) 0
      if r.1 < 4294967296 then some r else none
    else none

/-- Call `fscanf(f, "%u %u %u\n", &nb_rows, &nb_cols, &wrapping)` of
`game_load`; `none` when it does not return 3. -/
def scan_header (f : List Char) : Option (Nat × Nat × Nat × List Char) :=
  match scan_uint f with
  | none => none
  | some (nb_rows, f) =>
    match scan_uint (skip_space f) with
    | none => none
    | some (nb_cols, f) =>
      match scan_uint (skip_space f) with
      | none => none
      | some (wrapping, f) => some (nb_rows, nb_cols, wrapping, skip_space f)

/-- Call `fscanf(f, " %c%c", &shape_char, &direction_char)` of `game_load`;
`none` when it does not return 2. -/
def scan_cell (f : List Char) : Option (Char × Char × List Char) :=
  match skip_space f with
  | shape_char :: direction_char :: f => some (shape_char, direction_char, f)
  | _ => none

/-- Body of the double loop of `game_load` on the rest of the file and the two
arrays; `none` when an assertion fails.  The index is a `uint`. -/
def load_cell (nb_cols i j : Nat) (st : List Char × List shape × List direction) :
    Option (List Char × List shape × List direction) :=
  match scan_cell st.1 with
  | none => none
  | some (shape_char, direction_char, f) =>
    if (shape_map shape_char != shape.EMPTY || shape_char == 'E') &&
        (direction_map direction_char != direction.NORTH || direction_char == 'N') then
      some (f, st.2.1.set ((i * nb_cols + j) % 4294967296) (shape_map shape_char),
        st.2.2.set ((i * nb_cols + j) % 4294967296) (direction_map direction_char))
    else none

/-- Function `game_load` on the text of the file; `none` when an assertion
fails.  The two arrays have `nb_rows * nb_cols` entries, a product of `uint`;
`malloc` may return a null pointer for the size zero, which fails the
assertion, and leaves the entries indeterminate: they start here as EMPTY and
NORTH and the loop writes each of them. -/
def game_load (f : List Char) : Option game :=
  match scan_header f with
  | none => none
  | some (nb_rows, nb_cols, wrapping, f) =>
    let size := (nb_rows * nb_cols) % 4294967296
    if size = 0 then none
    else
      match for_cells nb_rows nb_cols (fun i j st => st.bind (load_cell nb_cols i j))
          (some (f, List.replicate size shape.EMPTY, List.replicate size direction.NORTH)) with
      | none => none
      | some (_, shapes, directions) =>
        some (game_new_ext nb_rows nb_cols (some shapes) (some directions) (wrapping != 0))

/-! ## game_private.c: the piece codec -/

/-- The six shapes in the order of the loop `for (i = 0; i < NB_SHAPES; i++)`. -/
def all_shapes : List shape :=
  [shape.EMPTY, shape.ENDPOINT, shape.SEGMENT, shape.CORNER, shape.TEE, shape.CROSS]

/-- Table `_code`: the four least significant bits hold the half-edges in the
order N-E-S-W. -/
def _code : shape → direction → Nat
  | .EMPTY, .NORTH => 0b0000
  | .EMPTY, .EAST => 0b0000
  | .EMPTY, .SOUTH => 0b0000
  | .EMPTY, .WEST => 0b0000
  | .ENDPOINT, .NORTH => 0b1000
  | .ENDPOINT, .EAST => 0b0100
  | .ENDPOINT, .SOUTH => 0b0010
  | .ENDPOINT, .WEST => 0b0001
  | .SEGMENT, .NORTH => 0b1010
  | .SEGMENT, .EAST => 0b0101
  | .SEGMENT, .SOUTH => 0b1010
  | .SEGMENT, .WEST => 0b0101
  | .CORNER, .NORTH => 0b1100
  | .CORNER, .EAST => 0b0110
  | .CORNER, .SOUTH => 0b0011
  | .CORNER, .WEST => 0b1001
  | .TEE, .NORTH => 0b1101
  | .TEE, .EAST => 0b1110
  | .TEE, .SOUTH => 0b0111
  | .TEE, .WEST => 0b1011
  | .CROSS, .NORTH => 0b1111
  | .CROSS, .EAST => 0b1111
  | .CROSS, .SOUTH => 0b1111
  | .CROSS, .WEST => 0b1111

/-- Function `_encode_shape`. -/
def _encode_shape (s : shape) (o : direction) : Nat := _code s o

/-- Function `_decode_shape`: the first entry of `_code`, in the order of the
two nested loops, that is equal to `code`; `none` stands for the result
`false`. -/
def _decode_shape (code : Nat) : Option (shape × direction) :=
  all_shapes.findSome? fun i =>
    all_dirs.findSome? fun j =>
      if code == _code i j then some (i, j) else none

/-! ## game_private.c: adding an edge -/

/-- Function `_add_half_edge`; `none` when an assertion fails (the assertions
of the function itself, and the one of `_decode_shape` on the range of the
code). -/
def _add_half_edge (g : game) (i j : Nat) (d : direction) : Option game :=
  if i < game_nb_rows g ∧ j < game_nb_cols g then
    let s := game_get_piece_shape g i j
    let o := game_get_piece_orientation g i j
    let code := _encode_shape s o
    let mask := 0b1000 >>> dir_val d
    if code &&& mask = 0 then
      let newcode := code ||| mask
      if newcode < 16 then
        match _decode_shape newcode with
        | some (news, newo) =>
          let g := game_set_piece_shape g i j news
          some (game_set_piece_orientation g i j newo)
        | none => none
      else none
    else none
  else none

/-- Function `_add_edge`: the result and the game after the call; `none` when
an assertion fails. -/
def _add_edge (g : game) (i j : Nat) (d : direction) : Option (Bool × game) :=
  if i < game_nb_rows g ∧ j < game_nb_cols g then
    match game_get_ajacent_square g i j d with
    | none => some (false, g)
    | some (nexti, nextj) =>
      let he := game_has_half_edge g i j d
      if he then some (false, g)
      else
        let next_he := game_has_half_edge g nexti nextj (OPPOSITE_DIR d)
        if next_he then some (false, g)
        else
          match _add_half_edge g i j d with
          | none => none
          | some g =>
            match _add_half_edge g nexti nextj (OPPOSITE_DIR d) with
            | none => none
            | some g => some (true, g)
  else none

/-! ## Auxiliary definitions used to state and prove the properties -/

/-- Neighbour of coordinate `x` in a dimension of size `n`, one step down
(`off = -1`), none (`off = 0`) or up (`off = 1`), without the machine
arithmetic. -/
def coord_next (wrapping : Bool) (n x : Nat) (off : Int) : Option Nat :=
  if off = -1 then
    if x = 0 then (if wrapping then some (n - 1) else none) else some (x - 1)
  else if off = 1 then
    if x + 1 = n then (if wrapping then some 0 else none) else some (x + 1)
  else some x

/-- Result of `game_get_ajacent_square` without the machine arithmetic. -/
def adj_plain (g : game) (i j : Nat) (d : direction) : Option (Nat × Nat) :=
  match coord_next g.is_wrapping g.HEIGHT i (DIR2OFFSET d).1,
        coord_next g.is_wrapping g.WIDTH j (DIR2OFFSET d).2 with
  | some i_next, some j_next => some (i_next, j_next)
  | _, _ => none

/-- One coordinate of `game_get_ajacent_square`, before the range test. -/
def coord_raw (wrapping : Bool) (n x : Nat) (off : Int) : Int :=
  let ii := to_int (to_uint ((x : Int) + off))
  if wrapping then to_int (to_uint (ii + (n : Int)) % (n : Int)) else ii

/-- Cells of an `h` by `w` grid in row-major order. -/
def cells (h w : Nat) : List (Nat × Nat) :=
  (List.range h).flatMap fun i => (List.range w).map fun j => (i, j)

/-- The loop shared by `game_copy` and the write-back of `game_solve`: copy the
orientation and the shape of every cell of `src` into `dst`. -/
def copy_loop (src : game) (h w : Nat) (dst : game) : game :=
  for_cells h w
    (fun i j a =>
      game_set_piece_shape
        (game_set_piece_orientation a i j (game_get_piece_orientation src i j))
        i j (game_get_piece_shape src i j))
    dst

/-- Everything of a game but the contents of the orientation array. -/
def same_frame (g g' : game) : Prop :=
  g'.HEIGHT = g.HEIGHT ∧ g'.WIDTH = g.WIDTH ∧ g'.is_wrapping = g.is_wrapping ∧
    g'.tab_shape = g.tab_shape ∧ g'.tab_direction.length = g.tab_direction.length ∧
    g'.undo_mooves = g.undo_mooves ∧ g'.redo_mooves = g.redo_mooves

/-- Orientations that give pairwise different sets of half-edges to a piece of
shape `s`: one for Empty and Cross, two for Segment, four otherwise. -/
def distinct_orientations : shape → List direction
  | .EMPTY => [direction.NORTH]
  | .CROSS => [direction.NORTH]
  | .SEGMENT => [direction.NORTH, direction.EAST]
  | _ => all_dirs

/-- All orientation arrays for the shape array `shapes` that differ in the
half-edges of at least one cell. -/
def orientation_assignments : List shape → List (List direction)
  | [] => [[]]
  | s :: rest =>
    (distinct_orientations s).flatMap fun o => (orientation_assignments rest).map fun os => o :: os

/-- Number of orientation assignments of the shapes of `g` that satisfy
`game_won`, assignments with the same half-edges in every cell counted once. -/
def nb_winning_assignments (g : game) : Nat :=
  ((orientation_assignments g.tab_shape).filter
    fun os => game_won { g with tab_direction := os }).length

/-- A 1 by 3 grid without wrapping: two Endpoints side by side and an Empty
cell. -/
def two_endpoints_1x3 : game :=
  { HEIGHT := 1
    WIDTH := 3
    tab_shape := [shape.ENDPOINT, shape.ENDPOINT, shape.EMPTY]
    tab_direction := [direction.NORTH, direction.WEST, direction.NORTH]
    is_wrapping := false
    undo_mooves := []
    redo_mooves := [] }

/-- The grid `two_endpoints_1x3` with the two Endpoints turned toward each
other. -/
def two_endpoints_1x3_facing : game :=
  { two_endpoints_1x3 with
    tab_direction := [direction.EAST, direction.WEST, direction.NORTH] }

/-- A 2 by 1 grid without wrapping that holds two Endpoints. -/
def endpoints_2x1 (o1 o2 : direction) (u r : List move) : game :=
  { HEIGHT := 2
    WIDTH := 1
    tab_shape := [shape.ENDPOINT, shape.ENDPOINT]
    tab_direction := [o1, o2]
    is_wrapping := false
    undo_mooves := u
    redo_mooves := r }

/-- A 1 by 2 grid without wrapping that holds two Endpoints. -/
def endpoints_1x2 (o1 o2 : direction) (u r : List move) : game :=
  { HEIGHT := 1
    WIDTH := 2
    tab_shape := [shape.ENDPOINT, shape.ENDPOINT]
    tab_direction := [o1, o2]
    is_wrapping := false
    undo_mooves := u
    redo_mooves := r }

/-- A sequence of calls of `game_play_move`, one per entry `(i, j,
nb_quarter_turns)` of the list, in order. -/
def play_moves (g : game) (ms : List (Nat × Nat × Int)) : game :=
  ms.foldl (fun g m => game_play_move g m.1 m.2.1 m.2.2) g

/-- The pair `c` is a cell of the grid. -/
def cell_in (g : game) (c : Nat × Nat) : Prop :=
  c.1 < game_nb_rows g ∧ c.2 < game_nb_cols g

/-- The pair `c` is a cell of the grid that holds a piece. -/
def non_empty_cell (g : game) (c : Nat × Nat) : Prop :=
  cell_in g c ∧ game_get_piece_shape g c.1 c.2 ≠ shape.EMPTY

/-- The cell `b` is adjacent to the cell `a` in some direction, across an edge
whose status is MATCH. -/
def match_adjacent (g : game) (a b : Nat × Nat) : Prop :=
  cell_in g a ∧ ∃ d : direction,
    game_get_ajacent_square g a.1 a.2 d = some b ∧
    game_check_edge g a.1 a.2 d = edge_status.MATCH

/-- There is a path of cells from `a` to `b` whose consecutive cells are
adjacent across a MATCH edge. -/
def joined (g : game) (a b : Nat × Nat) : Prop :=
  Relation.ReflTransGen (match_adjacent g) a b

/-- The cell `c` is marked in the array `visited`. -/
def is_visited (g : game) (st : fill_state) (c : Nat × Nat) : Prop :=
  st.visited.getD ((c.1 * game_nb_cols g + c.2) % 4294967296) false = true

/-- Invariant of the flood fill started at the cell `s`. -/
def fill_inv (g : game) (s : Nat × Nat) (st : fill_state) : Prop :=
  st.visited.length = game_nb_rows g * game_nb_cols g ∧
  (∀ c ∈ st.stack, cell_in g c ∧ joined g s c) ∧
  (∀ c, cell_in g c → is_visited g st c → joined g s c) ∧
  (is_visited g st s ∨ s ∈ st.stack) ∧
  (∀ a b, cell_in g a → is_visited g st a → match_adjacent g a b →
    is_visited g st b ∨ b ∈ st.stack)

/-- Variant of the flood fill: four times the number of unmarked entries of
`visited`, plus the height of the stack. -/
def fill_measure (st : fill_state) : Nat :=
  4 * st.visited.count false + st.stack.length

/-- A 2 by 2 grid with wrapping. -/
def wrap_2x2 : game :=
  { HEIGHT := 2
    WIDTH := 2
    tab_shape := [shape.CORNER, shape.TEE, shape.ENDPOINT, shape.CROSS]
    tab_direction := [direction.NORTH, direction.EAST, direction.SOUTH, direction.WEST]
    is_wrapping := true
    undo_mooves := []
    redo_mooves := [] }

/-- A 1 by 2 grid without wrapping that holds an Endpoint and an Empty cell. -/
def endpoint_and_empty : game :=
  { HEIGHT := 1
    WIDTH := 2
    tab_shape := [shape.ENDPOINT, shape.EMPTY]
    tab_direction := [direction.NORTH, direction.NORTH]
    is_wrapping := false
    undo_mooves := []
    redo_mooves := [] }

/-- A grid of `2^31` rows and one column without wrapping, every cell Empty. -/
def tall_grid : game :=
  { HEIGHT := 2147483648
    WIDTH := 1
    tab_shape := List.replicate 2147483648 shape.EMPTY
    tab_direction := List.replicate 2147483648 direction.NORTH
    is_wrapping := false
    undo_mooves := []
    redo_mooves := [] }

/-- A grid of `2^31` rows and one column with wrapping, every cell Empty. -/
def tall_wrapping_grid : game :=
  { HEIGHT := 2147483648
    WIDTH := 1
    tab_shape := List.replicate 2147483648 shape.EMPTY
    tab_direction := List.replicate 2147483648 direction.NORTH
    is_wrapping := true
    undo_mooves := []
    redo_mooves := [] }

/-- A 2 by 3 grid without wrapping. -/
def grid_2x3 : game :=
  { HEIGHT := 2
    WIDTH := 3
    tab_shape := [shape.CORNER, shape.TEE, shape.ENDPOINT,
      shape.SEGMENT, shape.CROSS, shape.EMPTY]
    tab_direction := [direction.EAST, direction.SOUTH, direction.WEST,
      direction.NORTH, direction.NORTH, direction.NORTH]
    is_wrapping := false
    undo_mooves := []
    redo_mooves := [] }

/-- A 2 by 3 grid with wrapping, with the cells of `grid_2x3`. -/
def wrap_2x3 : game :=
  { grid_2x3 with is_wrapping := true }

/-- A 1 by 1 grid without wrapping that holds a Segment. -/
def segment_1x1 : game :=
  { HEIGHT := 1
    WIDTH := 1
    tab_shape := [shape.SEGMENT]
    tab_direction := [direction.NORTH]
    is_wrapping := false
    undo_mooves := []
    redo_mooves := [] }

/-- A 2 by 2 grid with wrapping whose cells are all Empty, with four different
orientations. -/
def empty_2x2 : game :=
  { HEIGHT := 2
    WIDTH := 2
    tab_shape := [shape.EMPTY, shape.EMPTY, shape.EMPTY, shape.EMPTY]
    tab_direction := [direction.EAST, direction.SOUTH, direction.WEST, direction.NORTH]
    is_wrapping := true
    undo_mooves := []
    redo_mooves := [] }

/-- Body of the double loop of `game_new_ext`. -/
def new_ext_body (nb_cols : Nat) (shapes : Option (List shape))
    (orientations : Option (List direction)) (i j : Nat) (g : game) : game :=
  let g :=
    match shapes with
    | some l =>
      game_set_piece_shape g i j (l.getD ((i * nb_cols + j) % 4294967296) shape.EMPTY)
    | none => g
  match orientations with
  | some l =>
    game_set_piece_orientation g i j (l.getD ((i * nb_cols + j) % 4294967296) direction.NORTH)
  | none => g

/-- Invariant of the double loop of `game_new_ext`. -/
def new_ext_inv (R C : Nat) (shapes : Option (List shape))
    (orientations : Option (List direction)) (wrapping : Bool) (a : game) : Prop :=
  a.WIDTH = C ∧ a.HEIGHT = R ∧ a.is_wrapping = wrapping ∧
    a.undo_mooves = [] ∧ a.redo_mooves = [] ∧
    a.tab_shape.length = (R * C) % 4294967296 ∧
    a.tab_direction.length = (R * C) % 4294967296 ∧
    (shapes = none → a.tab_shape = List.replicate ((R * C) % 4294967296) shape.EMPTY) ∧
    (orientations = none →
      a.tab_direction = List.replicate ((R * C) % 4294967296) direction.NORTH)

/-- Mask stored by `init_Array` for a cell of shape `s`. -/
def init_mask : shape → Nat
  | .EMPTY => 1
  | .CROSS => 1
  | .SEGMENT => 1 ||| 2
  | _ => ((8 ||| 2) ||| 1) ||| 4

/-- Body of the double loop of `init_Array`. -/
def init_Array_body (g : game) (nb_cols : Nat) (i j : Nat) (t_shape : List Nat) : List Nat :=
  let s := game_get_piece_shape g i j
  let t_shape := t_shape.set (i * nb_cols + j) 0
  match s with
  | .EMPTY | .CROSS =>
    t_shape.set (i * nb_cols + j) (t_shape.getD (i * nb_cols + j) 0 ||| 1)
  | .SEGMENT =>
    t_shape.set (i * nb_cols + j) (t_shape.getD (i * nb_cols + j) 0 ||| (1 ||| 2))
  | _ =>
    t_shape.set (i * nb_cols + j) (t_shape.getD (i * nb_cols + j) 0 ||| (((8 ||| 2) ||| 1) ||| 4))

/-- Text that `game_save` writes for the cell `(i, j)`. -/
def cell_text (g : game) (i j : Nat) : List Char :=
  [shapeToChar (game_get_piece_shape g i j), directionToChar (game_get_piece_orientation g i j),
    SPACE]

/-- Text that `game_save` writes for the row `i`, for the columns of `cols`. -/
def row_text (g : game) (cols : List Nat) (i : Nat) : List Char :=
  cols.flatMap (cell_text g i) ++ [NEWLINE]

/-- First line that `game_save` writes. -/
def header_text (g : game) : List Char :=
  print_uint (game_nb_rows g) ++ [SPACE] ++ print_uint (game_nb_cols g) ++ [SPACE] ++
    print_uint (if game_is_wrapping g then 1 else 0) ++ [NEWLINE]

/-- A 2 by 2 grid with wrapping whose four cells hold a Cross. -/
def cross_2x2 : game :=
  { HEIGHT := 2
    WIDTH := 2
    tab_shape := [shape.CROSS, shape.CROSS, shape.CROSS, shape.CROSS]
    tab_direction := [direction.NORTH, direction.NORTH, direction.NORTH, direction.NORTH]
    is_wrapping := true
    undo_mooves := []
    redo_mooves := [] }

/-- Number of cells of the grid that hold a piece. -/
def nb_non_empty (g : game) : Nat :=
  ((cells (game_nb_rows g) (game_nb_cols g)).filter
    fun c => game_get_piece_shape g c.1 c.2 != shape.EMPTY).length

/-- The moves of the undo stack `ms` (top first) can be undone one after the
other on the orientation array `tab` of an `h` by `w` grid: each move names a
cell of the grid, and writing the orientation `new` of the move to that cell
changes nothing at the time the move is undone. -/
def undo_ok (h w : Nat) : List direction → List move → Prop
  | _, [] => True
  | tab, m :: rest =>
    m.i < h ∧ m.j < w ∧ tab.set ((w * m.i + m.j) % 4294967296) m.new = tab ∧
      undo_ok h w (tab.set ((w * m.i + m.j) % 4294967296) m.old) rest

/-- The moves of the redo stack `ms` (top first) can be redone one after the
other on the orientation array `tab` of an `h` by `w` grid: each move names a
cell of the grid, and writing the orientation `old` of the move to that cell
changes nothing at the time the move is redone. -/
def redo_ok (h w : Nat) : List direction → List move → Prop
  | _, [] => True
  | tab, m :: rest =>
    m.i < h ∧ m.j < w ∧ tab.set ((w * m.i + m.j) % 4294967296) m.old = tab ∧
      redo_ok h w (tab.set ((w * m.i + m.j) % 4294967296) m.new) rest

/-- Invariant of the history of a game. -/
def history_ok (g : game) : Prop :=
  undo_ok g.HEIGHT g.WIDTH g.tab_direction g.undo_mooves ∧
    redo_ok g.HEIGHT g.WIDTH g.tab_direction g.redo_mooves

/-- States reached from the game `g0` by calls of `game_play_move` on cells of
the grid, `game_undo`, `game_redo` and `game_reset_orientation`. -/
inductive reachable (g0 : game) : game → Prop
  | start : reachable g0 g0
  | play_move (g : game) (i j : Nat) (nb_quarter_turns : Int) :
      reachable g0 g → i < game_nb_rows g → j < game_nb_cols g →
      reachable g0 (game_play_move g i j nb_quarter_turns)
  | undo (g : game) : reachable g0 g → reachable g0 (game_undo g)
  | redo (g : game) : reachable g0 g → reachable g0 (game_redo g)
  | reset_orientation (g : game) : reachable g0 g → reachable g0 (game_reset_orientation g)

/-- Half-edge of a piece of shape `s` and orientation `o` in the direction `d`:
the test of `game_has_half_edge`, on the piece itself. -/
def piece_has_half_edge (s : shape) (o : direction) (d : direction) : Bool :=
  match s with
  | .EMPTY => false
  | .ENDPOINT => d == o
  | .SEGMENT => d == o || d == OPPOSITE_DIR o
  | .TEE => d != OPPOSITE_DIR o
  | .CORNER => d == o || d == NEXT_DIR_CW o
  | .CROSS => true

/-- The grid `grid_2x3` with its Segment turned by a half-turn and its Cross
and its Empty cell turned by a quarter-turn. -/
def grid_2x3_turned : game :=
  { grid_2x3 with
    tab_direction := [direction.EAST, direction.SOUTH, direction.WEST,
      direction.SOUTH, direction.EAST, direction.WEST] }

/-- A sequence of calls `_add_edge(g, i, j, d)`, one per entry `(i, j, d)` of
the list, whatever each call returns; `none` when an assertion fails. -/
def add_edges (g : game) : List (Nat × Nat × direction) → Option game
  | [] => some g
  | c :: rest =>
    match _add_edge g c.1 c.2.1 c.2.2 with
    | some r => add_edges r.2 rest
    | none => none

/-- A 1 by 1 grid with wrapping whose cell is Empty. -/
def empty_1x1_wrapping : game := game_new_empty_ext 1 1 true

/-- The MISMATCH checks of `isMismatch`, in the order of the source: `none`
when none of them applies; `some clear` when one of them makes `isMismatch`
return true, where `clear` tells whether the bit of the tried orientation is
cleared before. -/
def mismatch_check (g : game) (i j : Nat) : Option Bool :=
  let nb_cols := game_nb_cols g
  let nb_rows := game_nb_rows g
  let last_row := (nb_rows + 4294967295) % 4294967296
  let last_col := (nb_cols + 4294967295) % 4294967296
  let wrapping := game_is_wrapping g
  if !wrapping && i == 0 && game_check_edge g i j direction.NORTH == edge_status.MISMATCH then
    some true
  else if !wrapping && j == 0 && game_check_edge g i j direction.WEST == edge_status.MISMATCH then
    some true
  else if !wrapping && i == last_row
      && game_check_edge g i j direction.SOUTH == edge_status.MISMATCH then
    some true
  else if !wrapping && j == last_col
      && game_check_edge g i j direction.EAST == edge_status.MISMATCH then
    some true
  else if decide (i ≥ 1) && game_check_edge g i j direction.NORTH == edge_status.MISMATCH then
    let s := game_get_piece_shape g (i - 1) j
    some (s == shape.EMPTY || s == shape.CROSS)
  else if decide (j ≥ 1) && game_check_edge g i j direction.WEST == edge_status.MISMATCH then
    let s := game_get_piece_shape g i (j - 1)
    some (s == shape.EMPTY || s == shape.CROSS)
  else if game_is_wrapping g && i == last_row
      && game_check_edge g i j direction.SOUTH == edge_status.MISMATCH then
    let s := game_get_piece_shape g 0 j
    some (s == shape.EMPTY || s == shape.CROSS)
  else if game_is_wrapping g && j == last_col
      && game_check_edge g i j direction.EAST == edge_status.MISMATCH then
    let s := game_get_piece_shape g i 0
    some (s == shape.EMPTY || s == shape.CROSS)
  else none

/-- The facing-endpoints rule of `isMismatch`: true when it makes `isMismatch`
return true. -/
def facing_check (g : game) (i j : Nat) (d : direction) : Bool :=
  let nb_cols := game_nb_cols g
  let nb_rows := game_nb_rows g
  let isEndpoint := game_get_piece_shape g i j == shape.ENDPOINT
  if isEndpoint && decide (nb_cols * nb_rows > 2)
      && game_check_edge g i j d == edge_status.MATCH then
    let next := (game_get_ajacent_square g i j d).getD (0, 0)
    if game_get_piece_shape g next.1 next.2 == shape.ENDPOINT then
      facing_loop g i j (nb_cols * nb_rows) 0
    else false
  else false

/-- The game `g2` is an orientation assignment of the shapes of `g`: it has the
dimensions, the wrapping flag and the shapes of `g`, and as many
orientations. -/
def same_shapes (g g2 : game) : Prop :=
  g2.HEIGHT = g.HEIGHT ∧ g2.WIDTH = g.WIDTH ∧ g2.is_wrapping = g.is_wrapping ∧
    g2.tab_shape = g.tab_shape ∧ g2.tab_direction.length = g.tab_direction.length

/-- Body of the loop `for (int d = 0; d < 4; d++)` of `solve_rec` at the cell
`(i, j)` of index `pos`, with `fuel` left for the recursive call. -/
def solve_step (fuel size pos nb_cols i j : Nat) (st : solve_state) (d : direction) :
    solve_state :=
  if st.ret then st
  else if st.t_shape.getD (i * nb_cols + j) 0 &&& directions d != 0 then
    let g := game_set_piece_orientation st.g i j d
    let mm := isMismatch g i j d st.t_shape
    if !mm.1 then
      let r := solve_rec fuel g (pos + 1) size st.count mm.2
      { r with ret := r.ret && r.count.isNone }
    else { st with g := g, t_shape := mm.2 }
  else st

/-- Body of the loop `for (int d = 0; d < 4; d++)` of `solve_rec_checked` at the
cell `(i, j)` of index `pos`, with `fuel` left for the recursive call. -/
def solve_step_checked (fuel size pos nb_cols i j : Nat) (st : solve_state) (d : direction) :
    Option solve_state :=
  if st.ret then some st
  else if st.t_shape.getD (i * nb_cols + j) 0 &&& directions d != 0 then
    let g := game_set_piece_orientation st.g i j d
    let mm := isMismatch g i j d st.t_shape
    if !mm.1 then
      match solve_rec_checked fuel g (pos + 1) size st.count mm.2 with
      | some r => some { r with ret := r.ret && r.count.isNone }
      | none => none
    else some { st with g := g, t_shape := mm.2 }
  else some st

/-- The orientation of `distinct_orientations s` that gives a piece of shape
`s` the half-edges it has in the orientation `o`. -/
def normal_orientation (s : shape) (o : direction) : direction :=
  match s with
  | .EMPTY => direction.NORTH
  | .CROSS => direction.NORTH
  | .SEGMENT => dir_of_val (dir_val o % 2)
  | _ => o

/-- Number of orientation assignments of the shapes of `g` that satisfy
`game_won` and keep the first `pos` orientations of `g`, in row-major order;
assignments with the same half-edges in every cell are counted once. -/
def completions (g : game) (pos : Nat) : Nat :=
  ((orientation_assignments (g.tab_shape.drop pos)).filter
    fun os => game_won { g with tab_direction := g.tab_direction.take pos ++ os }).length

/-- The game `gw` is an orientation assignment of the shapes of `g` that
satisfies `game_won`. -/
def winning_assignment (g gw : game) : Prop :=
  same_shapes g gw ∧ game_won gw = true

/-- Invariant of the array `t_shape` during the search on the shapes of `g`: a
bit that is set names an orientation of `distinct_orientations`, and a bit of
`distinct_orientations` that is cleared names an orientation that the cell has
in no winning assignment. -/
def mask_ok (g : game) (t : List Nat) : Prop :=
  ∀ k d, k < g.tab_shape.length →
    (t.getD k 0 &&& directions d ≠ 0 →
      d ∈ distinct_orientations (g.tab_shape.getD k shape.EMPTY)) ∧
    (t.getD k 0 &&& directions d = 0 →
      d ∈ distinct_orientations (g.tab_shape.getD k shape.EMPTY) →
      ∀ gw, winning_assignment g gw → gw.tab_direction.getD k direction.NORTH ≠ d)

/-- What a call of `solve_rec` at the position `pos` on the working game `g`
achieves, in terms of the winning assignments of the shapes of `g0`: the state
`r` it returns keeps the invariant of the masks and the first `pos`
orientations; without a counter it returns true when the first `pos`
orientations have a winning completion; with a counter it adds the number of
winning completions to the counter, modulo `2^32`. -/
def search_ok (g0 g : game) (pos : Nat) (count : Option Nat) (r : solve_state) : Prop :=
  mask_ok g0 r.t_shape ∧ r.g.tab_direction.take pos = g.tab_direction.take pos ∧
    (count = none → r.count = none ∧ (0 < completions g pos → r.ret = true)) ∧
    (∀ c, count = some c → c < 4294967296 →
      r.count = some ((c + completions g pos) % 4294967296))

/-- A 1 by 3 grid without wrapping: an Endpoint, a Segment and an Endpoint,
all turned north. -/
def endpoints_and_segment : game :=
  { HEIGHT := 1
    WIDTH := 3
    tab_shape := [shape.ENDPOINT, shape.SEGMENT, shape.ENDPOINT]
    tab_direction := [direction.NORTH, direction.NORTH, direction.NORTH]
    is_wrapping := false
    undo_mooves := []
    redo_mooves := [] }

/-- The grid `endpoints_and_segment` with its pieces turned so that they form
one line. -/
def endpoints_and_segment_solved : game :=
  { endpoints_and_segment with
    tab_direction := [direction.EAST, direction.WEST, direction.WEST] }

/-! ## Arithmetic of `game_get_ajacent_square` -/

theorem emod_small (y n : Int) (hy : 0 ≤ y) (hn : y < 3 * n) :
    y % n = if y < n then y else if y < 2 * n then y - n else y - 2 * n := by
  split
  · exact Int.emod_eq_of_lt hy (by assumption)
  · split
    · have h1 : y = (y - n) + n := by ring
      have h2 : (y - n + n) % n = (y - n) % n := Int.add_emod_self
      rw [h1, h2, Int.emod_eq_of_lt (by omega) (by omega)]
      ring
    · have h1 : y = (y - 2 * n) + n * 2 := by ring
      have h2 : (y - 2 * n + n * 2) % n = (y - 2 * n) % n := Int.add_mul_emod_self_left _ _ _
      rw [h1, h2, Int.emod_eq_of_lt (by omega) (by omega)]
      ring

theorem coord_raw_small (wrapping : Bool) (n x : Nat) (off : Int) (hx : x < n)
    (hn : n < 2147483648) (hoff : off = -1 ∨ off = 0 ∨ off = 1) :
    (if coord_raw wrapping n x off < 0 ∨ coord_raw wrapping n x off ≥ to_int (n : Int) then none
      else some (coord_raw wrapping n x off).toNat) = coord_next wrapping n x off := by
  have h1 : to_int (to_uint ((x : Int) + off)) = (x : Int) + off := by
    unfold to_int to_uint; omega
  have h2 : to_int (n : Int) = n := by unfold to_int; omega
  have h3 : to_uint ((x : Int) + off + n) = (x : Int) + off + n := by
    unfold to_uint; omega
  have h4a : (0:Int) ≤ (x : Int) + off + n := by omega
  have h4b : (x : Int) + off + n < 3 * (n:Int) := by omega
  have h4 := emod_small ((x : Int) + off + n) n h4a h4b
  have h5 : ∀ y : Int, 0 ≤ y → y < n → to_int y = y := by
    intro y hy1 hy2; unfold to_int; omega
  have h6 : to_int (((x : Int) + off + n) % n) = ((x : Int) + off + n) % n :=
    h5 _ (Int.emod_nonneg _ (by omega)) (Int.emod_lt_of_pos _ (by omega))
  unfold coord_raw coord_next
  simp only [h1, h2, h3, h6]
  rw [h4]
  cases wrapping <;> rcases hoff with rfl | rfl | rfl <;> simp <;> (try split_ifs) <;>
    (try simp) <;> omega

theorem offset_cases (d : direction) :
    ((DIR2OFFSET d).1 = -1 ∨ (DIR2OFFSET d).1 = 0 ∨ (DIR2OFFSET d).1 = 1) ∧
    ((DIR2OFFSET d).2 = -1 ∨ (DIR2OFFSET d).2 = 0 ∨ (DIR2OFFSET d).2 = 1) := by
  cases d <;> simp [DIR2OFFSET]

theorem adj_unfold (g : game) (i j : Nat) (d : direction) :
    game_get_ajacent_square g i j d =
      if coord_raw g.is_wrapping g.HEIGHT i (DIR2OFFSET d).1 < 0 ∨
          coord_raw g.is_wrapping g.HEIGHT i (DIR2OFFSET d).1 ≥ to_int (g.HEIGHT : Int) then none
      else if coord_raw g.is_wrapping g.WIDTH j (DIR2OFFSET d).2 < 0 ∨
          coord_raw g.is_wrapping g.WIDTH j (DIR2OFFSET d).2 ≥ to_int (g.WIDTH : Int) then none
      else some ((coord_raw g.is_wrapping g.HEIGHT i (DIR2OFFSET d).1).toNat,
        (coord_raw g.is_wrapping g.WIDTH j (DIR2OFFSET d).2).toNat) := by
  rfl

/-- With dimensions in the range of `int`, the machine arithmetic of
`game_get_ajacent_square` computes the plain neighbour. -/
theorem adj_eq_plain (g : game) (i j : Nat) (d : direction)
    (hH : g.HEIGHT < 2147483648) (hW : g.WIDTH < 2147483648)
    (hi : i < g.HEIGHT) (hj : j < g.WIDTH) :
    game_get_ajacent_square g i j d = adj_plain g i j d := by
  have hI := coord_raw_small g.is_wrapping g.HEIGHT i (DIR2OFFSET d).1 hi hH (offset_cases d).1
  have hJ := coord_raw_small g.is_wrapping g.WIDTH j (DIR2OFFSET d).2 hj hW (offset_cases d).2
  rw [adj_unfold]
  unfold adj_plain
  rw [← hI, ← hJ]
  split_ifs <;> rfl

/-- With a dimension of `2^31` or more, the comparison with `(int)h` or
`(int)w` always fails and no cell has an adjacent square. -/
theorem adj_big (g : game) (i j : Nat) (d : direction)
    (hH : g.HEIGHT < 4294967296) (hW : g.WIDTH < 4294967296)
    (hbig : 2147483648 ≤ g.HEIGHT ∨ 2147483648 ≤ g.WIDTH) :
    game_get_ajacent_square g i j d = none := by
  rw [adj_unfold]
  rcases hbig with hb | hb
  · have h1 : to_int (g.HEIGHT : Int) < 0 := by unfold to_int; omega
    rw [if_pos]
    omega
  · have h1 : to_int (g.WIDTH : Int) < 0 := by unfold to_int; omega
    split_ifs
    · rfl
    · rfl
    · exfalso; omega

theorem OPPOSITE_DIR_involutive (d : direction) : OPPOSITE_DIR (OPPOSITE_DIR d) = d := by
  cases d <;> rfl

theorem coord_next_symm (wr : Bool) (n x x' : Nat) (off : Int) (hx : x < n)
    (hoff : off = -1 ∨ off = 0 ∨ off = 1) (h : coord_next wr n x off = some x') :
    x' < n ∧ coord_next wr n x' (-off) = some x := by
  unfold coord_next at h ⊢
  rcases hoff with rfl | rfl | rfl
  · simp only [↓reduceIte] at h
    by_cases h0 : x = 0
    · cases wr <;> simp [h0] at h
      subst h
      refine ⟨by omega, ?_⟩
      have : n - 1 + 1 = n := by omega
      simp [this, h0]
    · simp [h0] at h
      subst h
      refine ⟨by omega, ?_⟩
      have : x - 1 + 1 ≠ n := by omega
      simp [this]
      omega
  · simp at h
    subst h
    exact ⟨hx, by simp⟩
  · simp at h
    by_cases h0 : x + 1 = n
    · cases wr <;> simp [h0] at h
      subst h
      refine ⟨by omega, ?_⟩
      simp
      omega
    · simp [h0] at h
      subst h
      refine ⟨by omega, ?_⟩
      simp

theorem offset_opposite (d : direction) :
    (DIR2OFFSET (OPPOSITE_DIR d)).1 = -(DIR2OFFSET d).1 ∧
    (DIR2OFFSET (OPPOSITE_DIR d)).2 = -(DIR2OFFSET d).2 := by
  cases d <;> simp [DIR2OFFSET, OPPOSITE_DIR, dir_val, dir_of_val, NB_DIRS]

theorem adj_plain_some (g : game) (i j i' j' : Nat) (d : direction) :
    adj_plain g i j d = some (i', j') ↔
      coord_next g.is_wrapping g.HEIGHT i (DIR2OFFSET d).1 = some i' ∧
      coord_next g.is_wrapping g.WIDTH j (DIR2OFFSET d).2 = some j' := by
  unfold adj_plain
  cases coord_next g.is_wrapping g.HEIGHT i (DIR2OFFSET d).1 <;>
    cases coord_next g.is_wrapping g.WIDTH j (DIR2OFFSET d).2 <;> simp

theorem adj_plain_symm (g : game) (i j i' j' : Nat) (d : direction)
    (hi : i < g.HEIGHT) (hj : j < g.WIDTH) (h : adj_plain g i j d = some (i', j')) :
    i' < g.HEIGHT ∧ j' < g.WIDTH ∧ adj_plain g i' j' (OPPOSITE_DIR d) = some (i, j) := by
  rw [adj_plain_some] at h ⊢
  obtain ⟨h1, h2⟩ := h
  have k1 := coord_next_symm _ _ _ _ _ hi (offset_cases d).1 h1
  have k2 := coord_next_symm _ _ _ _ _ hj (offset_cases d).2 h2
  rw [(offset_opposite d).1, (offset_opposite d).2]
  exact ⟨k1.1, k2.1, k1.2, k2.2⟩

/-- Adjacency is symmetric and yields cells of the grid. -/
theorem adj_symm (g : game) (i j i' j' : Nat) (d : direction)
    (hH : g.HEIGHT < 4294967296) (hW : g.WIDTH < 4294967296)
    (hi : i < g.HEIGHT) (hj : j < g.WIDTH)
    (h : game_get_ajacent_square g i j d = some (i', j')) :
    i' < g.HEIGHT ∧ j' < g.WIDTH ∧
      game_get_ajacent_square g i' j' (OPPOSITE_DIR d) = some (i, j) := by
  by_cases hbig : 2147483648 ≤ g.HEIGHT ∨ 2147483648 ≤ g.WIDTH
  · rw [adj_big g i j d hH hW hbig] at h
    cases h
  · have hH2 : g.HEIGHT < 2147483648 := by omega
    have hW2 : g.WIDTH < 2147483648 := by omega
    rw [adj_eq_plain g i j d hH2 hW2 hi hj] at h
    obtain ⟨k1, k2, k3⟩ := adj_plain_symm g i j i' j' d hi hj h
    exact ⟨k1, k2, by rw [adj_eq_plain g i' j' _ hH2 hW2 k1 k2]; exact k3⟩

theorem edge_status_swap (a b : Bool) :
    (if (a && b) = true then edge_status.MATCH
      else if (a || b) = true then edge_status.MISMATCH else edge_status.NOEDGE) =
    (if (b && a) = true then edge_status.MATCH
      else if (b || a) = true then edge_status.MISMATCH else edge_status.NOEDGE) := by
  cases a <;> cases b <;> rfl

/-- Adjacency and edge status seen from the two sides of an edge. -/
theorem edge_symm (g : game) (i j i' j' : Nat) (d : direction)
    (hwf : game_wf g) (hi : i < game_nb_rows g) (hj : j < game_nb_cols g)
    (h : game_get_ajacent_square g i j d = some (i', j')) :
    game_get_ajacent_square g i' j' (OPPOSITE_DIR d) = some (i, j) ∧
      game_check_edge g i j d = game_check_edge g i' j' (OPPOSITE_DIR d) := by
  obtain ⟨_, _, k⟩ := adj_symm g i j i' j' d hwf.1 hwf.2.1 hi hj h
  refine ⟨k, ?_⟩
  unfold game_check_edge
  simp only [h, k, OPPOSITE_DIR_involutive]
  exact edge_status_swap _ _

/-- C3.  Edge status is symmetric: when the grid is a valid game, wrapping or
not, `(i, j)` is a cell of the grid and `game_get_ajacent_square` yields
`(i', j')` in direction `d`, then the adjacent square of `(i', j')` in the
opposite direction is `(i, j)` and the two edge statuses are equal. -/
theorem game_check_edge_symmetric (g : game) (i j i' j' : Nat) (d : direction)
    (hwf : game_wf g) (hi : i < game_nb_rows g) (hj : j < game_nb_cols g)
    (h : game_get_ajacent_square g i j d = some (i', j')) :
    game_get_ajacent_square g i' j' (OPPOSITE_DIR d) = some (i, j) ∧
      game_check_edge g i j d = game_check_edge g i' j' (OPPOSITE_DIR d) :=
  edge_symm g i j i' j' d hwf hi hj h

/-- Witness of C3 on a wrapping 2 by 2 grid: the cell north of `(0, 0)` is
`(1, 0)`. -/
theorem game_check_edge_symmetric_witness :
    game_wf wrap_2x2 ∧ 0 < game_nb_rows wrap_2x2 ∧ 0 < game_nb_cols wrap_2x2 ∧
    game_get_ajacent_square wrap_2x2 0 0 direction.NORTH = some (1, 0) ∧
    game_get_ajacent_square wrap_2x2 1 0 (OPPOSITE_DIR direction.NORTH) = some (0, 0) ∧
    game_check_edge wrap_2x2 0 0 direction.NORTH =
      game_check_edge wrap_2x2 1 0 (OPPOSITE_DIR direction.NORTH) :=
  ⟨by decide, by decide, by decide, by decide,
    game_check_edge_symmetric wrap_2x2 0 0 1 0 direction.NORTH (by decide) (by decide)
      (by decide) (by decide)⟩

/-! ## Edge status -/

/-- C2.  With `A` the half-edge of `(i, j)` toward `d` and `B` the half-edge of
the adjacent cell toward the opposite direction (false when there is no
adjacent cell), `game_check_edge` is MATCH iff `A` and `B`, MISMATCH iff
exactly one of them, NOEDGE iff neither. -/
theorem game_check_edge_spec (g : game) (i j : Nat) (d : direction) :
    let A := game_has_half_edge g i j d
    let B := match game_get_ajacent_square g i j d with
      | some c => game_has_half_edge g c.1 c.2 (OPPOSITE_DIR d)
      | none => false
    (game_check_edge g i j d = edge_status.MATCH ↔ A = true ∧ B = true) ∧
    (game_check_edge g i j d = edge_status.MISMATCH ↔
      (A = true ∧ B = false) ∨ (A = false ∧ B = true)) ∧
    (game_check_edge g i j d = edge_status.NOEDGE ↔ A = false ∧ B = false) := by
  intro A B
  have hB : B = (match game_get_ajacent_square g i j d with
      | some (i_next, j_next) => game_has_half_edge g i_next j_next (OPPOSITE_DIR d)
      | none => false) := by
    show (match game_get_ajacent_square g i j d with
      | some c => game_has_half_edge g c.1 c.2 (OPPOSITE_DIR d)
      | none => false) = _
    cases game_get_ajacent_square g i j d <;> rfl
  have h : game_check_edge g i j d =
      if (A && B) = true then edge_status.MATCH
      else if (A || B) = true then edge_status.MISMATCH else edge_status.NOEDGE := by
    rw [hB]; rfl
  rw [h]
  cases A <;> cases B <;> simp

/-! ## Row-major loops -/

theorem idx_lt (h w i j : Nat) (hi : i < h) (hj : j < w) : w * i + j < h * w := by
  have h1 : w * i + j < w * (i + 1) := by rw [Nat.mul_succ]; omega
  have h2 : w * (i + 1) ≤ w * h := Nat.mul_le_mul_left w hi
  rw [Nat.mul_comm h w]
  omega

theorem idx_inj (w i j i' j' : Nat) (hj : j < w) (hj' : j' < w)
    (h : w * i + j = w * i' + j') : i = i' ∧ j = j' := by
  have hw : 0 < w := by omega
  have h1 : (w * i + j) / w = i := by
    rw [Nat.mul_add_div hw, Nat.div_eq_of_lt hj]; rfl
  have h2 : (w * i' + j') / w = i' := by
    rw [Nat.mul_add_div hw, Nat.div_eq_of_lt hj']; rfl
  have h3 : (w * i + j) % w = j := by
    rw [Nat.mul_add_mod, Nat.mod_eq_of_lt hj]
  have h4 : (w * i' + j') % w = j' := by
    rw [Nat.mul_add_mod, Nat.mod_eq_of_lt hj']
  rw [h] at h1 h3
  exact ⟨by rw [← h1, h2], by rw [← h3, h4]⟩

theorem idx_mod (h w i j : Nat) (hi : i < h) (hj : j < w) (hsz : h * w < 4294967296) :
    (w * i + j) % 4294967296 = w * i + j :=
  Nat.mod_eq_of_lt (Nat.lt_trans (idx_lt h w i j hi hj) hsz)

theorem game_wf_size (g : game) (hwf : game_wf g) : g.HEIGHT * g.WIDTH < 4294967296 :=
  hwf.2.2.2.2

/-- In a game of less than `2^32` cells the accessors address the cell `(i, j)`
at the row-major index `WIDTH * i + j`. -/
theorem cell_idx_mod (g : game) (hsz : g.HEIGHT * g.WIDTH < 4294967296) (i j : Nat)
    (hi : i < g.HEIGHT) (hj : j < g.WIDTH) :
    (g.WIDTH * i + j) % 4294967296 = g.WIDTH * i + j :=
  idx_mod g.HEIGHT g.WIDTH i j hi hj hsz

theorem getD_set_same {α : Type} (l : List α) (k : Nat) (v dflt : α) (hk : k < l.length) :
    (l.set k v).getD k dflt = v := by
  simp [List.getD_eq_getElem?_getD, List.getElem?_set, hk]

theorem getD_set_other {α : Type} (l : List α) (k k' : Nat) (v dflt : α) (hk : k ≠ k') :
    (l.set k v).getD k' dflt = l.getD k' dflt := by
  simp [List.getD_eq_getElem?_getD, List.getElem?_set, hk]

theorem set_getD_self {α : Type} (l : List α) (k : Nat) (dflt : α) :
    l.set k (l.getD k dflt) = l := by
  by_cases hk : k < l.length
  · apply List.ext_getElem (by simp)
    intro n h1 h2
    rw [List.getElem_set]
    split
    · subst_vars
      simp [List.getD_eq_getElem?_getD, List.getElem?_eq_getElem h2]
    · rfl
  · exact List.set_eq_of_length_le (by omega)

theorem mem_cells (h w : Nat) (c : Nat × Nat) : c ∈ cells h w ↔ c.1 < h ∧ c.2 < w := by
  unfold cells
  simp only [List.mem_flatMap, List.mem_range, List.mem_map]
  constructor
  · rintro ⟨i, hi, j, hj, rfl⟩
    exact ⟨hi, hj⟩
  · rintro ⟨hi, hj⟩
    exact ⟨c.1, hi, c.2, hj, rfl⟩

theorem foldl_rows {α : Type} (w : Nat) (body : Nat → Nat → α → α) (rows : List Nat) (a : α) :
    rows.foldl (fun a i => (List.range w).foldl (fun a j => body i j a) a) a =
      (rows.flatMap fun i => (List.range w).map fun j => (i, j)).foldl
        (fun a c => body c.1 c.2 a) a := by
  induction rows generalizing a with
  | nil => rfl
  | cons i rows ih =>
    simp only [List.foldl_cons, List.flatMap_cons, List.foldl_append, List.foldl_map]
    exact ih _

/-- The double loop visits the cells in row-major order. -/
theorem for_cells_eq_foldl {α : Type} (h w : Nat) (body : Nat → Nat → α → α) (a : α) :
    for_cells h w body a = (cells h w).foldl (fun a c => body c.1 c.2 a) a :=
  foldl_rows w body (List.range h) a

theorem foldl_inv {α κ : Type} (P : α → Prop) (f : α → κ → α) (L : List κ)
    (hstep : ∀ a k, k ∈ L → P a → P (f a k)) (a : α) (ha : P a) : P (L.foldl f a) := by
  induction L generalizing a with
  | nil => exact ha
  | cons k L ih =>
    exact ih (fun a k' hk' => hstep a k' (List.mem_cons_of_mem _ hk')) _
      (hstep a k (List.mem_cons_self _ _) ha)

theorem foldl_frame {α κ β : Type} (Inv : α → Prop) (f : α → κ → α) (get : α → β) (L : List κ)
    (hinv : ∀ a k, k ∈ L → Inv a → Inv (f a k))
    (hframe : ∀ a k, k ∈ L → Inv a → get (f a k) = get a)
    (a : α) (ha : Inv a) : get (L.foldl f a) = get a := by
  induction L generalizing a with
  | nil => rfl
  | cons k L ih =>
    rw [List.foldl_cons,
      ih (fun a k' hk' => hinv a k' (List.mem_cons_of_mem _ hk'))
        (fun a k' hk' => hframe a k' (List.mem_cons_of_mem _ hk')) _
        (hinv a k (List.mem_cons_self _ _) ha)]
    exact hframe a k (List.mem_cons_self _ _) ha

/-- After a loop of writes at pairwise independent keys, every key of the loop
holds the value written for it. -/
theorem foldl_write {α κ β : Type} (Inv : α → Prop) (f : α → κ → α) (get : α → κ → β)
    (val : κ → β) (L : List κ)
    (hinv : ∀ a k, k ∈ L → Inv a → Inv (f a k))
    (hset : ∀ a k, k ∈ L → Inv a → get (f a k) k = val k)
    (hframe : ∀ a k k', k ∈ L → k' ∈ L → k ≠ k' → Inv a → get (f a k) k' = get a k')
    (a : α) (ha : Inv a) (k : κ) (hk : k ∈ L) : get (L.foldl f a) k = val k := by
  induction L generalizing a with
  | nil => cases hk
  | cons k0 L ih =>
    rw [List.foldl_cons]
    have ha' : Inv (f a k0) := hinv a k0 (List.mem_cons_self _ _) ha
    by_cases hkL : k ∈ L
    · exact ih (fun a k' hk' => hinv a k' (List.mem_cons_of_mem _ hk'))
        (fun a k' hk' => hset a k' (List.mem_cons_of_mem _ hk'))
        (fun a k1 k2 h1 h2 => hframe a k1 k2 (List.mem_cons_of_mem _ h1)
          (List.mem_cons_of_mem _ h2)) _ ha' hkL
    · have hk0 : k = k0 := by
        rcases List.mem_cons.1 hk with h | h
        · exact h
        · exact absurd h hkL
      subst hk0
      have hfr : (fun x => get x k) (L.foldl f (f a k)) = (fun x => get x k) (f a k) :=
        foldl_frame Inv f (fun x => get x k) L
          (fun a k' hk' => hinv a k' (List.mem_cons_of_mem _ hk'))
          (fun a k' hk' ha => hframe a k' k (List.mem_cons_of_mem _ hk') (List.mem_cons_self _ _)
            (fun e => hkL (e ▸ hk')) ha) _ ha'
      exact hfr.trans (hset a k (List.mem_cons_self _ _) ha)

/-- After a loop of writes of one value `v`, every key of the loop holds `v`,
whether the keys are independent or not. -/
theorem foldl_write_const {α κ β : Type} (f : α → κ → α) (get : α → κ → β) (v : β)
    (L : List κ)
    (hset : ∀ a k, k ∈ L → get (f a k) k = v)
    (hkeep : ∀ a k k', k ∈ L → get a k' = v → get (f a k) k' = v)
    (a : α) (k : κ) (hk : k ∈ L ∨ get a k = v) : get (L.foldl f a) k = v := by
  induction L generalizing a with
  | nil =>
    rcases hk with h | h
    · cases h
    · exact h
  | cons k0 L ih =>
    rw [List.foldl_cons]
    apply ih (fun a k' hk' => hset a k' (List.mem_cons_of_mem _ hk'))
      (fun a k1 k2 h1 => hkeep a k1 k2 (List.mem_cons_of_mem _ h1))
    rcases hk with h | h
    · rcases List.mem_cons.1 h with h0 | h0
      · right
        rw [h0]
        exact hset a k0 (List.mem_cons_self _ _)
      · left
        exact h0
    · right
      exact hkeep a k0 k (List.mem_cons_self _ _) h

/-! ## Copying cells -/

theorem copy_loop_eq (src : game) (h w : Nat) (dst : game) :
    copy_loop src h w dst =
      (cells h w).foldl (fun a c =>
        game_set_piece_shape
          (game_set_piece_orientation a c.1 c.2 (game_get_piece_orientation src c.1 c.2))
          c.1 c.2 (game_get_piece_shape src c.1 c.2)) dst := by
  unfold copy_loop
  rw [for_cells_eq_foldl]

theorem copy_loop_fields (src : game) (h w : Nat) (dst : game) :
    (copy_loop src h w dst).HEIGHT = dst.HEIGHT ∧
    (copy_loop src h w dst).WIDTH = dst.WIDTH ∧
    (copy_loop src h w dst).is_wrapping = dst.is_wrapping ∧
    (copy_loop src h w dst).undo_mooves = dst.undo_mooves ∧
    (copy_loop src h w dst).redo_mooves = dst.redo_mooves ∧
    (copy_loop src h w dst).tab_shape.length = dst.tab_shape.length ∧
    (copy_loop src h w dst).tab_direction.length = dst.tab_direction.length := by
  rw [copy_loop_eq]
  apply foldl_inv (fun a : game => a.HEIGHT = dst.HEIGHT ∧ a.WIDTH = dst.WIDTH ∧
    a.is_wrapping = dst.is_wrapping ∧ a.undo_mooves = dst.undo_mooves ∧
    a.redo_mooves = dst.redo_mooves ∧ a.tab_shape.length = dst.tab_shape.length ∧
    a.tab_direction.length = dst.tab_direction.length)
  · intro a c _ ha
    simpa [game_set_piece_shape, game_set_piece_orientation] using ha
  · simp

theorem copy_loop_get (src : game) (h w : Nat) (dst : game) (hW : dst.WIDTH = w)
    (hs : dst.tab_shape.length = h * w) (hd : dst.tab_direction.length = h * w)
    (hsz : h * w < 4294967296) (i j : Nat) (hi : i < h) (hj : j < w) :
    game_get_piece_shape (copy_loop src h w dst) i j = game_get_piece_shape src i j ∧
    game_get_piece_orientation (copy_loop src h w dst) i j =
      game_get_piece_orientation src i j := by
  rw [copy_loop_eq]
  have key := foldl_write
    (fun a : game => a.WIDTH = w ∧ a.tab_shape.length = h * w ∧ a.tab_direction.length = h * w)
    (fun a c => game_set_piece_shape
      (game_set_piece_orientation a c.1 c.2 (game_get_piece_orientation src c.1 c.2))
      c.1 c.2 (game_get_piece_shape src c.1 c.2))
    (fun a c => (game_get_piece_shape a c.1 c.2, game_get_piece_orientation a c.1 c.2))
    (fun c => (game_get_piece_shape src c.1 c.2, game_get_piece_orientation src c.1 c.2))
    (cells h w)
    (by
      intro a c _ ha
      simpa [game_set_piece_shape, game_set_piece_orientation] using ha)
    (by
      intro a c hc ha
      rw [mem_cells] at hc
      obtain ⟨h1, h2, h3⟩ := ha
      have hlt := idx_lt h w c.1 c.2 hc.1 hc.2
      simp only [game_set_piece_shape, game_set_piece_orientation, game_get_piece_shape,
        game_get_piece_orientation, game_nb_cols, h1, idx_mod h w c.1 c.2 hc.1 hc.2 hsz]
      rw [getD_set_same _ _ _ _ (by omega), getD_set_same _ _ _ _ (by omega)])
    (by
      intro a c c' hc hc' hne ha
      rw [mem_cells] at hc hc'
      obtain ⟨h1, h2, h3⟩ := ha
      have hidx : w * c.1 + c.2 ≠ w * c'.1 + c'.2 := by
        intro e
        have := idx_inj w c.1 c.2 c'.1 c'.2 hc.2 hc'.2 e
        exact hne (Prod.ext this.1 this.2)
      simp only [game_set_piece_shape, game_set_piece_orientation, game_get_piece_shape,
        game_get_piece_orientation, game_nb_cols, h1, idx_mod h w c.1 c.2 hc.1 hc.2 hsz,
        idx_mod h w c'.1 c'.2 hc'.1 hc'.2 hsz]
      rw [getD_set_other _ _ _ _ _ hidx, getD_set_other _ _ _ _ _ hidx])
    dst ⟨hW, hs, hd⟩ (i, j) ((mem_cells h w (i, j)).2 ⟨hi, hj⟩)
  exact ⟨congrArg Prod.fst key, congrArg Prod.snd key⟩

/-- Two arrays of `h * w` entries that agree on every cell are equal. -/
theorem list_eq_of_cells {α : Type} (l1 l2 : List α) (dflt : α) (h w : Nat)
    (h1 : l1.length = h * w) (h2 : l2.length = h * w)
    (hget : ∀ i j, i < h → j < w → l1.getD (w * i + j) dflt = l2.getD (w * i + j) dflt) :
    l1 = l2 := by
  apply List.ext_getElem (by omega)
  intro n hn1 hn2
  have hw : 0 < w := by
    rcases Nat.eq_zero_or_pos w with hz | hp
    · subst hz; simp at h1; omega
    · exact hp
  have hdiv : n / w < h := by
    apply Nat.div_lt_of_lt_mul
    rw [Nat.mul_comm]; omega
  have hmod : n % w < w := Nat.mod_lt _ hw
  have hn : w * (n / w) + n % w = n := Nat.div_add_mod n w
  have := hget (n / w) (n % w) hdiv hmod
  rw [hn, List.getD_eq_getElem _ _ hn1, List.getD_eq_getElem _ _ hn2] at this
  exact this

theorem game_copy_eq (g : game) :
    game_copy g = copy_loop g g.HEIGHT g.WIDTH (game_new_empty_ext g.HEIGHT g.WIDTH g.is_wrapping) :=
  rfl

theorem game_copy_fields (g : game) :
    (game_copy g).HEIGHT = g.HEIGHT ∧ (game_copy g).WIDTH = g.WIDTH ∧
    (game_copy g).is_wrapping = g.is_wrapping ∧
    (game_copy g).tab_shape.length = (g.HEIGHT * g.WIDTH) % 4294967296 ∧
    (game_copy g).tab_direction.length = (g.HEIGHT * g.WIDTH) % 4294967296 := by
  rw [game_copy_eq]
  obtain ⟨h1, h2, h3, _, _, h6, h7⟩ :=
    copy_loop_fields g g.HEIGHT g.WIDTH (game_new_empty_ext g.HEIGHT g.WIDTH g.is_wrapping)
  refine ⟨h1, h2, h3, ?_, ?_⟩
  · rw [h6]; simp [game_new_empty_ext]
  · rw [h7]; simp [game_new_empty_ext]

theorem game_copy_get (g : game) (hsz : g.HEIGHT * g.WIDTH < 4294967296) (i j : Nat)
    (hi : i < g.HEIGHT) (hj : j < g.WIDTH) :
    game_get_piece_shape (game_copy g) i j = game_get_piece_shape g i j ∧
    game_get_piece_orientation (game_copy g) i j = game_get_piece_orientation g i j := by
  rw [game_copy_eq]
  exact copy_loop_get g g.HEIGHT g.WIDTH
    (game_new_empty_ext g.HEIGHT g.WIDTH g.is_wrapping) rfl
    ((List.length_replicate _ _).trans (Nat.mod_eq_of_lt hsz))
    ((List.length_replicate _ _).trans (Nat.mod_eq_of_lt hsz)) hsz i j hi hj

/-! ## The search -/

theorem same_frame_refl (g : game) : same_frame g g :=
  ⟨rfl, rfl, rfl, rfl, rfl, rfl, rfl⟩

theorem same_frame_trans {g1 g2 g3 : game} (h12 : same_frame g1 g2) (h23 : same_frame g2 g3) :
    same_frame g1 g3 := by
  obtain ⟨a1, a2, a3, a4, a5, a6, a7⟩ := h12
  obtain ⟨b1, b2, b3, b4, b5, b6, b7⟩ := h23
  exact ⟨b1.trans a1, b2.trans a2, b3.trans a3, b4.trans a4, b5.trans a5, b6.trans a6,
    b7.trans a7⟩

theorem same_frame_set_orientation (g : game) (i j : Nat) (o : direction) :
    same_frame g (game_set_piece_orientation g i j o) := by
  simp [same_frame, game_set_piece_orientation]

/-- The search only rewrites orientations of the working game. -/
theorem solve_rec_same_frame (fuel : Nat) (g : game) (pos size : Nat) (count : Option Nat)
    (t_shape : List Nat) : same_frame g (solve_rec fuel g pos size count t_shape).g := by
  induction fuel generalizing g pos count t_shape with
  | zero => exact same_frame_refl g
  | succ fuel ih =>
    unfold solve_rec
    split
    · exact same_frame_refl g
    · apply foldl_inv (fun st : solve_state => same_frame g st.g)
      · intro st d _ hst
        dsimp only
        split
        · exact hst
        · split
          · split
            · exact same_frame_trans
                (same_frame_trans hst (same_frame_set_orientation _ _ _ _)) (ih _ _ _ _)
            · exact same_frame_trans hst (same_frame_set_orientation _ _ _ _)
          · exact hst
      · exact same_frame_refl g

/-- A call of `solve_rec` that returns true leaves a winning working game. -/
theorem solve_rec_sound (fuel : Nat) (g : game) (pos size : Nat) (count : Option Nat)
    (t_shape : List Nat) (h : (solve_rec fuel g pos size count t_shape).ret = true) :
    game_won (solve_rec fuel g pos size count t_shape).g = true := by
  induction fuel generalizing g pos count t_shape with
  | zero => simp [solve_rec] at h
  | succ fuel ih =>
    unfold solve_rec at h ⊢
    split
    · rename_i hp
      simp only [hp, ↓reduceIte] at h
      exact h
    · rename_i hp
      simp only [hp, ↓reduceIte] at h
      revert h
      apply foldl_inv (fun st : solve_state => st.ret = true → game_won st.g = true)
      · intro st d _ hst
        dsimp only
        split
        · exact hst
        · split
          · split
            · intro hr
              simp only [Bool.and_eq_true] at hr
              exact ih _ _ _ _ hr.1
            · rename_i hret _ _
              intro hr
              exact absurd hr hret
          · exact hst
      · intro hr
        cases hr

theorem fill_step_stacks (g : game) (u r : List move) (st : fill_state) :
    fill_step { g with undo_mooves := u, redo_mooves := r } st = fill_step g st :=
  rfl

theorem fill_loop_stacks (g : game) (u r : List move) (fuel : Nat) (st : fill_state) :
    fill_loop { g with undo_mooves := u, redo_mooves := r } fuel st = fill_loop g fuel st := by
  induction fuel generalizing st with
  | zero => rfl
  | succ fuel ih =>
    unfold fill_loop
    split
    · rfl
    · rw [fill_step_stacks, ih]

theorem game_is_well_paired_stacks (g : game) (u r : List move) :
    game_is_well_paired { g with undo_mooves := u, redo_mooves := r } =
      game_is_well_paired g :=
  rfl

theorem find_start_stacks (g : game) (u r : List move) :
    find_start { g with undo_mooves := u, redo_mooves := r } = find_start g :=
  rfl

theorem game_is_connected_stacks (g : game) (u r : List move) :
    game_is_connected { g with undo_mooves := u, redo_mooves := r } = game_is_connected g := by
  unfold game_is_connected
  rw [find_start_stacks]
  cases find_start g with
  | none => rfl
  | some c =>
    simp only [fill_loop_stacks]
    rfl

/-- The win predicate does not read the history stacks. -/
theorem game_won_stacks (g : game) (u r : List move) :
    game_won { g with undo_mooves := u, redo_mooves := r } = game_won g := by
  unfold game_won
  rw [game_is_connected_stacks, game_is_well_paired_stacks]

theorem game_won_congr (g1 g2 : game) (hH : g1.HEIGHT = g2.HEIGHT) (hW : g1.WIDTH = g2.WIDTH)
    (hwr : g1.is_wrapping = g2.is_wrapping) (hs : g1.tab_shape = g2.tab_shape)
    (hd : g1.tab_direction = g2.tab_direction) : game_won g1 = game_won g2 := by
  have h : g1 = { g2 with undo_mooves := g1.undo_mooves, redo_mooves := g1.redo_mooves } := by
    cases g1
    cases g2
    simp only at hH hW hwr hs hd
    subst hH hW hwr hs hd
    rfl
  rw [h, game_won_stacks]

/-- Enough fuel: any two fuels above the number of cells left give the same
result. -/
theorem solve_rec_fuel (fuel1 fuel2 : Nat) (g : game) (pos size : Nat) (count : Option Nat)
    (t_shape : List Nat) (hpos : pos ≤ size) (h1 : size - pos < fuel1)
    (h2 : size - pos < fuel2) :
    solve_rec fuel1 g pos size count t_shape = solve_rec fuel2 g pos size count t_shape := by
  induction fuel1 generalizing fuel2 g pos count t_shape with
  | zero => omega
  | succ f1 ih =>
    cases fuel2 with
    | zero => omega
    | succ f2 =>
      by_cases hp : (pos == size) = true
      · simp only [solve_rec, hp, ↓reduceIte]
      · have hne : pos ≠ size := by simpa using hp
        have ih2 : ∀ (g : game) (c : Option Nat) (t : List Nat),
            solve_rec f1 g (pos + 1) size c t = solve_rec f2 g (pos + 1) size c t :=
          fun g c t => ih f2 g (pos + 1) c t (by omega) (by omega) (by omega)
        simp only [solve_rec, hp, ih2]

/-! ## game_solve -/

/-- Result of the search run by `game_solve` on the copy of `g`. -/
theorem game_solve_eq (g : game) :
    game_solve g =
      if game_won g = true then (true, g)
      else
        (game_won
          (if (solve_rec (g.WIDTH * g.HEIGHT + 1) (game_copy g) 0 (g.WIDTH * g.HEIGHT) none
              (init_Array (game_copy g) (List.replicate (g.WIDTH * g.HEIGHT) 0))).ret = true
            then copy_loop (solve_rec (g.WIDTH * g.HEIGHT + 1) (game_copy g) 0
              (g.WIDTH * g.HEIGHT) none
              (init_Array (game_copy g) (List.replicate (g.WIDTH * g.HEIGHT) 0))).g
              g.HEIGHT g.WIDTH g
            else g),
         if (solve_rec (g.WIDTH * g.HEIGHT + 1) (game_copy g) 0 (g.WIDTH * g.HEIGHT) none
              (init_Array (game_copy g) (List.replicate (g.WIDTH * g.HEIGHT) 0))).ret = true
            then copy_loop (solve_rec (g.WIDTH * g.HEIGHT + 1) (game_copy g) 0
              (g.WIDTH * g.HEIGHT) none
              (init_Array (game_copy g) (List.replicate (g.WIDTH * g.HEIGHT) 0))).g
              g.HEIGHT g.WIDTH g
            else g) :=
  rfl

/-- Writing back the cells of a game that has the shapes of `g` leaves the
shape array of `g` as it is. -/
theorem copy_loop_shapes (src g : game)
    (hsrc : ∀ i j, i < g.HEIGHT → j < g.WIDTH →
      game_get_piece_shape src i j = game_get_piece_shape g i j) :
    (copy_loop src g.HEIGHT g.WIDTH g).tab_shape = g.tab_shape := by
  rw [copy_loop_eq]
  have key := foldl_inv (fun a : game => a.tab_shape = g.tab_shape ∧ a.WIDTH = g.WIDTH)
    (fun a c => game_set_piece_shape
      (game_set_piece_orientation a c.1 c.2 (game_get_piece_orientation src c.1 c.2))
      c.1 c.2 (game_get_piece_shape src c.1 c.2))
    (cells g.HEIGHT g.WIDTH)
    (by
      intro a c hc ha
      rw [mem_cells] at hc
      obtain ⟨h1, h2⟩ := ha
      refine ⟨?_, by simpa [game_set_piece_shape, game_set_piece_orientation] using h2⟩
      dsimp only
      rw [hsrc c.1 c.2 hc.1 hc.2]
      simp only [game_set_piece_shape, game_set_piece_orientation, game_get_piece_shape,
        game_nb_cols, h1, h2]
      exact set_getD_self _ _ _)
    g ⟨rfl, rfl⟩
  exact key.1

theorem game_solve_dims (g : game) :
    (game_solve g).2.HEIGHT = g.HEIGHT ∧ (game_solve g).2.WIDTH = g.WIDTH ∧
    (game_solve g).2.is_wrapping = g.is_wrapping := by
  rw [game_solve_eq]
  split
  · exact ⟨rfl, rfl, rfl⟩
  · dsimp only
    split
    · obtain ⟨k1, k2, k3, _⟩ := copy_loop_fields
        (solve_rec (g.WIDTH * g.HEIGHT + 1) (game_copy g) 0 (g.WIDTH * g.HEIGHT) none
          (init_Array (game_copy g) (List.replicate (g.WIDTH * g.HEIGHT) 0))).g
        g.HEIGHT g.WIDTH g
      exact ⟨k1, k2, k3⟩
    · exact ⟨rfl, rfl, rfl⟩

theorem game_solve_frame (g : game) (hsz : g.HEIGHT * g.WIDTH < 4294967296) :
    (game_solve g).2.tab_shape = g.tab_shape ∧ (game_solve g).2.HEIGHT = g.HEIGHT ∧
    (game_solve g).2.WIDTH = g.WIDTH ∧ (game_solve g).2.is_wrapping = g.is_wrapping := by
  rw [game_solve_eq]
  split
  · exact ⟨rfl, rfl, rfl, rfl⟩
  · dsimp only
    split
    · have hfr := solve_rec_same_frame (g.WIDTH * g.HEIGHT + 1) (game_copy g) 0
        (g.WIDTH * g.HEIGHT) none
        (init_Array (game_copy g) (List.replicate (g.WIDTH * g.HEIGHT) 0))
      obtain ⟨f1, f2, f3, f4, f5, f6, f7⟩ := hfr
      obtain ⟨c1, c2, c3, c4, c5⟩ := game_copy_fields g
      obtain ⟨k1, k2, k3, _⟩ := copy_loop_fields
        (solve_rec (g.WIDTH * g.HEIGHT + 1) (game_copy g) 0 (g.WIDTH * g.HEIGHT) none
          (init_Array (game_copy g) (List.replicate (g.WIDTH * g.HEIGHT) 0))).g
        g.HEIGHT g.WIDTH g
      refine ⟨?_, k1, k2, k3⟩
      apply copy_loop_shapes
      intro i j hi hj
      rw [← (game_copy_get g hsz i j hi hj).1]
      simp only [game_get_piece_shape, game_nb_cols, f2, f4]
    · exact ⟨rfl, rfl, rfl, rfl⟩

/-- C4.  When `game_solve` returns true on a game of less than `2^32` cells,
the game it leaves satisfies `game_won` and every cell has the shape it had
before the call. -/
theorem game_solve_true_won (g : game)
    (hsz : game_nb_rows g * game_nb_cols g < 4294967296) (h : (game_solve g).1 = true) :
    game_won (game_solve g).2 = true ∧
      ∀ i j, game_get_piece_shape (game_solve g).2 i j = game_get_piece_shape g i j := by
  constructor
  · rw [game_solve_eq] at h ⊢
    split
    · assumption
    · rename_i hw
      simp only [hw, ↓reduceIte] at h
      exact h
  · intro i j
    obtain ⟨h1, _, h3, _⟩ := game_solve_frame g hsz
    simp only [game_get_piece_shape, game_nb_cols, h1, h3]

/-- Witness of C4 on the 1 by 2 grid of two Endpoints that both point north. -/
theorem game_solve_true_won_witness :
    game_nb_rows (endpoints_1x2 direction.NORTH direction.NORTH [] []) *
      game_nb_cols (endpoints_1x2 direction.NORTH direction.NORTH [] []) < 4294967296 ∧
    (game_solve (endpoints_1x2 direction.NORTH direction.NORTH [] [])).1 = true ∧
    game_won (game_solve (endpoints_1x2 direction.NORTH direction.NORTH [] [])).2 = true ∧
    ∀ i j,
      game_get_piece_shape (game_solve (endpoints_1x2 direction.NORTH direction.NORTH [] [])).2 i j
        = game_get_piece_shape (endpoints_1x2 direction.NORTH direction.NORTH [] []) i j :=
  ⟨by decide, by decide, game_solve_true_won _ (by decide) (by decide)⟩

/-- C6.  When `game_solve` returns false on a valid game, the game is left
exactly as it was. -/
theorem game_solve_false_unchanged (g : game) (hwf : game_wf g)
    (h : (game_solve g).1 = false) : (game_solve g).2 = g := by
  rw [game_solve_eq] at h ⊢
  split
  · rfl
  · rename_i hw
    simp only [hw, ↓reduceIte] at h
    dsimp only
    split
    · rename_i hret
      exfalso
      simp only [hret, ↓reduceIte] at h
      have hsound := solve_rec_sound _ _ _ _ _ _ hret
      obtain ⟨f1, f2, f3, f4, f5, f6, f7⟩ := solve_rec_same_frame (g.WIDTH * g.HEIGHT + 1)
        (game_copy g) 0 (g.WIDTH * g.HEIGHT) none
        (init_Array (game_copy g) (List.replicate (g.WIDTH * g.HEIGHT) 0))
      obtain ⟨c1, c2, c3, c4, c5⟩ := game_copy_fields g
      obtain ⟨_, _, w3, w4, w5⟩ := hwf
      rw [Nat.mod_eq_of_lt w5] at c4 c5
      generalize (solve_rec (g.WIDTH * g.HEIGHT + 1) (game_copy g) 0 (g.WIDTH * g.HEIGHT) none
        (init_Array (game_copy g) (List.replicate (g.WIDTH * g.HEIGHT) 0))).g = rg at *
      obtain ⟨k1, k2, k3, _, _, k6, k7⟩ := copy_loop_fields rg g.HEIGHT g.WIDTH g
      have hget := copy_loop_get rg g.HEIGHT g.WIDTH g rfl w3 w4 w5
      have e1 : (copy_loop rg g.HEIGHT g.WIDTH g).tab_shape = rg.tab_shape := by
        apply list_eq_of_cells _ _ shape.EMPTY g.HEIGHT g.WIDTH
        · rw [k6, w3]
        · rw [f4, c4]
        · intro i j hi hj
          have := (hget i j hi hj).1
          simpa [game_get_piece_shape, game_nb_cols, k2, f2, c2,
            idx_mod g.HEIGHT g.WIDTH i j hi hj w5] using this
      have e2 : (copy_loop rg g.HEIGHT g.WIDTH g).tab_direction = rg.tab_direction := by
        apply list_eq_of_cells _ _ direction.NORTH g.HEIGHT g.WIDTH
        · rw [k7, w4]
        · rw [f5, c5]
        · intro i j hi hj
          have := (hget i j hi hj).2
          simpa [game_get_piece_orientation, game_nb_cols, k2, f2, c2,
            idx_mod g.HEIGHT g.WIDTH i j hi hj w5] using this
      have hc := game_won_congr (copy_loop rg g.HEIGHT g.WIDTH g) rg
        (by rw [k1, f1, c1]) (by rw [k2, f2, c2]) (by rw [k3, f3, c3]) e1 e2
      rw [hc, hsound] at h
      cases h
    · rfl

/-- Witness of C6 on a 1 by 2 grid that holds one Endpoint and one Empty cell,
which has no winning orientation. -/
theorem game_solve_false_unchanged_witness :
    game_wf endpoint_and_empty ∧ (game_solve endpoint_and_empty).1 = false ∧
    (game_solve endpoint_and_empty).2 = endpoint_and_empty :=
  ⟨by decide, by decide, game_solve_false_unchanged endpoint_and_empty (by decide) (by decide)⟩

/-- C5, evaluated on the 1 by 3 grid `two_endpoints_1x3`: turning the two
Endpoints toward each other wins, yet `game_solve` returns false and leaves the
grid as it was. -/
theorem game_solve_misses_facing_endpoints :
    game_won two_endpoints_1x3_facing = true ∧
    two_endpoints_1x3_facing.tab_shape = two_endpoints_1x3.tab_shape ∧
    two_endpoints_1x3_facing.HEIGHT = two_endpoints_1x3.HEIGHT ∧
    two_endpoints_1x3_facing.WIDTH = two_endpoints_1x3.WIDTH ∧
    two_endpoints_1x3_facing.is_wrapping = two_endpoints_1x3.is_wrapping ∧
    game_solve two_endpoints_1x3 = (false, two_endpoints_1x3) := by
  decide

/-- C7, evaluated on the 1 by 3 grid `two_endpoints_1x3`: exactly one
orientation assignment wins, and `game_nb_solutions` returns 0. -/
theorem game_nb_solutions_misses_facing_endpoints :
    nb_winning_assignments two_endpoints_1x3 = 1 ∧
    (game_nb_solutions two_endpoints_1x3).1 = 0 := by
  decide

/-- C8.  On a grid of two cells without wrapping, 2 by 1 or 1 by 2, that holds
two Endpoints, `game_nb_solutions` returns 1 for each of the 16 initial
orientations, whatever the history stacks hold. -/
theorem game_nb_solutions_two_endpoints (o1 o2 : direction) (u r : List move) :
    (game_nb_solutions (endpoints_2x1 o1 o2 u r)).1 = 1 ∧
    (game_nb_solutions (endpoints_1x2 o1 o2 u r)).1 = 1 := by
  have h1 : (game_nb_solutions (endpoints_2x1 o1 o2 u r)).1 =
      (game_nb_solutions (endpoints_2x1 o1 o2 [] [])).1 := rfl
  have h2 : (game_nb_solutions (endpoints_1x2 o1 o2 u r)).1 =
      (game_nb_solutions (endpoints_1x2 o1 o2 [] [])).1 := rfl
  rw [h1, h2]
  cases o1 <;> cases o2 <;> decide

/-- C9.  `game_nb_solutions` leaves the memory as it was: after the call the
game behind the pointer `g`, like every other game, has the dimensions, the
wrapping flag, the shapes and the orientations it had before.  The search
writes to the game that `game_copy` allocates behind the games that exist,
and `game_delete` frees that game.  In particular a game that is alone in the
memory is unchanged. -/
theorem game_nb_solutions_unchanged (mem : List game) (g : Nat) (g0 : game) :
    (game_nb_solutions_mem mem g).2 = mem ∧ (game_nb_solutions g0).2 = g0 := by
  have key : ∀ (m : List game) (p : Nat), (game_nb_solutions_mem m p).2 = m := by
    intro m p
    unfold game_nb_solutions_mem
    dsimp only
    rw [List.set_append_right _ _ (Nat.le_refl _), Nat.sub_self,
      List.eraseIdx_append_of_length_le (Nat.le_refl _), Nat.sub_self]
    simp
  refine ⟨key mem g, ?_⟩
  unfold game_nb_solutions
  dsimp only
  rw [key]
  rfl

/-! ## History -/

theorem game_undo_play_move (g : game) (i j : Nat) (n : Int) (R : List move) :
    ∃ m : move,
      game_undo { game_play_move g i j n with redo_mooves := R } =
        { g with redo_mooves := m :: R } ∧
      game_redo { g with redo_mooves := m :: R } =
        { game_play_move g i j n with redo_mooves := R } := by
  refine ⟨{ i := i, j := j, old := game_get_piece_orientation g i j,
            new := dir_of_val (Int.toNat (to_uint ((dir_val (game_get_piece_orientation g i j) : Int)
              + n + (NB_DIRS : Int))) % NB_DIRS) }, ?_, ?_⟩
  · simp only [game_undo, game_play_move, game_set_piece_orientation, game_nb_cols,
      game_get_piece_orientation, List.set_set, set_getD_self]
  · simp only [game_redo, game_play_move, game_set_piece_orientation, game_nb_cols,
      game_get_piece_orientation]

theorem game_play_move_redo (g : game) (i j : Nat) (n : Int) :
    (game_play_move g i j n).redo_mooves = [] :=
  rfl

theorem play_moves_redo (ms : List (Nat × Nat × Int)) (g : game) (hr : g.redo_mooves = []) :
    (play_moves g ms).redo_mooves = [] := by
  unfold play_moves
  exact foldl_inv (fun a : game => a.redo_mooves = []) _ ms
    (fun a m _ _ => game_play_move_redo a m.1 m.2.1 m.2.2) g hr

/-- Undoing all the moves played from a state with an empty redo stack gives
that state back, up to the redo stack, and redoing them all gives the state
after the moves. -/
theorem undo_all_redo_all (ms : List (Nat × Nat × Int)) (g : game) (hr : g.redo_mooves = []) :
    ∃ R : List move,
      Nat.iterate game_undo ms.length (play_moves g ms) = { g with redo_mooves := R } ∧
      Nat.iterate game_redo ms.length { g with redo_mooves := R } = play_moves g ms := by
  induction ms generalizing g with
  | nil =>
    refine ⟨[], ?_, ?_⟩ <;>
    · cases g
      simp only at hr
      subst hr
      rfl
  | cons m ms ih =>
    obtain ⟨R, h1, h2⟩ := ih (game_play_move g m.1 m.2.1 m.2.2) (game_play_move_redo _ _ _ _)
    obtain ⟨mv, k1, k2⟩ := game_undo_play_move g m.1 m.2.1 m.2.2 R
    refine ⟨mv :: R, ?_, ?_⟩
    · rw [List.length_cons, Function.iterate_succ_apply']
      show game_undo (Nat.iterate game_undo ms.length
        (play_moves (game_play_move g m.1 m.2.1 m.2.2) ms)) = _
      rw [h1, k1]
    · rw [List.length_cons, Function.iterate_succ_apply, k2, h2]
      rfl

/-- C10.  From a game whose two stacks are empty, after any sequence of `N`
calls of `game_play_move`: `N` calls of `game_undo` give back the orientations
the game had before the moves, `N` further calls of `game_redo` give back the
orientations it had after the moves, and one more `game_undo` after the `N`
undos, or one more `game_redo` after the `N` redos, changes nothing. -/
theorem undo_redo_round_trip (g : game) (ms : List (Nat × Nat × Int))
    (hu : g.undo_mooves = []) (hr : g.redo_mooves = []) :
    (∀ i j, game_get_piece_orientation (Nat.iterate game_undo ms.length (play_moves g ms)) i j =
      game_get_piece_orientation g i j) ∧
    (∀ i j, game_get_piece_orientation
        (Nat.iterate game_redo ms.length (Nat.iterate game_undo ms.length (play_moves g ms))) i j =
      game_get_piece_orientation (play_moves g ms) i j) ∧
    game_undo (Nat.iterate game_undo ms.length (play_moves g ms)) =
      Nat.iterate game_undo ms.length (play_moves g ms) ∧
    game_redo
        (Nat.iterate game_redo ms.length (Nat.iterate game_undo ms.length (play_moves g ms))) =
      Nat.iterate game_redo ms.length (Nat.iterate game_undo ms.length (play_moves g ms)) := by
  obtain ⟨R, h1, h2⟩ := undo_all_redo_all ms g hr
  rw [h1, h2]
  refine ⟨fun _ _ => rfl, fun _ _ => rfl, ?_, ?_⟩
  · simp only [game_undo, hu]
  · have := play_moves_redo ms g hr
    simp only [game_redo, this]

/-- Witness of C10 with two moves played on the 1 by 2 grid of two
Endpoints. -/
theorem undo_redo_round_trip_witness :
    (endpoints_1x2 direction.NORTH direction.NORTH [] []).undo_mooves = [] ∧
    (endpoints_1x2 direction.NORTH direction.NORTH [] []).redo_mooves = [] ∧
    game_undo (Nat.iterate game_undo 2
        (play_moves (endpoints_1x2 direction.NORTH direction.NORTH [] []) [(0, 0, 1), (0, 1, -1)])) =
      Nat.iterate game_undo 2
        (play_moves (endpoints_1x2 direction.NORTH direction.NORTH [] []) [(0, 0, 1), (0, 1, -1)]) :=
  ⟨rfl, rfl,
    (undo_redo_round_trip (endpoints_1x2 direction.NORTH direction.NORTH [] [])
      [(0, 0, 1), (0, 1, -1)] rfl rfl).2.2.1⟩

/-! ## Connectivity: the flood fill -/

theorem match_has_half_edge (g : game) (i j : Nat) (d : direction)
    (h : game_check_edge g i j d = edge_status.MATCH) : game_has_half_edge g i j d = true := by
  unfold game_check_edge at h
  cases hA : game_has_half_edge g i j d
  · simp [hA] at h
    split at h <;> simp at h
  · rfl

theorem fill_push_visited (g : game) (i j : Nat) (st : fill_state) (d : direction) :
    (fill_push g i j st d).visited = st.visited := by
  unfold fill_push
  split
  · split <;> rfl
  · rfl

theorem fill_push_stack (g : game) (i j : Nat) (st : fill_state) (d : direction) :
    (fill_push g i j st d).stack = st.stack ∨
    ∃ b, (fill_push g i j st d).stack = b :: st.stack ∧
      game_get_ajacent_square g i j d = some b ∧
      game_check_edge g i j d = edge_status.MATCH := by
  unfold fill_push
  split
  · rename_i i_next j_next hadj
    split
    · rename_i hc
      right
      simp only [Bool.and_eq_true, beq_iff_eq] at hc
      exact ⟨(i_next, j_next), rfl, hadj, hc.1.2⟩
    · left; rfl
  · left; rfl

theorem fill_push_reaches (g : game) (i j : Nat) (st : fill_state) (d : direction)
    (b : Nat × Nat) (hadj : game_get_ajacent_square g i j d = some b)
    (hm : game_check_edge g i j d = edge_status.MATCH) :
    is_visited g st b ∨ b ∈ (fill_push g i j st d).stack := by
  unfold fill_push is_visited
  rw [hadj]
  dsimp only
  cases hv : st.visited.getD ((b.1 * game_nb_cols g + b.2) % 4294967296) false
  · right
    simp only [hm, match_has_half_edge g i j d hm]
    simp
  · left; rfl

theorem fill_pushes (g : game) (i j : Nat) (L : List direction) (st : fill_state) :
    (L.foldl (fill_push g i j) st).visited = st.visited ∧
    (∀ x ∈ st.stack, x ∈ (L.foldl (fill_push g i j) st).stack) ∧
    (∀ x ∈ (L.foldl (fill_push g i j) st).stack, x ∈ st.stack ∨
      ∃ d, game_get_ajacent_square g i j d = some x ∧
        game_check_edge g i j d = edge_status.MATCH) ∧
    (∀ d ∈ L, ∀ b, game_get_ajacent_square g i j d = some b →
      game_check_edge g i j d = edge_status.MATCH →
      is_visited g st b ∨ b ∈ (L.foldl (fill_push g i j) st).stack) ∧
    (L.foldl (fill_push g i j) st).stack.length ≤ st.stack.length + L.length := by
  induction L generalizing st with
  | nil =>
    refine ⟨rfl, fun x hx => hx, fun x hx => Or.inl hx, ?_, by simp⟩
    intro d hd
    cases hd
  | cons d L ih =>
    obtain ⟨h1, h2, h3, h4, h5⟩ := ih (fill_push g i j st d)
    have hv := fill_push_visited g i j st d
    have hs := fill_push_stack g i j st d
    simp only [List.foldl_cons]
    refine ⟨h1.trans hv, ?_, ?_, ?_, ?_⟩
    · intro x hx
      apply h2
      rcases hs with e | ⟨b, e, _, _⟩ <;> rw [e]
      · exact hx
      · exact List.mem_cons_of_mem _ hx
    · intro x hx
      rcases h3 x hx with hx1 | hx1
      · rcases hs with e | ⟨b, e, e1, e2⟩ <;> rw [e] at hx1
        · exact Or.inl hx1
        · rcases List.mem_cons.1 hx1 with rfl | hx2
          · exact Or.inr ⟨d, e1, e2⟩
          · exact Or.inl hx2
      · exact Or.inr hx1
    · intro d' hd' b hadj hm
      rcases List.mem_cons.1 hd' with rfl | hd2
      · rcases fill_push_reaches g i j st d' b hadj hm with hb | hb
        · exact Or.inl hb
        · exact Or.inr (h2 b hb)
      · rcases h4 d' hd2 b hadj hm with hb | hb
        · left
          unfold is_visited at hb ⊢
          rw [hv] at hb
          exact hb
        · exact Or.inr hb
    · have : (fill_push g i j st d).stack.length ≤ st.stack.length + 1 := by
        rcases hs with e | ⟨b, e, _, _⟩ <;> rw [e] <;> simp
      simp only [List.length_cons]
      omega

theorem count_false_set {l : List Bool} {k : Nat} (hk : k < l.length)
    (hv : ¬ l.getD k false = true) : (l.set k true).count false + 1 = l.count false := by
  induction l generalizing k with
  | nil => simp at hk
  | cons b l ih =>
    cases k with
    | zero =>
      simp at hv
      subst hv
      simp
    | succ k =>
      simp only [List.length_cons, Nat.add_lt_add_iff_right] at hk
      have hv' : ¬ l.getD k false = true := by simpa using hv
      have := ih hk hv'
      cases b <;> simp [List.count_cons] <;> omega

theorem cell_idx_lt (g : game) (c : Nat × Nat) (hc : cell_in g c) :
    c.1 * game_nb_cols g + c.2 < game_nb_rows g * game_nb_cols g := by
  rw [Nat.mul_comm c.1]
  exact idx_lt _ _ _ _ hc.1 hc.2

/-- In a valid game the position of a cell in the array `visited`, computed in
`unsigned int`, is its row-major index. -/
theorem visited_idx_mod (g : game) (hwf : game_wf g) (c : Nat × Nat) (hc : cell_in g c) :
    (c.1 * game_nb_cols g + c.2) % 4294967296 = c.1 * game_nb_cols g + c.2 :=
  Nat.mod_eq_of_lt (Nat.lt_trans (cell_idx_lt g c hc) hwf.2.2.2.2)

theorem cell_idx_inj (g : game) (a b : Nat × Nat) (ha : cell_in g a) (hb : cell_in g b)
    (h : a.1 * game_nb_cols g + a.2 = b.1 * game_nb_cols g + b.2) : a = b := by
  rw [Nat.mul_comm a.1, Nat.mul_comm b.1] at h
  have := idx_inj _ _ _ _ _ ha.2 hb.2 h
  exact Prod.ext this.1 this.2

theorem match_adjacent_cell_in (g : game) (hwf : game_wf g) (a b : Nat × Nat)
    (h : match_adjacent g a b) : cell_in g b := by
  obtain ⟨ha, d, hadj, _⟩ := h
  obtain ⟨h1, h2, _⟩ := adj_symm g a.1 a.2 b.1 b.2 d hwf.1 hwf.2.1 ha.1 ha.2 hadj
  exact ⟨h1, h2⟩

theorem match_adjacent_symm (g : game) (hwf : game_wf g) (a b : Nat × Nat)
    (h : match_adjacent g a b) : match_adjacent g b a := by
  have hb := match_adjacent_cell_in g hwf a b h
  obtain ⟨ha, d, hadj, hm⟩ := h
  obtain ⟨k1, k2⟩ := edge_symm g a.1 a.2 b.1 b.2 d hwf ha.1 ha.2 hadj
  exact ⟨hb, OPPOSITE_DIR d, k1, by rw [← k2]; exact hm⟩

theorem is_visited_mark (g : game) (hwf : game_wf g) (st : fill_state)
    (rest : List (Nat × Nat)) (c x : Nat × Nat) (hc : cell_in g c) (hx : cell_in g x)
    (hlen : st.visited.length = game_nb_rows g * game_nb_cols g) :
    is_visited g (fill_state.mk rest
        (st.visited.set ((c.1 * game_nb_cols g + c.2) % 4294967296) true)) x ↔
      x = c ∨ is_visited g st x := by
  unfold is_visited
  dsimp only
  rw [visited_idx_mod g hwf c hc, visited_idx_mod g hwf x hx]
  by_cases hxc : x = c
  · subst hxc
    rw [getD_set_same _ _ _ _ (by rw [hlen]; exact cell_idx_lt g x hc)]
    simp
  · have hne : c.1 * game_nb_cols g + c.2 ≠ x.1 * game_nb_cols g + x.2 :=
      fun e => hxc (cell_idx_inj g c x hc hx e).symm
    rw [getD_set_other _ _ _ _ _ hne]
    simp [hxc]

/-- One iteration of the flood fill keeps the invariant and decreases the
variant. -/
theorem fill_step_inv (g : game) (hwf : game_wf g) (s : Nat × Nat) (st : fill_state)
    (hinv : fill_inv g s st) (hne : st.stack ≠ []) :
    fill_inv g s (fill_step g st) ∧ fill_measure (fill_step g st) < fill_measure st := by
  obtain ⟨I1, I2, I3, I4, I5⟩ := hinv
  cases hst : st.stack with
  | nil => exact absurd hst hne
  | cons c rest =>
    obtain ⟨i, j⟩ := c
    have hc : cell_in g (i, j) ∧ joined g s (i, j) := I2 (i, j) (by rw [hst]; simp)
    unfold fill_step
    rw [hst]
    dsimp only
    split
    · rename_i hv
      have hvc : is_visited g st (i, j) := hv
      refine ⟨⟨I1, ?_, ?_, ?_, ?_⟩, ?_⟩
      · intro x hx
        exact I2 x (by rw [hst]; exact List.mem_cons_of_mem _ hx)
      · exact I3
      · rcases I4 with h | h
        · exact Or.inl h
        · rw [hst] at h
          rcases List.mem_cons.1 h with rfl | h
          · exact Or.inl hvc
          · exact Or.inr h
      · intro a b ha hva hab
        rcases I5 a b ha hva hab with h | h
        · exact Or.inl h
        · rw [hst] at h
          rcases List.mem_cons.1 h with rfl | h
          · exact Or.inl hvc
          · exact Or.inr h
      · unfold fill_measure
        rw [hst]
        simp
    · rename_i hv
      have hidx : (i * game_nb_cols g + j) % 4294967296 = i * game_nb_cols g + j :=
        visited_idx_mod g hwf (i, j) hc.1
      obtain ⟨F1, F2, F3, F4, F5⟩ := fill_pushes g i j all_dirs
        { stack := rest
          visited := st.visited.set ((i * game_nb_cols g + j) % 4294967296) true }
      have hmark := fun x hx => is_visited_mark g hwf st rest (i, j) x hc.1 hx I1
      have hvis : ∀ x, cell_in g x →
          (is_visited g (all_dirs.foldl (fill_push g i j)
            { stack := rest
              visited := st.visited.set ((i * game_nb_cols g + j) % 4294967296) true }) x ↔
          x = (i, j) ∨ is_visited g st x) := by
        intro x hx
        rw [← hmark x hx]
        unfold is_visited
        rw [F1]
      refine ⟨⟨?_, ?_, ?_, ?_, ?_⟩, ?_⟩
      · rw [F1]
        simp [I1]
      · intro x hx
        rcases F3 x hx with h | ⟨d, hadj, hm⟩
        · exact I2 x (by rw [hst]; exact List.mem_cons_of_mem _ h)
        · have hstep : match_adjacent g (i, j) x := ⟨hc.1, d, hadj, hm⟩
          exact ⟨match_adjacent_cell_in g hwf _ _ hstep, hc.2.tail hstep⟩
      · intro x hx hvx
        rcases (hvis x hx).1 hvx with rfl | h
        · exact hc.2
        · exact I3 x hx h
      · rcases I4 with h | h
        · left
          have hs : cell_in g s := by
            by_contra hns
            exact hns (by
              rcases Relation.ReflTransGen.cases_head hc.2 with e | ⟨y, hy, _⟩
              · rw [e]; exact hc.1
              · exact hy.1)
          exact (hvis s hs).2 (Or.inr h)
        · rw [hst] at h
          rcases List.mem_cons.1 h with e | h
          · left
            rw [e]
            exact (hvis (i, j) hc.1).2 (Or.inl rfl)
          · exact Or.inr (F2 s h)
      · intro a b ha hva hab
        have hb := match_adjacent_cell_in g hwf a b hab
        rcases (hvis a ha).1 hva with rfl | h
        · obtain ⟨_, d, hadj, hm⟩ := hab
          rcases F4 d (by cases d <;> simp [all_dirs]) b hadj hm with h | h
          · left
            exact (hvis b hb).2 ((hmark b hb).1 h)
          · exact Or.inr h
        · rcases I5 a b ha h hab with h | h
          · exact Or.inl ((hvis b hb).2 (Or.inr h))
          · rw [hst] at h
            rcases List.mem_cons.1 h with e | h
            · left
              rw [e]
              exact (hvis (i, j) hc.1).2 (Or.inl rfl)
            · exact Or.inr (F2 b h)
      · unfold fill_measure
        rw [F1, hst]
        have hcnt := count_false_set (l := st.visited)
          (k := (i * game_nb_cols g + j) % 4294967296)
          (by rw [I1, hidx]; exact cell_idx_lt g (i, j) hc.1) hv
        have hF5 : (all_dirs.foldl (fill_push g i j)
            { stack := rest
              visited :=
                st.visited.set ((i * game_nb_cols g + j) % 4294967296) true }).stack.length
            ≤ rest.length + 4 := F5
        simp only [List.length_cons]
        omega

/-- With a fuel of at least the variant, the loop ends with an empty stack and
the invariant holds at the end. -/
theorem fill_loop_inv (g : game) (hwf : game_wf g) (s : Nat × Nat) (fuel : Nat)
    (st : fill_state) (hinv : fill_inv g s st) (hfuel : fill_measure st ≤ fuel) :
    fill_inv g s (fill_loop g fuel st) ∧ (fill_loop g fuel st).stack = [] := by
  induction fuel generalizing st with
  | zero =>
    unfold fill_measure at hfuel
    have : st.stack.length = 0 := by omega
    exact ⟨hinv, List.length_eq_zero.1 this⟩
  | succ fuel ih =>
    unfold fill_loop
    split
    · rename_i he
      exact ⟨hinv, he⟩
    · rename_i c rest he
      obtain ⟨k1, k2⟩ := fill_step_inv g hwf s st hinv (by rw [he]; simp)
      exact ih _ k1 (by omega)

/-- Enough fuel: more fuel than the variant does not change the result. -/
theorem fill_loop_fuel (g : game) (hwf : game_wf g) (s : Nat × Nat) (fuel extra : Nat)
    (st : fill_state) (hinv : fill_inv g s st) (hfuel : fill_measure st ≤ fuel) :
    fill_loop g (fuel + extra) st = fill_loop g fuel st := by
  induction fuel generalizing st with
  | zero =>
    unfold fill_measure at hfuel
    have h0 : st.stack = [] := List.length_eq_zero.1 (by omega)
    cases extra with
    | zero => rfl
    | succ e =>
      simp only [Nat.zero_add]
      unfold fill_loop
      simp [h0]
  | succ fuel ih =>
    rw [Nat.add_right_comm]
    unfold fill_loop
    split
    · rfl
    · rename_i c rest he
      obtain ⟨k1, k2⟩ := fill_step_inv g hwf s st hinv (by rw [he]; simp)
      exact ih _ k1 (by omega)

theorem fill_init_inv (g : game) (s : Nat × Nat) (hs : cell_in g s) :
    fill_inv g s
      { stack := [s], visited := List.replicate (game_nb_rows g * game_nb_cols g) false } ∧
    fill_measure
      { stack := [s], visited := List.replicate (game_nb_rows g * game_nb_cols g) false } =
        4 * (game_nb_rows g * game_nb_cols g) + 1 := by
  have hnv : ∀ x, ¬ is_visited g
      { stack := [s], visited := List.replicate (game_nb_rows g * game_nb_cols g) false } x := by
    intro x
    unfold is_visited
    simp [List.getD_eq_getElem?_getD, List.getElem?_replicate]
    split <;> simp
  refine ⟨⟨by simp, ?_, ?_, ?_, ?_⟩, ?_⟩
  · intro c hc
    simp only [List.mem_singleton] at hc
    subst hc
    exact ⟨hs, Relation.ReflTransGen.refl⟩
  · intro c _ hv
    exact absurd hv (hnv c)
  · right; simp
  · intro a b _ hv
    exact absurd hv (hnv a)
  · unfold fill_measure
    simp [List.count_replicate]

/-- At the end of the flood fill, the marked cells are the cells joined to the
start cell. -/
theorem fill_final (g : game) (hwf : game_wf g) (s : Nat × Nat) (st : fill_state)
    (hinv : fill_inv g s st) (hst : st.stack = []) (x : Nat × Nat) (hx : cell_in g x) :
    is_visited g st x ↔ joined g s x := by
  obtain ⟨I1, I2, I3, I4, I5⟩ := hinv
  constructor
  · exact I3 x hx
  · intro hj
    have hvs : is_visited g st s := by
      rcases I4 with h | h
      · exact h
      · rw [hst] at h; cases h
    have hs : cell_in g s := by
      rcases Relation.ReflTransGen.cases_head hj with e | ⟨y, hy, _⟩
      · rw [e]; exact hx
      · exact hy.1
    have key : ∀ y, joined g s y → cell_in g y ∧ is_visited g st y := by
      intro y hy
      induction hy with
      | refl => exact ⟨hs, hvs⟩
      | tail _ hab ih =>
        obtain ⟨ha, hva⟩ := ih
        refine ⟨match_adjacent_cell_in g hwf _ _ hab, ?_⟩
        rcases I5 _ _ ha hva hab with h | h
        · exact h
        · rw [hst] at h; cases h
    exact (key x hj).2

theorem find_start_none (g : game) (h : find_start g = none) (c : Nat × Nat)
    (hc : cell_in g c) : game_get_piece_shape g c.1 c.2 = shape.EMPTY := by
  unfold find_start at h
  rw [List.findSome?_eq_none_iff] at h
  have h1 := h c.1 (List.mem_range.2 hc.1)
  rw [List.findSome?_eq_none_iff] at h1
  have h2 := h1 c.2 (List.mem_range.2 hc.2)
  by_contra hne
  simp [hne] at h2

theorem find_start_some (g : game) (s : Nat × Nat) (h : find_start g = some s) :
    non_empty_cell g s := by
  unfold find_start at h
  obtain ⟨i, hi, h1⟩ := List.exists_of_findSome?_eq_some h
  obtain ⟨j, hj, h2⟩ := List.exists_of_findSome?_eq_some h1
  split at h2
  · rename_i hne
    simp only [Option.some.injEq] at h2
    subst h2
    exact ⟨⟨List.mem_range.1 hi, List.mem_range.1 hj⟩, by simpa using hne⟩
  · cases h2

theorem joined_symm (g : game) (hwf : game_wf g) (a b : Nat × Nat) (h : joined g a b) :
    joined g b a :=
  Relation.ReflTransGen.symmetric (fun x y hxy => match_adjacent_symm g hwf x y hxy) h

/-- Result of `game_is_connected` when a start cell exists: every non-empty
cell is joined to the start cell. -/
theorem game_is_connected_start (g : game) (hwf : game_wf g) (s : Nat × Nat)
    (hs : find_start g = some s) :
    game_is_connected g = true ↔ ∀ x, non_empty_cell g x → joined g s x := by
  have hsc := (find_start_some g s hs).1
  obtain ⟨hi0, hm0⟩ := fill_init_inv g s hsc
  obtain ⟨hinv, hempty⟩ := fill_loop_inv g hwf s (4 * (game_nb_rows g * game_nb_cols g) + 1) _
    hi0 (by rw [hm0])
  have hfin := fill_final g hwf s _ hinv hempty
  have hsz : (game_nb_rows g * game_nb_cols g) % 4294967296 =
      game_nb_rows g * game_nb_cols g := Nat.mod_eq_of_lt hwf.2.2.2.2
  unfold game_is_connected
  rw [hs]
  dsimp only
  rw [hsz]
  simp only [List.all_eq_true, List.mem_range, Bool.not_eq_true', Bool.and_eq_false_imp,
    bne_iff_ne, ne_eq, Bool.not_eq_false']
  constructor
  · intro h x hx
    exact (hfin x hx.1).1 (h x.1 hx.1.1 x.2 hx.1.2 hx.2)
  · intro h i hi j hj hne
    exact (hfin (i, j) ⟨hi, hj⟩).2 (h (i, j) ⟨⟨hi, hj⟩, hne⟩)

/-- Value of `game_is_connected`, which is what a run that stays inside its
work stack returns: on a valid game it is true exactly when every two
non-empty cells are joined by a path of cells whose consecutive cells are
adjacent across a MATCH edge.  In particular it is true when no cell holds a
piece, and false when a non-empty cell has no MATCH edge and another non-empty
cell exists. -/
theorem game_is_connected_spec (g : game) (hwf : game_wf g) :
    (game_is_connected g = true ↔
      ∀ a b, non_empty_cell g a → non_empty_cell g b → joined g a b) ∧
    ((∀ c, ¬ non_empty_cell g c) → game_is_connected g = true) ∧
    (∀ a b, non_empty_cell g a → non_empty_cell g b → a ≠ b →
      (∀ d, game_check_edge g a.1 a.2 d ≠ edge_status.MATCH) →
      game_is_connected g = false) := by
  have main : game_is_connected g = true ↔
      ∀ a b, non_empty_cell g a → non_empty_cell g b → joined g a b := by
    cases hs : find_start g with
    | none =>
      have hnone : ∀ c, ¬ non_empty_cell g c := fun c hc => hc.2 (find_start_none g hs c hc.1)
      constructor
      · intro _ a _ ha
        exact absurd ha (hnone a)
      · intro _
        unfold game_is_connected
        rw [hs]
    | some s =>
      rw [game_is_connected_start g hwf s hs]
      constructor
      · intro h a b ha hb
        exact (joined_symm g hwf s a (h a ha)).trans (h b hb)
      · intro h x hx
        exact h s x (find_start_some g s hs) hx
  refine ⟨main, ?_, ?_⟩
  · intro hnone
    exact main.2 (fun a _ ha => absurd ha (hnone a))
  · intro a b ha hb hab hiso
    cases hcon : game_is_connected g
    · rfl
    · exfalso
      rcases Relation.ReflTransGen.cases_head (main.1 hcon a b ha hb) with e | ⟨y, hy, _⟩
      · exact hab e
      · obtain ⟨_, d, _, hm⟩ := hy
        exact hiso d hm

/-- The two Endpoints of the 1 by 3 grid `two_endpoints_1x3_facing` are
joined. -/
theorem game_is_connected_spec_witness :
    game_wf two_endpoints_1x3_facing ∧
    ∀ a b, non_empty_cell two_endpoints_1x3_facing a → non_empty_cell two_endpoints_1x3_facing b →
      joined two_endpoints_1x3_facing a b :=
  ⟨by decide, (game_is_connected_spec two_endpoints_1x3_facing (by decide)).1.1 (by decide)⟩

/-! ## History: empty stacks and new moves -/

/-- C11.  `game_play_move` empties the redo stack: after `game_undo` followed
by `game_play_move`, the redo stack is empty and `game_redo` leaves the whole
game, hence every orientation and both stacks, as it is. -/
theorem game_play_move_clears_redo (g : game) (i j : Nat) (nb_quarter_turns : Int) :
    (game_play_move (game_undo g) i j nb_quarter_turns).redo_mooves = [] ∧
    game_redo (game_play_move (game_undo g) i j nb_quarter_turns) =
      game_play_move (game_undo g) i j nb_quarter_turns :=
  ⟨rfl, rfl⟩

/-- C12.  `game_undo` on a game whose undo stack is empty, and `game_redo` on a
game whose redo stack is empty, return the game as it is: shapes, orientations
and both stacks. -/
theorem game_undo_redo_empty (g : game) :
    (g.undo_mooves = [] → game_undo g = g) ∧ (g.redo_mooves = [] → game_redo g = g) := by
  constructor
  · intro h
    simp only [game_undo, h]
  · intro h
    simp only [game_redo, h]

/-- Witness of C12 on a grid whose two stacks are empty. -/
theorem game_undo_redo_empty_witness :
    grid_2x3.undo_mooves = [] ∧ grid_2x3.redo_mooves = [] ∧
    game_undo grid_2x3 = grid_2x3 ∧ game_redo grid_2x3 = grid_2x3 :=
  ⟨rfl, rfl, (game_undo_redo_empty grid_2x3).1 rfl, (game_undo_redo_empty grid_2x3).2 rfl⟩

theorem dir_val_lt (d : direction) : dir_val d < 4 := by
  cases d <;> decide

theorem dir_val_of_val (n : Nat) : dir_val (dir_of_val n) = n % 4 := by
  have h : n % 4 < 4 := Nat.mod_lt _ (by decide)
  unfold dir_of_val
  generalize n % 4 = m at h
  interval_cases m <;> rfl

theorem dir_of_val_val (d : direction) : dir_of_val (dir_val d) = d := by
  cases d <;> rfl

/-- The remainder computed by `game_play_move` in `unsigned int` is the
mathematical residue modulo 4. -/
theorem play_move_residue (old : Nat) (n : Int) :
    ((Int.toNat (to_uint ((old : Int) + n + (NB_DIRS : Int))) % NB_DIRS : Nat) : Int) =
      ((old : Int) + n) % 4 := by
  unfold to_uint NB_DIRS
  have h1 : (0 : Int) ≤ ((old : Int) + n + ((4 : Nat) : Int)) % 4294967296 :=
    Int.emod_nonneg _ (by decide)
  rw [Int.natCast_mod, Int.toNat_of_nonneg h1]
  omega

/-- C13.  On a valid game and an in-range cell, for every integer
`nb_quarter_turns`, `game_play_move` sets the orientation of `(i, j)` to the
direction whose value is the residue of `old + nb_quarter_turns` modulo 4, and
pushes the move `(i, j, old, new)` onto the undo stack. -/
theorem game_play_move_spec (g : game) (i j : Nat) (nb_quarter_turns : Int)
    (hwf : game_wf g) (hi : i < game_nb_rows g) (hj : j < game_nb_cols g) :
    ((dir_val (game_get_piece_orientation (game_play_move g i j nb_quarter_turns) i j) : Nat) :
        Int) = ((dir_val (game_get_piece_orientation g i j) : Nat) + nb_quarter_turns) % 4 ∧
    (game_play_move g i j nb_quarter_turns).undo_mooves =
      { i := i, j := j, old := game_get_piece_orientation g i j,
        new := game_get_piece_orientation (game_play_move g i j nb_quarter_turns) i j } ::
        g.undo_mooves := by
  have hidx : g.WIDTH * i + j < g.tab_direction.length := by
    rw [hwf.2.2.2.1]
    exact idx_lt _ _ _ _ hi hj
  have hm := cell_idx_mod g (game_wf_size g hwf) i j hi hj
  have hnew : game_get_piece_orientation (game_play_move g i j nb_quarter_turns) i j =
      dir_of_val (Int.toNat (to_uint ((dir_val (game_get_piece_orientation g i j) : Int)
        + nb_quarter_turns + (NB_DIRS : Int))) % NB_DIRS) := by
    simp only [game_play_move, game_set_piece_orientation, game_get_piece_orientation,
      game_nb_cols, hm]
    rw [getD_set_same _ _ _ _ hidx]
  constructor
  · rw [hnew, dir_val_of_val]
    have hres := play_move_residue (dir_val (game_get_piece_orientation g i j))
      nb_quarter_turns
    have h4 : ∀ m : Nat, m % NB_DIRS % 4 = m % NB_DIRS := by
      intro m
      unfold NB_DIRS
      omega
    rw [h4]
    exact hres
  · rw [hnew]
    rfl

/-- Witness of C13: a turn of -7 quarter turns on the cell `(0, 1)` of
`grid_2x3`, which points south, leaves it pointing west. -/
theorem game_play_move_spec_witness :
    game_wf grid_2x3 ∧ 0 < game_nb_rows grid_2x3 ∧ 1 < game_nb_cols grid_2x3 ∧
    ((dir_val (game_get_piece_orientation (game_play_move grid_2x3 0 1 (-7)) 0 1) : Nat) : Int) =
      ((dir_val (game_get_piece_orientation grid_2x3 0 1) : Nat) + (-7)) % 4 :=
  ⟨by decide, by decide, by decide,
    (game_play_move_spec grid_2x3 0 1 (-7) (by decide) (by decide) (by decide)).1⟩

/-! ## Adjacency with dimensions in the range of `int` -/

/-- C14, amended.  On a grid with wrapping off and fewer than `2^31` rows and
columns, for every in-range cell, `game_get_ajacent_square` returns false
exactly when the cell lies on the boundary in the direction asked, and
otherwise yields the cell one step away. -/
theorem game_get_ajacent_square_no_wrapping (g : game) (i j : Nat)
    (hw : game_is_wrapping g = false)
    (hH : game_nb_rows g < 2147483648) (hW : game_nb_cols g < 2147483648)
    (hi : i < game_nb_rows g) (hj : j < game_nb_cols g) :
    game_get_ajacent_square g i j direction.NORTH =
      (if i = 0 then none else some (i - 1, j)) ∧
    game_get_ajacent_square g i j direction.EAST =
      (if j = game_nb_cols g - 1 then none else some (i, j + 1)) ∧
    game_get_ajacent_square g i j direction.SOUTH =
      (if i = game_nb_rows g - 1 then none else some (i + 1, j)) ∧
    game_get_ajacent_square g i j direction.WEST =
      (if j = 0 then none else some (i, j - 1)) := by
  unfold game_nb_rows at hH hi
  unfold game_nb_cols at hW hj
  unfold game_is_wrapping at hw
  simp only [adj_eq_plain g i j _ hH hW hi hj, adj_plain, coord_next, DIR2OFFSET, hw,
    game_nb_rows, game_nb_cols]
  refine ⟨?_, ?_, ?_, ?_⟩
  · by_cases h : i = 0 <;> simp [h]
  · by_cases h : j + 1 = g.WIDTH
    · have h2 : j = g.WIDTH - 1 := by omega
      simp [h, ← h2]
    · have h2 : j ≠ g.WIDTH - 1 := by omega
      simp [h, h2]
  · by_cases h : i + 1 = g.HEIGHT
    · have h2 : i = g.HEIGHT - 1 := by omega
      simp [h, ← h2]
    · have h2 : i ≠ g.HEIGHT - 1 := by omega
      simp [h, h2]
  · by_cases h : j = 0 <;> simp [h]

/-- Witness of C14, amended, on the cell `(0, 2)` of `grid_2x3`: no cell to the
north or to the east, `(1, 2)` to the south and `(0, 1)` to the west. -/
theorem game_get_ajacent_square_no_wrapping_witness :
    game_is_wrapping grid_2x3 = false ∧ game_nb_rows grid_2x3 < 2147483648 ∧
    game_nb_cols grid_2x3 < 2147483648 ∧ 0 < game_nb_rows grid_2x3 ∧
    2 < game_nb_cols grid_2x3 ∧
    game_get_ajacent_square grid_2x3 0 2 direction.NORTH = none ∧
    game_get_ajacent_square grid_2x3 0 2 direction.EAST = none ∧
    game_get_ajacent_square grid_2x3 0 2 direction.SOUTH = some (1, 2) ∧
    game_get_ajacent_square grid_2x3 0 2 direction.WEST = some (0, 1) :=
  ⟨by decide, by decide, by decide, by decide, by decide,
    game_get_ajacent_square_no_wrapping grid_2x3 0 2 (by decide) (by decide) (by decide)
      (by decide) (by decide)⟩

/-- C14 as stated fails on the grid `tall_grid` of `2^31` rows without
wrapping: the cell `(1, 0)` is in range and not in row 0, the claim gives it
the northern neighbour `(0, 0)`, and `game_get_ajacent_square` returns false
because the row is compared with `(int)h`, which is negative. -/
theorem game_get_ajacent_square_tall_grid :
    game_wf tall_grid ∧ game_is_wrapping tall_grid = false ∧
    1 < game_nb_rows tall_grid ∧ 0 < game_nb_cols tall_grid ∧
    game_get_ajacent_square tall_grid 1 0 direction.NORTH = none ∧
    game_get_ajacent_square tall_grid 1 0 direction.NORTH ≠ some (0, 0) := by
  exact ⟨⟨by decide, by decide, List.length_replicate _ _, List.length_replicate _ _,
    by decide⟩, rfl, by decide, by decide, by decide, by decide⟩

theorem emod_near (x n : Int) (h1 : -n ≤ x) (h2 : x < 2 * n) :
    x % n = if x < 0 then x + n else if x < n then x else x - n := by
  have h := emod_small (x + n) n (by omega) (by omega)
  rw [Int.add_emod_self] at h
  rw [h]
  split_ifs <;> omega

theorem coord_next_wrapping (n x : Nat) (off : Int) (hx : x < n)
    (hoff : off = -1 ∨ off = 0 ∨ off = 1) :
    coord_next true n x off = some (((x : Int) + off) % (n : Int)).toNat ∧
    (((x : Int) + off) % (n : Int)).toNat < n := by
  have h := emod_near ((x : Int) + off) n (by omega) (by omega)
  rw [h]
  unfold coord_next
  rcases hoff with rfl | rfl | rfl
  · by_cases h0 : x = 0
    · subst h0
      simp
      omega
    · have h1 : ¬ ((x : Int) + -1 < 0) := by omega
      have h2 : (x : Int) + -1 < n := by omega
      simp only [h0, h1, h2, ↓reduceIte]
      simp
      omega
  · have h1 : ¬ ((x : Int) + 0 < 0) := by omega
    have h2 : (x : Int) + 0 < n := by omega
    simp only [h1, h2, ↓reduceIte]
    simp
    omega
  · by_cases h0 : x + 1 = n
    · have h1 : ¬ ((x : Int) + 1 < 0) := by omega
      have h2 : ¬ ((x : Int) + 1 < n) := by omega
      simp only [h0, h1, h2, ↓reduceIte]
      simp
      omega
    · have h1 : ¬ ((x : Int) + 1 < 0) := by omega
      have h2 : (x : Int) + 1 < n := by omega
      simp only [h0, h1, h2, ↓reduceIte]
      simp
      omega

/-- C15, amended.  On a grid with wrapping on and fewer than `2^31` rows and
columns, for every in-range cell `(i, j)` and direction `d` of offset
`(di, dj)`, `game_get_ajacent_square` returns true and yields the in-range cell
`((i + di) mod R, (j + dj) mod C)`. -/
theorem game_get_ajacent_square_wrapping (g : game) (i j : Nat) (d : direction)
    (hw : game_is_wrapping g = true)
    (hH : game_nb_rows g < 2147483648) (hW : game_nb_cols g < 2147483648)
    (hi : i < game_nb_rows g) (hj : j < game_nb_cols g) :
    game_get_ajacent_square g i j d =
      some ((((i : Int) + (DIR2OFFSET d).1) % (game_nb_rows g : Int)).toNat,
        (((j : Int) + (DIR2OFFSET d).2) % (game_nb_cols g : Int)).toNat) ∧
    (((i : Int) + (DIR2OFFSET d).1) % (game_nb_rows g : Int)).toNat < game_nb_rows g ∧
    (((j : Int) + (DIR2OFFSET d).2) % (game_nb_cols g : Int)).toNat < game_nb_cols g := by
  unfold game_nb_rows at hH hi ⊢
  unfold game_nb_cols at hW hj ⊢
  unfold game_is_wrapping at hw
  obtain ⟨a1, a2⟩ := coord_next_wrapping g.HEIGHT i (DIR2OFFSET d).1 hi (offset_cases d).1
  obtain ⟨b1, b2⟩ := coord_next_wrapping g.WIDTH j (DIR2OFFSET d).2 hj (offset_cases d).2
  refine ⟨?_, a2, b2⟩
  rw [adj_eq_plain g i j d hH hW hi hj, adj_plain_some, hw]
  exact ⟨a1, b1⟩

/-- Witness of C15, amended, on the cell `(0, 2)` of `wrap_2x3`: the cell to
the north is `(1, 2)`. -/
theorem game_get_ajacent_square_wrapping_witness :
    game_is_wrapping wrap_2x3 = true ∧ game_nb_rows wrap_2x3 < 2147483648 ∧
    game_nb_cols wrap_2x3 < 2147483648 ∧ 0 < game_nb_rows wrap_2x3 ∧
    2 < game_nb_cols wrap_2x3 ∧
    game_get_ajacent_square wrap_2x3 0 2 direction.NORTH = some (1, 2) :=
  ⟨by decide, by decide, by decide, by decide, by decide,
    (game_get_ajacent_square_wrapping wrap_2x3 0 2 direction.NORTH (by decide) (by decide)
      (by decide) (by decide) (by decide)).1⟩

/-- C15 as stated fails on the grid `tall_wrapping_grid` of `2^31` rows with
wrapping: the cell `(0, 0)` is in range, the claim gives it the northern
neighbour `(2^31 - 1, 0)`, and `game_get_ajacent_square` returns false because
the row is compared with `(int)h`, which is negative. -/
theorem game_get_ajacent_square_tall_wrapping_grid :
    game_wf tall_wrapping_grid ∧ game_is_wrapping tall_wrapping_grid = true ∧
    0 < game_nb_rows tall_wrapping_grid ∧ 0 < game_nb_cols tall_wrapping_grid ∧
    game_get_ajacent_square tall_wrapping_grid 0 0 direction.NORTH = none := by
  exact ⟨⟨by decide, by decide, List.length_replicate _ _, List.length_replicate _ _,
    by decide⟩, rfl, by decide, by decide, by decide⟩

/-! ## Half-edges and the piece codec -/

/-- C16.  `game_has_half_edge` by shape, with `o` the orientation of the cell:
false for Empty; `d = o` for Endpoint; `d = o` or `d = o + 2 mod 4` for
Segment; `d = o` or `d = o + 1 mod 4` for Corner; `d ≠ o + 2 mod 4` for Tee;
true for Cross. -/
theorem game_has_half_edge_spec (g : game) (i j : Nat) (d : direction) :
    game_has_half_edge g i j d =
      match game_get_piece_shape g i j with
      | .EMPTY => false
      | .ENDPOINT => decide (dir_val d = dir_val (game_get_piece_orientation g i j))
      | .SEGMENT => decide (dir_val d = dir_val (game_get_piece_orientation g i j) ∨
          dir_val d = (dir_val (game_get_piece_orientation g i j) + 2) % 4)
      | .CORNER => decide (dir_val d = dir_val (game_get_piece_orientation g i j) ∨
          dir_val d = (dir_val (game_get_piece_orientation g i j) + 1) % 4)
      | .TEE => decide (dir_val d ≠ (dir_val (game_get_piece_orientation g i j) + 2) % 4)
      | .CROSS => true := by
  unfold game_has_half_edge
  generalize game_get_piece_shape g i j = s
  generalize game_get_piece_orientation g i j = o
  cases s <;> cases o <;> cases d <;> rfl

/-- C17, amended.  For every shape `s` and orientation `o`,
`_decode_shape (_encode_shape s o)` succeeds and returns the shape `s` with the
first orientation that has the same code: `o` itself for Endpoint, Corner and
Tee, North for Empty and Cross, and North or East for a Segment according to
the parity of `o`. -/
theorem decode_encode_shape (s : shape) (o : direction) :
    _decode_shape (_encode_shape s o) =
      some (s, match s with
        | .EMPTY => direction.NORTH
        | .CROSS => direction.NORTH
        | .SEGMENT => dir_of_val (dir_val o % 2)
        | _ => o) := by
  cases s <;> cases o <;> decide

/-- C17 as stated fails for a Segment that points south: the code `1010` is
first found at the entry (Segment, North), so the orientation returned is not
the one encoded, although the shape is not Cross. -/
theorem decode_encode_segment_south :
    _decode_shape (_encode_shape shape.SEGMENT direction.SOUTH) =
      some (shape.SEGMENT, direction.NORTH) ∧
    _decode_shape (_encode_shape shape.SEGMENT direction.SOUTH) ≠
      some (shape.SEGMENT, direction.SOUTH) ∧
    shape.SEGMENT ≠ shape.CROSS := by
  decide

/-- C18.  `_decode_shape` succeeds on every code below 16 and returns a piece
whose code is `code`. -/
theorem decode_shape_total (code : Nat) (h : code < 16) :
    ∃ s o, _decode_shape code = some (s, o) ∧ _encode_shape s o = code := by
  interval_cases code <;> exact ⟨_, _, rfl, rfl⟩

/-- Witness of C18 on the code `1011`. -/
theorem decode_shape_total_witness :
    (11 : Nat) < 16 ∧ ∃ s o, _decode_shape 11 = some (s, o) ∧ _encode_shape s o = 11 :=
  ⟨by decide, decode_shape_total 11 (by decide)⟩

/-- C19.  The bit `0b1000 >> d` of the code of the piece held by a cell is set
exactly when `game_has_half_edge` is true for that cell and the direction
`d`. -/
theorem encode_shape_half_edge (g : game) (i j : Nat) (d : direction) :
    _encode_shape (game_get_piece_shape g i j) (game_get_piece_orientation g i j) &&&
        (0b1000 >>> dir_val d) ≠ 0 ↔
      game_has_half_edge g i j d = true := by
  unfold game_has_half_edge
  generalize game_get_piece_shape g i j = s
  generalize game_get_piece_orientation g i j = o
  cases s <;> cases o <;> cases d <;> decide

/-- C20.  `game_is_well_paired` returns true exactly when no in-range cell has
a MISMATCH edge in any direction. -/
theorem game_is_well_paired_spec (g : game) :
    game_is_well_paired g = true ↔
      ∀ i j, i < game_nb_rows g → j < game_nb_cols g → ∀ d : direction,
        game_check_edge g i j d ≠ edge_status.MISMATCH := by
  unfold game_is_well_paired
  simp only [List.all_eq_true, List.mem_range, bne_iff_ne, ne_eq]
  constructor
  · intro h i j hi hj d
    exact h i hi j hj d (by cases d <;> simp [all_dirs])
  · intro h i hi j hj d _
    exact h i j hi hj d


/-! ## Grids of Empty cells and the default grids -/

/-- The cell yielded by `game_get_ajacent_square` is a cell of the grid. -/
theorem adj_in_range (g : game) (i j i' j' : Nat) (d : direction)
    (h : game_get_ajacent_square g i j d = some (i', j')) : i' < g.HEIGHT ∧ j' < g.WIDTH := by
  rw [adj_unfold] at h
  have hH : to_int (g.HEIGHT : Int) ≤ g.HEIGHT := by unfold to_int; omega
  have hW : to_int (g.WIDTH : Int) ≤ g.WIDTH := by unfold to_int; omega
  split at h
  · cases h
  · split at h
    · cases h
    · simp only [Option.some.injEq, Prod.mk.injEq] at h
      obtain ⟨h1, h2⟩ := h
      subst h1 h2
      constructor <;> omega

theorem empty_no_half_edge (g : game) (i j : Nat) (d : direction)
    (h : game_get_piece_shape g i j = shape.EMPTY) : game_has_half_edge g i j d = false := by
  unfold game_has_half_edge
  rw [h]

theorem all_empty_noedge (g : game)
    (hempty : ∀ i j, i < game_nb_rows g → j < game_nb_cols g →
      game_get_piece_shape g i j = shape.EMPTY)
    (i j : Nat) (hi : i < game_nb_rows g) (hj : j < game_nb_cols g) (d : direction) :
    game_check_edge g i j d = edge_status.NOEDGE := by
  unfold game_check_edge
  rw [empty_no_half_edge g i j d (hempty i j hi hj)]
  cases hadj : game_get_ajacent_square g i j d with
  | none => rfl
  | some c =>
    obtain ⟨a, b⟩ := c
    obtain ⟨ha, hb⟩ := adj_in_range g i j a b d hadj
    dsimp only
    rw [empty_no_half_edge g a b _ (hempty a b ha hb)]
    rfl

/-- C21.  A grid in which every cell has shape Empty, whatever its size, its
wrapping flag and its orientations, satisfies `game_is_well_paired`,
`game_is_connected` and `game_won`. -/
theorem all_empty_won (g : game)
    (hempty : ∀ i j, i < game_nb_rows g → j < game_nb_cols g →
      game_get_piece_shape g i j = shape.EMPTY) :
    game_is_well_paired g = true ∧ game_is_connected g = true ∧ game_won g = true := by
  have hwp : game_is_well_paired g = true := by
    unfold game_is_well_paired
    simp only [List.all_eq_true, List.mem_range, bne_iff_ne, ne_eq]
    intro i hi j hj d _
    rw [all_empty_noedge g hempty i j hi hj d]
    decide
  have hco : game_is_connected g = true := by
    have hfs : find_start g = none := by
      unfold find_start
      rw [List.findSome?_eq_none_iff]
      intro i hi
      rw [List.findSome?_eq_none_iff]
      intro j hj
      rw [hempty i j (List.mem_range.1 hi) (List.mem_range.1 hj)]
      rfl
    unfold game_is_connected
    rw [hfs]
  refine ⟨hwp, hco, ?_⟩
  unfold game_won
  rw [hwp, hco]
  rfl

/-- Witness of C21 on a 2 by 2 grid with wrapping whose cells are all Empty. -/
theorem all_empty_won_witness :
    (∀ i j, i < game_nb_rows empty_2x2 → j < game_nb_cols empty_2x2 →
      game_get_piece_shape empty_2x2 i j = shape.EMPTY) ∧
    game_won empty_2x2 = true :=
  have h : ∀ i j, i < game_nb_rows empty_2x2 → j < game_nb_cols empty_2x2 →
      game_get_piece_shape empty_2x2 i j = shape.EMPTY := by
    intro i j hi hj
    have hi2 : i < 2 := hi
    have hj2 : j < 2 := hj
    interval_cases i <;> interval_cases j <;> rfl
  ⟨h, (all_empty_won empty_2x2 h).2.2⟩

set_option maxRecDepth 100000 in
/-- C22.  On the 5 by 5 default shape table without wrapping: the grid built
with the solution orientations satisfies `game_won`; the default grid, and the
default grid after `game_reset_orientation`, do not. -/
theorem default_games_won :
    game_won game_default_solution = true ∧ game_won game_default = false ∧
    game_won (game_reset_orientation game_default) = false ∧
    game_nb_rows game_default = 5 ∧ game_nb_cols game_default = 5 ∧
    game_is_wrapping game_default = false ∧
    game_default.tab_shape = game_default_solution.tab_shape := by
  decide

/-- C29, amended.  On a valid game, which has less than `2^32` cells, and an
in-range cell `(i, j)`: after
`game_set_piece_shape` the getter returns the shape written, after
`game_set_piece_orientation` the getter returns the orientation written, and
in both cases every other in-range cell, the other attribute of `(i, j)` and
both stacks are as before. -/
theorem setters_frame (g : game) (i j : Nat) (s : shape) (o : direction)
    (hwf : game_wf g) (hi : i < game_nb_rows g) (hj : j < game_nb_cols g) :
    game_get_piece_shape (game_set_piece_shape g i j s) i j = s ∧
    game_get_piece_orientation (game_set_piece_orientation g i j o) i j = o ∧
    game_get_piece_orientation (game_set_piece_shape g i j s) i j =
      game_get_piece_orientation g i j ∧
    game_get_piece_shape (game_set_piece_orientation g i j o) i j = game_get_piece_shape g i j ∧
    (∀ i' j', i' < game_nb_rows g → j' < game_nb_cols g → (i', j') ≠ (i, j) →
      game_get_piece_shape (game_set_piece_shape g i j s) i' j' = game_get_piece_shape g i' j' ∧
      game_get_piece_orientation (game_set_piece_shape g i j s) i' j' =
        game_get_piece_orientation g i' j' ∧
      game_get_piece_shape (game_set_piece_orientation g i j o) i' j' =
        game_get_piece_shape g i' j' ∧
      game_get_piece_orientation (game_set_piece_orientation g i j o) i' j' =
        game_get_piece_orientation g i' j') ∧
    (game_set_piece_shape g i j s).undo_mooves = g.undo_mooves ∧
    (game_set_piece_shape g i j s).redo_mooves = g.redo_mooves ∧
    (game_set_piece_orientation g i j o).undo_mooves = g.undo_mooves ∧
    (game_set_piece_orientation g i j o).redo_mooves = g.redo_mooves := by
  obtain ⟨_, _, w3, w4, w5⟩ := hwf
  have hidx := idx_lt _ _ _ _ hi hj
  have hm := cell_idx_mod g w5 i j hi hj
  refine ⟨?_, ?_, rfl, rfl, ?_, rfl, rfl, rfl, rfl⟩
  · simp only [game_set_piece_shape, game_get_piece_shape, game_nb_cols, hm]
    exact getD_set_same _ _ _ _ (by rw [w3]; exact hidx)
  · simp only [game_set_piece_orientation, game_get_piece_orientation, game_nb_cols, hm]
    exact getD_set_same _ _ _ _ (by rw [w4]; exact hidx)
  · intro i' j' hi' hj' hne
    have hm' := cell_idx_mod g w5 i' j' hi' hj'
    have hk : g.WIDTH * i + j ≠ g.WIDTH * i' + j' := by
      intro e
      have := idx_inj _ _ _ _ _ hj hj' e
      exact hne (Prod.ext this.1.symm this.2.symm)
    refine ⟨?_, rfl, rfl, ?_⟩
    · simp only [game_set_piece_shape, game_get_piece_shape, game_nb_cols, hm, hm']
      exact getD_set_other _ _ _ _ _ hk
    · simp only [game_set_piece_orientation, game_get_piece_orientation, game_nb_cols, hm, hm']
      exact getD_set_other _ _ _ _ _ hk

/-- Witness of C29 on the cell `(1, 2)` of `grid_2x3`. -/
theorem setters_frame_witness :
    game_wf grid_2x3 ∧ 1 < game_nb_rows grid_2x3 ∧ 2 < game_nb_cols grid_2x3 ∧
    game_get_piece_shape (game_set_piece_shape grid_2x3 1 2 shape.TEE) 1 2 = shape.TEE ∧
    game_get_piece_orientation
      (game_set_piece_orientation grid_2x3 1 2 direction.WEST) 1 2 = direction.WEST :=
  ⟨by decide, by decide, by decide,
    (setters_frame grid_2x3 1 2 shape.TEE direction.WEST (by decide) (by decide)
      (by decide)).1,
    (setters_frame grid_2x3 1 2 shape.TEE direction.WEST (by decide) (by decide)
      (by decide)).2.1⟩

/-- The loop of `game_reset_orientation` on the cells of an `h` by `w` grid. -/
theorem reset_loop (g : game) :
    (∀ i j, i < g.HEIGHT → j < g.WIDTH →
      game_get_piece_orientation (for_cells g.HEIGHT g.WIDTH
        (fun i j a => game_set_piece_orientation a i j direction.NORTH) g) i j =
        direction.NORTH) ∧
    same_frame g (for_cells g.HEIGHT g.WIDTH
      (fun i j a => game_set_piece_orientation a i j direction.NORTH) g) := by
  rw [for_cells_eq_foldl]
  constructor
  · intro i j hi hj
    exact foldl_write_const
      (fun a c => game_set_piece_orientation a c.1 c.2 direction.NORTH)
      (fun a c => game_get_piece_orientation a c.1 c.2) direction.NORTH
      (cells g.HEIGHT g.WIDTH)
      (by
        intro a c _
        simp only [game_set_piece_orientation, game_get_piece_orientation, game_nb_cols]
        by_cases hk : (a.WIDTH * c.1 + c.2) % 4294967296 < a.tab_direction.length
        · exact getD_set_same _ _ _ _ hk
        · rw [List.set_eq_of_length_le (by omega)]
          exact List.getD_eq_default _ _ (by omega))
      (by
        intro a c c' _ hv
        simp only [game_set_piece_orientation, game_get_piece_orientation, game_nb_cols] at hv ⊢
        by_cases he : (a.WIDTH * c.1 + c.2) % 4294967296 = (a.WIDTH * c'.1 + c'.2) % 4294967296
        · rw [he]
          by_cases hk : (a.WIDTH * c'.1 + c'.2) % 4294967296 < a.tab_direction.length
          · exact getD_set_same _ _ _ _ hk
          · rw [List.set_eq_of_length_le (by omega)]
            exact hv
        · rw [getD_set_other _ _ _ _ _ he]
          exact hv)
      g (i, j) (Or.inl ((mem_cells _ _ _).2 ⟨hi, hj⟩))
  · exact foldl_inv (fun a : game => same_frame g a) _ _
      (fun a c _ ha => same_frame_trans ha (same_frame_set_orientation _ _ _ _))
      g (same_frame_refl g)

/-- C23.  `game_reset_orientation` sets the orientation of every cell to North,
keeps every shape, the dimensions and the wrapping flag, and empties both
stacks, so that a following `game_undo` or `game_redo` changes nothing. -/
theorem game_reset_orientation_spec (g : game) :
    (∀ i j, i < game_nb_rows g → j < game_nb_cols g →
      game_get_piece_orientation (game_reset_orientation g) i j = direction.NORTH) ∧
    (∀ i j, game_get_piece_shape (game_reset_orientation g) i j = game_get_piece_shape g i j) ∧
    game_nb_rows (game_reset_orientation g) = game_nb_rows g ∧
    game_nb_cols (game_reset_orientation g) = game_nb_cols g ∧
    game_is_wrapping (game_reset_orientation g) = game_is_wrapping g ∧
    (game_reset_orientation g).undo_mooves = [] ∧
    (game_reset_orientation g).redo_mooves = [] ∧
    game_undo (game_reset_orientation g) = game_reset_orientation g ∧
    game_redo (game_reset_orientation g) = game_reset_orientation g := by
  obtain ⟨h1, f1, f2, f3, f4, _, _, _⟩ := reset_loop g
  refine ⟨?_, ?_, f1, f2, f3, rfl, rfl, rfl, rfl⟩
  · intro i j hi hj
    exact h1 i j hi hj
  · intro i j
    have e1 : (game_reset_orientation g).tab_shape = g.tab_shape := f4
    have e2 : (game_reset_orientation g).WIDTH = g.WIDTH := f2
    unfold game_get_piece_shape game_nb_cols
    rw [e1, e2]


theorem getD_replicate_same {α : Type} (n k : Nat) (x : α) :
    (List.replicate n x).getD k x = x := by
  rw [List.getD_eq_getElem?_getD]
  cases h : (List.replicate n x)[k]? with
  | none => rfl
  | some y =>
    rw [List.getElem?_eq_some_iff] at h
    obtain ⟨_, h2⟩ := h
    rw [List.getElem_replicate] at h2
    rw [← h2]
    rfl

theorem getElem?_of_getD {α : Type} (l : List α) (k : Nat) (dflt : α) (hk : k < l.length) :
    l[k]? = some (l.getD k dflt) := by
  rw [List.getD_eq_getElem _ _ hk, List.getElem?_eq_getElem hk]

/-- C29 fails on the grid that `game_new_empty_ext` returns for 65537 rows
and 65536 columns: the index of the cell `(65536, 0)` is computed in `unsigned
int` and is 0, the index of the cell `(0, 0)`, so that writing a Cross to
`(65536, 0)`, inside the array, changes the shape of `(0, 0)`. -/
theorem setters_alias_cells :
    65536 < game_nb_rows (game_new_empty_ext 65537 65536 false) ∧
    0 < game_nb_cols (game_new_empty_ext 65537 65536 false) ∧
    ((0 : Nat), (0 : Nat)) ≠ (65536, 0) ∧
    (game_nb_cols (game_new_empty_ext 65537 65536 false) * 65536 + 0) % 4294967296 = 0 ∧
    0 < (game_new_empty_ext 65537 65536 false).tab_shape.length ∧
    game_get_piece_shape (game_new_empty_ext 65537 65536 false) 0 0 = shape.EMPTY ∧
    game_get_piece_shape
      (game_set_piece_shape (game_new_empty_ext 65537 65536 false) 65536 0 shape.CROSS) 0 0 =
        shape.CROSS := by
  refine ⟨by decide, by decide, by decide, by decide, ?_, ?_, ?_⟩
  · rw [show (game_new_empty_ext 65537 65536 false).tab_shape.length = 65536 from
      List.length_replicate _ _]
    decide
  · exact getD_replicate_same _ _ _
  · exact getD_set_same _ _ _ _ (by
      rw [show (game_new_empty_ext 65537 65536 false).tab_shape.length = 65536 from
        List.length_replicate _ _]
      decide)

theorem shape_set_shape (a : game) (i j : Nat) (s : shape)
    (h : (a.WIDTH * i + j) % 4294967296 < a.tab_shape.length) :
    game_get_piece_shape (game_set_piece_shape a i j s) i j = s := by
  simp only [game_set_piece_shape, game_get_piece_shape, game_nb_cols]
  exact getD_set_same _ _ _ _ h

theorem shape_set_shape_other (a : game) (i j i' j' : Nat) (s : shape)
    (h : (a.WIDTH * i + j) % 4294967296 ≠ (a.WIDTH * i' + j') % 4294967296) :
    game_get_piece_shape (game_set_piece_shape a i j s) i' j' = game_get_piece_shape a i' j' := by
  simp only [game_set_piece_shape, game_get_piece_shape, game_nb_cols]
  exact getD_set_other _ _ _ _ _ h

theorem orientation_set_orientation (a : game) (i j : Nat) (o : direction)
    (h : (a.WIDTH * i + j) % 4294967296 < a.tab_direction.length) :
    game_get_piece_orientation (game_set_piece_orientation a i j o) i j = o := by
  simp only [game_set_piece_orientation, game_get_piece_orientation, game_nb_cols]
  exact getD_set_same _ _ _ _ h

theorem orientation_set_orientation_other (a : game) (i j i' j' : Nat) (o : direction)
    (h : (a.WIDTH * i + j) % 4294967296 ≠ (a.WIDTH * i' + j') % 4294967296) :
    game_get_piece_orientation (game_set_piece_orientation a i j o) i' j' =
      game_get_piece_orientation a i' j' := by
  simp only [game_set_piece_orientation, game_get_piece_orientation, game_nb_cols]
  exact getD_set_other _ _ _ _ _ h

theorem shape_set_orientation (a : game) (i j i' j' : Nat) (o : direction) :
    game_get_piece_shape (game_set_piece_orientation a i j o) i' j' =
      game_get_piece_shape a i' j' :=
  rfl

theorem orientation_set_shape (a : game) (i j i' j' : Nat) (s : shape) :
    game_get_piece_orientation (game_set_piece_shape a i j s) i' j' =
      game_get_piece_orientation a i' j' :=
  rfl

theorem game_new_ext_eq (R C : Nat) (shapes : Option (List shape))
    (orientations : Option (List direction)) (wrapping : Bool) :
    game_new_ext R C shapes orientations wrapping =
      if (shapes.isNone && orientations.isNone) = true then game_new_empty_ext R C wrapping
      else (cells R C).foldl (fun a c => new_ext_body C shapes orientations c.1 c.2 a)
        (game_new_empty_ext R C wrapping) := by
  rw [← for_cells_eq_foldl]
  rfl

/-- Invariant of the loop of `game_new_ext`, whatever the size. -/
theorem game_new_ext_inv (R C : Nat) (shapes : Option (List shape))
    (orientations : Option (List direction)) (wrapping : Bool) :
    new_ext_inv R C shapes orientations wrapping
      (game_new_ext R C shapes orientations wrapping) := by
  have h0 : new_ext_inv R C shapes orientations wrapping (game_new_empty_ext R C wrapping) :=
    ⟨rfl, rfl, rfl, rfl, rfl, List.length_replicate _ _, List.length_replicate _ _,
      fun _ => rfl, fun _ => rfl⟩
  rw [game_new_ext_eq]
  split
  · exact h0
  · apply foldl_inv _ _ (cells R C) _ (game_new_empty_ext R C wrapping) h0
    intro a c _ ha
    unfold new_ext_inv new_ext_body at *
    cases shapes <;> cases orientations <;>
      simpa [game_set_piece_shape, game_set_piece_orientation] using ha

/-- Fields and cells of the grid built by `game_new_ext` with less than `2^32`
cells, with the arrays read through `getD`. -/
theorem game_new_ext_cells (R C : Nat) (shapes : Option (List shape))
    (orientations : Option (List direction)) (wrapping : Bool)
    (hsz : R * C < 4294967296) :
    (game_new_ext R C shapes orientations wrapping).HEIGHT = R ∧
    (game_new_ext R C shapes orientations wrapping).WIDTH = C ∧
    (game_new_ext R C shapes orientations wrapping).is_wrapping = wrapping ∧
    (game_new_ext R C shapes orientations wrapping).undo_mooves = [] ∧
    (game_new_ext R C shapes orientations wrapping).redo_mooves = [] ∧
    (game_new_ext R C shapes orientations wrapping).tab_shape.length = R * C ∧
    (game_new_ext R C shapes orientations wrapping).tab_direction.length = R * C ∧
    ∀ i j, i < R → j < C →
      game_get_piece_shape (game_new_ext R C shapes orientations wrapping) i j =
        (shapes.map fun l => l.getD (i * C + j) shape.EMPTY).getD shape.EMPTY ∧
      game_get_piece_orientation (game_new_ext R C shapes orientations wrapping) i j =
        (orientations.map fun l => l.getD (i * C + j) direction.NORTH).getD direction.NORTH := by
  rw [game_new_ext_eq]
  split
  · rename_i hnone
    simp only [Bool.and_eq_true, Option.isNone_iff_eq_none] at hnone
    obtain ⟨h1, h2⟩ := hnone
    subst h1 h2
    refine ⟨rfl, rfl, rfl, rfl, rfl, (List.length_replicate _ _).trans (Nat.mod_eq_of_lt hsz),
      (List.length_replicate _ _).trans (Nat.mod_eq_of_lt hsz), ?_⟩
    intro i j _ _
    exact ⟨getD_replicate_same _ _ _, getD_replicate_same _ _ _⟩
  · have hstep : ∀ (a : game) (c : Nat × Nat), c ∈ cells R C →
        new_ext_inv R C shapes orientations wrapping a →
        new_ext_inv R C shapes orientations wrapping
          (new_ext_body C shapes orientations c.1 c.2 a) := by
      intro a c _ ha
      unfold new_ext_inv new_ext_body at *
      cases shapes <;> cases orientations <;>
        simpa [game_set_piece_shape, game_set_piece_orientation] using ha
    have h0 : new_ext_inv R C shapes orientations wrapping (game_new_empty_ext R C wrapping) :=
      ⟨rfl, rfl, rfl, rfl, rfl, List.length_replicate _ _, List.length_replicate _ _,
        fun _ => rfl, fun _ => rfl⟩
    have hinv := foldl_inv _ _ (cells R C) hstep (game_new_empty_ext R C wrapping) h0
    obtain ⟨k1, k2, k3, k4, k5, k6, k7, _, _⟩ := hinv
    rw [Nat.mod_eq_of_lt hsz] at k6 k7
    refine ⟨k2, k1, k3, k4, k5, k6, k7, ?_⟩
    intro i j hi hj
    have key := foldl_write (new_ext_inv R C shapes orientations wrapping)
      (fun a c => new_ext_body C shapes orientations c.1 c.2 a)
      (fun (a : game) (c : Nat × Nat) =>
        (game_get_piece_shape a c.1 c.2, game_get_piece_orientation a c.1 c.2))
      (fun c : Nat × Nat =>
        ((shapes.map fun l => l.getD (c.1 * C + c.2) shape.EMPTY).getD shape.EMPTY,
         (orientations.map fun l => l.getD (c.1 * C + c.2) direction.NORTH).getD
           direction.NORTH))
      (cells R C) hstep
      (by
        intro a c hc ha
        rw [mem_cells] at hc
        obtain ⟨a1, _, _, _, _, a6, a7, a8, a9⟩ := ha
        rw [Nat.mod_eq_of_lt hsz] at a6 a7
        unfold new_ext_body
        have hidx := idx_lt R C c.1 c.2 hc.1 hc.2
        have hm : (c.1 * C + c.2) % 4294967296 = c.1 * C + c.2 := by
          rw [Nat.mul_comm c.1 C]
          exact idx_mod R C c.1 c.2 hc.1 hc.2 hsz
        have hs : (a.WIDTH * c.1 + c.2) % 4294967296 < a.tab_shape.length := by
          rw [a1, a6, idx_mod R C c.1 c.2 hc.1 hc.2 hsz]; exact hidx
        have hd : (a.WIDTH * c.1 + c.2) % 4294967296 < a.tab_direction.length := by
          rw [a1, a7, idx_mod R C c.1 c.2 hc.1 hc.2 hsz]; exact hidx
        cases shapes with
        | none =>
          cases orientations with
          | none =>
            dsimp only
            unfold game_get_piece_shape game_get_piece_orientation
            rw [a8 rfl, a9 rfl, getD_replicate_same, getD_replicate_same]
            rfl
          | some lo =>
            dsimp only
            rw [orientation_set_orientation _ _ _ _ hd, shape_set_orientation, hm]
            unfold game_get_piece_shape
            rw [a8 rfl, getD_replicate_same]
            rfl
        | some ls =>
          cases orientations with
          | none =>
            dsimp only
            rw [shape_set_shape _ _ _ _ hs, orientation_set_shape, hm]
            unfold game_get_piece_orientation
            rw [a9 rfl, getD_replicate_same]
            rfl
          | some lo =>
            dsimp only
            rw [orientation_set_orientation (game_set_piece_shape a c.1 c.2 _) _ _ _ hd,
              shape_set_orientation, shape_set_shape _ _ _ _ hs, hm]
            rfl)
      (by
        intro a c c' hc hc' hne ha
        rw [mem_cells] at hc hc'
        obtain ⟨a1, _⟩ := ha
        unfold new_ext_body
        have hidx : (a.WIDTH * c.1 + c.2) % 4294967296 ≠
            (a.WIDTH * c'.1 + c'.2) % 4294967296 := by
          intro e
          rw [a1, idx_mod R C c.1 c.2 hc.1 hc.2 hsz, idx_mod R C c'.1 c'.2 hc'.1 hc'.2 hsz] at e
          have := idx_inj _ _ _ _ _ hc.2 hc'.2 e
          exact hne (Prod.ext this.1 this.2)
        cases shapes <;> cases orientations <;> dsimp only
        · rw [orientation_set_orientation_other _ _ _ _ _ _ hidx, shape_set_orientation]
        · rw [shape_set_shape_other _ _ _ _ _ _ hidx, orientation_set_shape]
        · rw [orientation_set_orientation_other (game_set_piece_shape a c.1 c.2 _) _ _ _ _ _ hidx,
            shape_set_orientation, shape_set_shape_other _ _ _ _ _ _ hidx, orientation_set_shape])
      (game_new_empty_ext R C wrapping) h0
      (i, j) ((mem_cells _ _ _).2 ⟨hi, hj⟩)
    exact ⟨congrArg Prod.fst key, congrArg Prod.snd key⟩


/-- C25, amended.  For `R * C < 2^32` and arrays of `R * C` entries,
`game_new_ext` returns a grid with `R` rows, `C` columns and the wrapping flag
given, whose two stacks are empty and in which the cell `(i, j)` has the shape
`shapes[i * C + j]`, Empty when the array is absent, and the orientation
`orientations[i * C + j]`, North when the array is absent. -/
theorem game_new_ext_spec (R C : Nat) (shapes : Option (List shape))
    (orientations : Option (List direction)) (wrapping : Bool)
    (hsz : R * C < 4294967296)
    (hs : ∀ l, shapes = some l → l.length = R * C)
    (ho : ∀ l, orientations = some l → l.length = R * C) :
    game_nb_rows (game_new_ext R C shapes orientations wrapping) = R ∧
    game_nb_cols (game_new_ext R C shapes orientations wrapping) = C ∧
    game_is_wrapping (game_new_ext R C shapes orientations wrapping) = wrapping ∧
    (game_new_ext R C shapes orientations wrapping).undo_mooves = [] ∧
    (game_new_ext R C shapes orientations wrapping).redo_mooves = [] ∧
    ∀ i j, i < R → j < C →
      (∀ l, shapes = some l →
        l[i * C + j]? =
          some (game_get_piece_shape (game_new_ext R C shapes orientations wrapping) i j)) ∧
      (shapes = none →
        game_get_piece_shape (game_new_ext R C shapes orientations wrapping) i j =
          shape.EMPTY) ∧
      (∀ l, orientations = some l →
        l[i * C + j]? =
          some (game_get_piece_orientation
            (game_new_ext R C shapes orientations wrapping) i j)) ∧
      (orientations = none →
        game_get_piece_orientation (game_new_ext R C shapes orientations wrapping) i j =
          direction.NORTH) := by
  obtain ⟨k1, k2, k3, k4, k5, _, _, k8⟩ :=
    game_new_ext_cells R C shapes orientations wrapping hsz
  refine ⟨k1, k2, k3, k4, k5, ?_⟩
  intro i j hi hj
  obtain ⟨e1, e2⟩ := k8 i j hi hj
  have hidx : i * C + j < R * C := by
    have := idx_lt R C i j hi hj
    rw [Nat.mul_comm] at this
    exact this
  refine ⟨?_, ?_, ?_, ?_⟩
  · intro l hl
    subst hl
    rw [e1]
    exact getElem?_of_getD l _ _ (by rw [hs l rfl]; exact hidx)
  · intro hl
    subst hl
    rw [e1]
    rfl
  · intro l hl
    subst hl
    rw [e2]
    exact getElem?_of_getD l _ _ (by rw [ho l rfl]; exact hidx)
  · intro hl
    subst hl
    rw [e2]
    rfl

/-- Witness of C25 on the default grid: 5 rows, and the cell `(1, 2)` holds the
entry 7 of `default_p`. -/
theorem game_new_ext_spec_witness :
    5 * 5 < 4294967296 ∧ default_p.length = 5 * 5 ∧ default_o.length = 5 * 5 ∧
    game_nb_rows (game_new_ext 5 5 (some default_p) (some default_o) false) = 5 ∧
    default_p[1 * 5 + 2]? =
      some (game_get_piece_shape (game_new_ext 5 5 (some default_p) (some default_o) false)
        1 2) :=
  ⟨by decide, rfl, rfl,
    (game_new_ext_spec 5 5 (some default_p) (some default_o) false (by decide)
      (fun l h => by cases h; rfl) (fun l h => by cases h; rfl)).1,
    ((game_new_ext_spec 5 5 (some default_p) (some default_o) false (by decide)
      (fun l h => by cases h; rfl) (fun l h => by cases h; rfl)).2.2.2.2.2 1 2
        (by decide) (by decide)).1 default_p rfl⟩

/-- C25 fails for 65537 rows and 65536 columns: the number of entries is
computed in `unsigned int`, so the grid that `game_new_ext` returns has 65537
rows and 65536 columns but arrays of 65536 entries, and the cell `(1, 0)`,
whose index is 65536, has no entry. -/
theorem game_new_ext_short_arrays :
    (game_new_ext 65537 65536 none none false).tab_shape.length = 65536 ∧
    (game_new_ext 65537 65536 none none false).tab_direction.length = 65536 ∧
    game_nb_rows (game_new_ext 65537 65536 none none false) = 65537 ∧
    game_nb_cols (game_new_ext 65537 65536 none none false) = 65536 ∧
    (game_nb_cols (game_new_ext 65537 65536 none none false) * 1 + 0) % 4294967296 = 65536 :=
  ⟨List.length_replicate _ _, List.length_replicate _ _, rfl, rfl, by decide⟩

/-- Result of `game_equal` as a conjunction over the cells. -/
theorem game_equal_iff (g1 g2 : game) (ignore_orientation : Bool) :
    game_equal g1 g2 ignore_orientation = true ↔
      game_nb_rows g1 = game_nb_rows g2 ∧ game_nb_cols g1 = game_nb_cols g2 ∧
      game_is_wrapping g1 = game_is_wrapping g2 ∧
      ∀ i j, i < game_nb_rows g1 → j < game_nb_cols g1 →
        game_get_piece_shape g1 i j = game_get_piece_shape g2 i j ∧
        (ignore_orientation = false →
          game_get_piece_orientation g1 i j = game_get_piece_orientation g2 i j) := by
  unfold game_equal
  by_cases hd : game_nb_cols g1 = game_nb_cols g2 ∧ game_nb_rows g1 = game_nb_rows g2
  · by_cases hw : game_is_wrapping g1 = game_is_wrapping g2
    · have c1 : ¬ ((game_nb_cols g1 != game_nb_cols g2 ||
          game_nb_rows g1 != game_nb_rows g2) = true) := by
        simp [hd.1, hd.2]
      have c2 : ¬ ((game_is_wrapping g1 != game_is_wrapping g2) = true) := by
        simp [hw]
      rw [if_neg c1, if_neg c2]
      simp only [List.all_eq_true, List.mem_range, Bool.and_eq_true, Bool.or_eq_true,
        Bool.not_eq_true', bne_eq_false_iff_eq]
      constructor
      · intro h
        refine ⟨hd.2, hd.1, hw, ?_⟩
        intro i j hi hj
        obtain ⟨h1, h2⟩ := h i hi j hj
        refine ⟨h2, ?_⟩
        intro hig
        rcases h1 with h1 | h1
        · rw [hig] at h1; cases h1
        · exact h1
      · rintro ⟨_, _, _, h⟩ i hi j hj
        obtain ⟨h1, h2⟩ := h i j hi hj
        refine ⟨?_, h1⟩
        cases ignore_orientation
        · exact Or.inr (h2 rfl)
        · exact Or.inl rfl
    · have c1 : ¬ ((game_nb_cols g1 != game_nb_cols g2 ||
          game_nb_rows g1 != game_nb_rows g2) = true) := by
        simp [hd.1, hd.2]
      have c2 : (game_is_wrapping g1 != game_is_wrapping g2) = true := by
        simp [hw]
      rw [if_neg c1, if_pos c2]
      constructor
      · intro h; cases h
      · rintro ⟨_, _, h, _⟩
        exact absurd h hw
  · have c1 : (game_nb_cols g1 != game_nb_cols g2 ||
        game_nb_rows g1 != game_nb_rows g2) = true := by
      simp only [Bool.or_eq_true, bne_iff_ne, ne_eq]
      by_contra hc
      push_neg at hc
      exact hd hc
    rw [if_pos c1]
    constructor
    · intro h; cases h
    · rintro ⟨h1, h2, _⟩
      exact absurd ⟨h2, h1⟩ hd

/-- C26.  `game_equal` with orientations compared is true exactly when the two
games have the same dimensions, the same wrapping flag and the same shape and
orientation in every cell; with `ignore_orientation` it is true exactly when
they have the same dimensions, wrapping flag and shape in every cell; the
stacks never change the result. -/
theorem game_equal_spec (g1 g2 : game) :
    (game_equal g1 g2 false = true ↔
      game_nb_rows g1 = game_nb_rows g2 ∧ game_nb_cols g1 = game_nb_cols g2 ∧
      game_is_wrapping g1 = game_is_wrapping g2 ∧
      ∀ i j, i < game_nb_rows g1 → j < game_nb_cols g1 →
        game_get_piece_shape g1 i j = game_get_piece_shape g2 i j ∧
        game_get_piece_orientation g1 i j = game_get_piece_orientation g2 i j) ∧
    (game_equal g1 g2 true = true ↔
      game_nb_rows g1 = game_nb_rows g2 ∧ game_nb_cols g1 = game_nb_cols g2 ∧
      game_is_wrapping g1 = game_is_wrapping g2 ∧
      ∀ i j, i < game_nb_rows g1 → j < game_nb_cols g1 →
        game_get_piece_shape g1 i j = game_get_piece_shape g2 i j) ∧
    (∀ (b : Bool) (u1 r1 u2 r2 : List move),
      game_equal { g1 with undo_mooves := u1, redo_mooves := r1 }
        { g2 with undo_mooves := u2, redo_mooves := r2 } b = game_equal g1 g2 b) := by
  refine ⟨?_, ?_, ?_⟩
  · rw [game_equal_iff]
    constructor
    · rintro ⟨h1, h2, h3, h4⟩
      exact ⟨h1, h2, h3, fun i j hi hj => ⟨(h4 i j hi hj).1, (h4 i j hi hj).2 rfl⟩⟩
    · rintro ⟨h1, h2, h3, h4⟩
      exact ⟨h1, h2, h3, fun i j hi hj => ⟨(h4 i j hi hj).1, fun _ => (h4 i j hi hj).2⟩⟩
  · rw [game_equal_iff]
    constructor
    · rintro ⟨h1, h2, h3, h4⟩
      exact ⟨h1, h2, h3, fun i j hi hj => (h4 i j hi hj).1⟩
    · rintro ⟨h1, h2, h3, h4⟩
      exact ⟨h1, h2, h3, fun i j hi hj => ⟨h4 i j hi hj, fun h => by cases h⟩⟩
  · intro b u1 r1 u2 r2
    rfl

/-- C27.  For a game `g` of less than `2^32` cells, `game_copy g` has the
dimensions and the wrapping flag of `g` and the same shape and orientation in
every cell, so that `game_equal g (game_copy g) false` is true. -/
theorem game_copy_spec (g : game) (hsz : game_nb_rows g * game_nb_cols g < 4294967296) :
    game_nb_rows (game_copy g) = game_nb_rows g ∧
    game_nb_cols (game_copy g) = game_nb_cols g ∧
    game_is_wrapping (game_copy g) = game_is_wrapping g ∧
    (∀ i j, i < game_nb_rows g → j < game_nb_cols g →
      game_get_piece_shape (game_copy g) i j = game_get_piece_shape g i j ∧
      game_get_piece_orientation (game_copy g) i j = game_get_piece_orientation g i j) ∧
    game_equal g (game_copy g) false = true := by
  obtain ⟨c1, c2, c3, _, _⟩ := game_copy_fields g
  refine ⟨c1, c2, c3, fun i j hi hj => game_copy_get g hsz i j hi hj, ?_⟩
  rw [game_equal_iff]
  refine ⟨c1.symm, c2.symm, c3.symm, ?_⟩
  intro i j hi hj
  obtain ⟨e1, e2⟩ := game_copy_get g hsz i j hi hj
  exact ⟨e1.symm, fun _ => e2.symm⟩

/-- Witness of C27 on the 2 by 3 grid `grid_2x3`. -/
theorem game_copy_spec_witness :
    game_nb_rows grid_2x3 * game_nb_cols grid_2x3 < 4294967296 ∧
    game_equal grid_2x3 (game_copy grid_2x3) false = true :=
  ⟨by decide, (game_copy_spec grid_2x3 (by decide)).2.2.2.2⟩


/-! ## The initial masks of the solver -/

theorem init_Array_eq (g : game) (t : List Nat) :
    init_Array g t = (cells (game_nb_rows g) (game_nb_cols g)).foldl
      (fun a c => init_Array_body g (game_nb_cols g) c.1 c.2 a) t := by
  rw [← for_cells_eq_foldl]
  rfl

theorem init_Array_body_length (g : game) (w i j : Nat) (a : List Nat) :
    (init_Array_body g w i j a).length = a.length := by
  unfold init_Array_body
  dsimp only
  split <;> simp

theorem init_Array_body_same (g : game) (w i j : Nat) (a : List Nat)
    (hk : i * w + j < a.length) :
    (init_Array_body g w i j a).getD (i * w + j) 0 = init_mask (game_get_piece_shape g i j) := by
  have h0 : (a.set (i * w + j) 0).getD (i * w + j) 0 = 0 := getD_set_same _ _ _ _ hk
  unfold init_Array_body
  dsimp only
  rw [h0]
  generalize game_get_piece_shape g i j = s
  cases s <;> dsimp only <;>
    rw [getD_set_same _ _ _ _ (by rw [List.length_set]; exact hk)] <;> rfl

theorem init_Array_body_other (g : game) (w i j k : Nat) (a : List Nat)
    (hk : i * w + j ≠ k) :
    (init_Array_body g w i j a).getD k 0 = a.getD k 0 := by
  unfold init_Array_body
  dsimp only
  split <;> rw [getD_set_other _ _ _ _ _ hk, getD_set_other _ _ _ _ _ hk]

theorem init_Array_mask (g : game) (t : List Nat) (i j : Nat)
    (ht : t.length = game_nb_rows g * game_nb_cols g)
    (hi : i < game_nb_rows g) (hj : j < game_nb_cols g) :
    (init_Array g t).getD (i * game_nb_cols g + j) 0 = init_mask (game_get_piece_shape g i j) := by
  rw [init_Array_eq]
  exact foldl_write
    (fun a : List Nat => a.length = game_nb_rows g * game_nb_cols g)
    (fun a c => init_Array_body g (game_nb_cols g) c.1 c.2 a)
    (fun a c => a.getD (c.1 * game_nb_cols g + c.2) 0)
    (fun c => init_mask (game_get_piece_shape g c.1 c.2))
    (cells (game_nb_rows g) (game_nb_cols g))
    (by
      intro a c _ ha
      dsimp only
      rw [init_Array_body_length, ha])
    (by
      intro a c hc ha
      rw [mem_cells] at hc
      apply init_Array_body_same
      rw [ha, Nat.mul_comm c.1]
      exact idx_lt _ _ _ _ hc.1 hc.2)
    (by
      intro a c c' hc hc' hne _
      apply init_Array_body_other
      intro e
      rw [mem_cells] at hc hc'
      rw [Nat.mul_comm c.1, Nat.mul_comm c'.1] at e
      have := idx_inj _ _ _ _ _ hc.2 hc'.2 e
      exact hne (Prod.ext this.1 this.2))
    t ht (i, j) ((mem_cells _ _ _).2 ⟨hi, hj⟩)

/-- C30, amended.  In the array filled by `init_Array`, the mask of an Empty or
a Cross cell holds the bit of North only, the mask of a Segment holds the bits
of North and East only, and the mask of an Endpoint, a Corner or a Tee holds
the four bits. -/
theorem init_Array_spec (g : game) (t : List Nat) (i j : Nat)
    (ht : t.length = game_nb_rows g * game_nb_cols g)
    (hi : i < game_nb_rows g) (hj : j < game_nb_cols g) :
    (init_Array g t).getD (i * game_nb_cols g + j) 0 =
      match game_get_piece_shape g i j with
      | .EMPTY => directions direction.NORTH
      | .CROSS => directions direction.NORTH
      | .SEGMENT => directions direction.NORTH ||| directions direction.EAST
      | _ => directions direction.NORTH ||| directions direction.EAST |||
          directions direction.SOUTH ||| directions direction.WEST := by
  rw [init_Array_mask g t i j ht hi hj]
  cases game_get_piece_shape g i j <;> rfl

/-- Witness of C30, amended, on the cell `(1, 0)` of `grid_2x3`, a Segment. -/
theorem init_Array_spec_witness :
    (List.replicate 6 0).length = game_nb_rows grid_2x3 * game_nb_cols grid_2x3 ∧
    1 < game_nb_rows grid_2x3 ∧ 0 < game_nb_cols grid_2x3 ∧
    (init_Array grid_2x3 (List.replicate 6 0)).getD (1 * game_nb_cols grid_2x3 + 0) 0 = 3 :=
  ⟨by decide, by decide, by decide,
    init_Array_spec grid_2x3 (List.replicate 6 0) 1 0 (by decide) (by decide) (by decide)⟩

/-- C30 as stated fails on a Segment: on the 1 by 1 grid `segment_1x1` the mask
is `NORTH_B | EAST_B`, the bits of South and West are not set. -/
theorem init_Array_segment :
    game_get_piece_shape segment_1x1 0 0 = shape.SEGMENT ∧
    init_Array segment_1x1 [0] = [3] ∧
    (init_Array segment_1x1 [0]).getD 0 0 &&& directions direction.SOUTH = 0 ∧
    (init_Array segment_1x1 [0]).getD 0 0 &&& directions direction.WEST = 0 := by
  decide


/-! ## Saving and loading -/

theorem shape_map_shapeToChar (s : shape) : shape_map (shapeToChar s) = s := by
  cases s <;> decide

theorem direction_map_directionToChar (d : direction) :
    direction_map (directionToChar d) = d := by
  cases d <;> decide

theorem shapeToChar_not_space (s : shape) : isspace (shapeToChar s) = false := by
  cases s <;> decide

theorem skip_space_cons_space (c : Char) (cs : List Char) (h : isspace c = true) :
    skip_space (c :: cs) = skip_space cs := by
  simp [skip_space, h]

theorem skip_space_cons_other (c : Char) (cs : List Char) (h : isspace c = false) :
    skip_space (c :: cs) = c :: cs := by
  simp [skip_space, h]

theorem skip_space_idem (f : List Char) : skip_space (skip_space f) = skip_space f := by
  induction f with
  | nil => rfl
  | cons c cs ih =>
    cases h : isspace c
    · rw [skip_space_cons_other c cs h, skip_space_cons_other c cs h]
    · rw [skip_space_cons_space c cs h, ih]

/-! ### Decimal numbers -/

theorem digit_isdigit (d : Nat) (hd : d < 10) : isdigit (Char.ofNat (48 + d)) = true := by
  interval_cases d <;> decide

theorem digit_value (d : Nat) (hd : d < 10) : (Char.ofNat (48 + d)).toNat - 48 = d := by
  interval_cases d <;> decide

theorem isdigit_not_space (c : Char) (h : isdigit c = true) : isspace c = false := by
  unfold isdigit at h
  unfold isspace
  simp only [Bool.and_eq_true, decide_eq_true_eq] at h
  simp only [Bool.or_eq_false_iff, Bool.and_eq_false_iff, beq_eq_false_iff_ne,
    decide_eq_false_iff_not]
  omega

theorem print_uint_aux_append (fuel n : Nat) (acc : List Char) :
    print_uint_aux fuel n acc = print_uint_aux fuel n [] ++ acc := by
  induction fuel generalizing n acc with
  | zero => rfl
  | succ fuel ih =>
    unfold print_uint_aux
    split
    · rfl
    · rw [ih (n / 10) (_ :: acc), ih (n / 10) [_], List.append_assoc]
      rfl

/-- Value of a string of digits read from the left, starting from `v`. -/
theorem scan_digits_append (ds rest : List Char) (v : Nat)
    (hds : ∀ c ∈ ds, isdigit c = true)
    (hrest : ∀ c r, rest = c :: r → isdigit c = false) :
    scan_digits (ds ++ rest) v =
      (ds.foldl (fun v c => 10 * v + (c.toNat - 48)) v, rest) := by
  induction ds generalizing v with
  | nil =>
    cases rest with
    | nil => rfl
    | cons c r => simp [scan_digits, hrest c r rfl]
  | cons d ds ih =>
    rw [List.cons_append, scan_digits, if_pos (hds d (List.mem_cons_self _ _)),
      ih _ (fun c hc => hds c (List.mem_cons_of_mem _ hc))]
    rfl

theorem print_uint_aux_digits (fuel n : Nat) :
    ∀ c ∈ print_uint_aux fuel n [], isdigit c = true := by
  induction fuel generalizing n with
  | zero => intro c hc; cases hc
  | succ fuel ih =>
    intro c hc
    unfold print_uint_aux at hc
    split at hc
    · rename_i hn
      rw [List.mem_singleton] at hc
      rw [hc]; exact digit_isdigit n hn
    · rw [print_uint_aux_append, List.mem_append, List.mem_singleton] at hc
      rcases hc with hc | hc
      · exact ih _ c hc
      · rw [hc]; exact digit_isdigit _ (Nat.mod_lt _ (by decide))

theorem print_uint_aux_value (fuel n : Nat) (hn : n < 10 ^ fuel) :
    (print_uint_aux fuel n []).foldl (fun v c => 10 * v + (c.toNat - 48)) 0 = n := by
  induction fuel generalizing n with
  | zero => simp at hn; subst hn; rfl
  | succ fuel ih =>
    unfold print_uint_aux
    split
    · rename_i h10
      simp only [List.foldl_cons, List.foldl_nil]
      rw [digit_value n h10]
      omega
    · rw [print_uint_aux_append, List.foldl_append, ih (n / 10) (by
        rw [Nat.pow_succ] at hn
        exact Nat.div_lt_of_lt_mul (by rw [Nat.mul_comm]; exact hn))]
      simp only [List.foldl_cons, List.foldl_nil]
      rw [digit_value _ (Nat.mod_lt _ (by decide))]
      omega

theorem print_uint_aux_cons (fuel n : Nat) :
    ∃ d ds, print_uint_aux (fuel + 1) n [] = d :: ds := by
  induction fuel generalizing n with
  | zero =>
    unfold print_uint_aux
    split
    · exact ⟨_, _, rfl⟩
    · exact ⟨_, _, rfl⟩
  | succ fuel ih =>
    unfold print_uint_aux
    split
    · exact ⟨_, _, rfl⟩
    · rw [print_uint_aux_append]
      obtain ⟨d, ds, h⟩ := ih (n / 10)
      rw [h]
      exact ⟨_, _, rfl⟩

/-- Reading back a number written by `%u`, when a character that is not a
digit follows. -/
theorem scan_uint_print_uint (n : Nat) (hn : n < 4294967296) (c : Char) (r : List Char)
    (hc : isdigit c = false) :
    scan_uint (print_uint n ++ c :: r) = some (n, c :: r) := by
  unfold print_uint
  have hdig := print_uint_aux_digits 10 n
  have hval := print_uint_aux_value 10 n (by omega)
  obtain ⟨d, ds, hcons⟩ := print_uint_aux_cons 9 n
  have hscan := scan_digits_append (print_uint_aux 10 n []) (c :: r) 0 hdig
    (by intro c' r' h; cases h; exact hc)
  rw [hval] at hscan
  have hd : isdigit d = true := hdig d (by rw [hcons]; exact List.mem_cons_self _ _)
  unfold scan_uint
  rw [hcons] at hscan ⊢
  rw [List.cons_append, skip_space_cons_other d _ (isdigit_not_space d hd)]
  dsimp only
  rw [if_pos hd]
  rw [List.cons_append] at hscan
  rw [hscan]
  exact if_pos hn

/-! ### The text written by game_save -/

theorem foldl_append_flatMap {κ : Type} (t : κ → List Char) (L : List κ) (init : List Char) :
    L.foldl (fun f x => f ++ t x) init = init ++ L.flatMap t := by
  induction L generalizing init with
  | nil => simp
  | cons x L ih => rw [List.foldl_cons, ih, List.flatMap_cons, List.append_assoc]

theorem game_save_eq (g : game) :
    game_save g = header_text g ++
      (List.range (game_nb_rows g)).flatMap (row_text g (List.range (game_nb_cols g))) := by
  unfold game_save
  dsimp only
  have hin : ∀ (i : Nat) (f : List Char),
      (List.range (game_nb_cols g)).foldl
        (fun f j => f ++ [shapeToChar (game_get_piece_shape g i j),
          directionToChar (game_get_piece_orientation g i j), SPACE]) f ++ [NEWLINE] =
      f ++ row_text g (List.range (game_nb_cols g)) i := by
    intro i f
    rw [foldl_append_flatMap (fun j => [shapeToChar (game_get_piece_shape g i j),
      directionToChar (game_get_piece_orientation g i j), SPACE]), List.append_assoc]
    rfl
  simp only [hin]
  rw [foldl_append_flatMap]
  rfl

/-! ### Reading the cells back -/

theorem load_cell_ok (C i j : Nat) (f rest : List Char) (sh : List shape) (dr : List direction)
    (s : shape) (d : direction)
    (hf : skip_space f = shapeToChar s :: directionToChar d :: rest) :
    load_cell C i j (f, sh, dr) =
      some (rest, sh.set ((i * C + j) % 4294967296) s, dr.set ((i * C + j) % 4294967296) d) := by
  unfold load_cell scan_cell
  simp only [hf]
  cases s <;> cases d <;> rfl

theorem load_row (g : game) (C i : Nat) (Lj : List Nat) (f r : List Char) (sh : List shape)
    (dr : List direction)
    (hf : skip_space f = skip_space (Lj.flatMap (cell_text g i) ++ r)) :
    ∃ f1, Lj.foldl (fun st j => st.bind (load_cell C i j)) (some (f, sh, dr)) =
        some (f1,
          Lj.foldl (fun a j => a.set ((i * C + j) % 4294967296) (game_get_piece_shape g i j)) sh,
          Lj.foldl
            (fun a j => a.set ((i * C + j) % 4294967296) (game_get_piece_orientation g i j)) dr) ∧
      skip_space f1 = skip_space r := by
  induction Lj generalizing f sh dr with
  | nil => exact ⟨f, rfl, hf⟩
  | cons j Lj ih =>
    rw [List.flatMap_cons, List.append_assoc] at hf
    unfold cell_text at hf
    simp only [List.cons_append, List.nil_append] at hf
    rw [skip_space_cons_other _ _ (shapeToChar_not_space _)] at hf
    rw [List.foldl_cons, Option.bind, load_cell_ok C i j f _ sh dr _ _ hf]
    apply ih
    exact skip_space_cons_space _ _ (by decide)

theorem load_rows (g : game) (C : Nat) (Li : List Nat) (f r : List Char) (sh : List shape)
    (dr : List direction)
    (hf : skip_space f = skip_space (Li.flatMap (row_text g (List.range C)) ++ r)) :
    ∃ f1, Li.foldl (fun st i => (List.range C).foldl (fun st j => st.bind (load_cell C i j)) st)
          (some (f, sh, dr)) =
        some (f1,
          Li.foldl (fun a i => (List.range C).foldl
            (fun a j => a.set ((i * C + j) % 4294967296) (game_get_piece_shape g i j)) a) sh,
          Li.foldl (fun a i => (List.range C).foldl
            (fun a j => a.set ((i * C + j) % 4294967296) (game_get_piece_orientation g i j)) a)
            dr) ∧
      skip_space f1 = skip_space r := by
  induction Li generalizing f sh dr with
  | nil => exact ⟨f, rfl, hf⟩
  | cons i Li ih =>
    rw [List.flatMap_cons, List.append_assoc] at hf
    unfold row_text at hf
    rw [List.append_assoc] at hf
    obtain ⟨f1, h1, h2⟩ := load_row g C i (List.range C) f _ sh dr hf
    rw [List.foldl_cons, h1]
    apply ih
    rw [h2]
    exact skip_space_cons_space _ _ (by decide)

/-! ### The round trip -/

theorem scan_uint_skip_space (f : List Char) : scan_uint (skip_space f) = scan_uint f := by
  unfold scan_uint
  rw [skip_space_idem]

theorem scan_uint_cons_space (c : Char) (f : List Char) (h : isspace c = true) :
    scan_uint (c :: f) = scan_uint f := by
  unfold scan_uint
  rw [skip_space_cons_space c f h]

theorem scan_header_header_text (g : game) (body : List Char)
    (hr : game_nb_rows g < 4294967296) (hc : game_nb_cols g < 4294967296) :
    scan_header (header_text g ++ body) =
      some (game_nb_rows g, game_nb_cols g, (if game_is_wrapping g then 1 else 0),
        skip_space body) := by
  have hw : (if game_is_wrapping g then 1 else 0) < 4294967296 := by split <;> decide
  have e : header_text g ++ body =
      print_uint (game_nb_rows g) ++ SPACE :: (print_uint (game_nb_cols g) ++ SPACE ::
        (print_uint (if game_is_wrapping g then 1 else 0) ++ NEWLINE :: body)) := by
    unfold header_text
    simp only [List.append_assoc, List.cons_append, List.nil_append]
  rw [e]
  unfold scan_header
  rw [scan_uint_print_uint _ hr SPACE _ (by decide)]
  dsimp only
  rw [scan_uint_skip_space, scan_uint_cons_space _ _ (by decide),
    scan_uint_print_uint _ hc SPACE _ (by decide)]
  dsimp only
  rw [scan_uint_skip_space, scan_uint_cons_space _ _ (by decide),
    scan_uint_print_uint _ hw NEWLINE _ (by decide)]
  dsimp only
  rw [skip_space_cons_space _ _ (by decide)]

/-- The arrays that `game_load` fills from the text of `game_save`, cell by
cell. -/
theorem load_arrays (g : game) (sh : List shape) (dr : List direction)
    (hsh : sh.length = game_nb_rows g * game_nb_cols g)
    (hdr : dr.length = game_nb_rows g * game_nb_cols g)
    (hsz : game_nb_rows g * game_nb_cols g < 4294967296) (i j : Nat)
    (hi : i < game_nb_rows g) (hj : j < game_nb_cols g) :
    (for_cells (game_nb_rows g) (game_nb_cols g)
        (fun i j a => a.set ((i * game_nb_cols g + j) % 4294967296) (game_get_piece_shape g i j))
        sh).getD (i * game_nb_cols g + j) shape.EMPTY = game_get_piece_shape g i j ∧
    (for_cells (game_nb_rows g) (game_nb_cols g)
        (fun i j a =>
          a.set ((i * game_nb_cols g + j) % 4294967296) (game_get_piece_orientation g i j))
        dr).getD (i * game_nb_cols g + j) direction.NORTH = game_get_piece_orientation g i j := by
  have hlt : ∀ c : Nat × Nat, c ∈ cells (game_nb_rows g) (game_nb_cols g) →
      c.1 * game_nb_cols g + c.2 < game_nb_rows g * game_nb_cols g := by
    intro c hc
    rw [mem_cells] at hc
    rw [Nat.mul_comm c.1]
    exact idx_lt _ _ _ _ hc.1 hc.2
  have hmod : ∀ c : Nat × Nat, c ∈ cells (game_nb_rows g) (game_nb_cols g) →
      (c.1 * game_nb_cols g + c.2) % 4294967296 = c.1 * game_nb_cols g + c.2 := by
    intro c hc
    exact Nat.mod_eq_of_lt (Nat.lt_trans (hlt c hc) hsz)
  have hne : ∀ c c' : Nat × Nat, c ∈ cells (game_nb_rows g) (game_nb_cols g) →
      c' ∈ cells (game_nb_rows g) (game_nb_cols g) → c ≠ c' →
      c.1 * game_nb_cols g + c.2 ≠ c'.1 * game_nb_cols g + c'.2 := by
    intro c c' hc hc' hcc e
    rw [mem_cells] at hc hc'
    rw [Nat.mul_comm c.1, Nat.mul_comm c'.1] at e
    have := idx_inj _ _ _ _ _ hc.2 hc'.2 e
    exact hcc (Prod.ext this.1 this.2)
  rw [for_cells_eq_foldl, for_cells_eq_foldl]
  constructor
  · exact foldl_write
      (fun a : List shape => a.length = game_nb_rows g * game_nb_cols g)
      (fun a c => a.set ((c.1 * game_nb_cols g + c.2) % 4294967296)
        (game_get_piece_shape g c.1 c.2))
      (fun a c => a.getD (c.1 * game_nb_cols g + c.2) shape.EMPTY)
      (fun c => game_get_piece_shape g c.1 c.2)
      (cells (game_nb_rows g) (game_nb_cols g))
      (by intro a c _ ha; dsimp only; rw [List.length_set, ha])
      (by
        intro a c hc ha
        dsimp only
        rw [hmod c hc]
        exact getD_set_same _ _ _ _ (by rw [ha]; exact hlt c hc))
      (by
        intro a c c' hc hc' hcc _
        dsimp only
        rw [hmod c hc]
        exact getD_set_other _ _ _ _ _ (hne c c' hc hc' hcc))
      sh hsh (i, j) ((mem_cells _ _ _).2 ⟨hi, hj⟩)
  · exact foldl_write
      (fun a : List direction => a.length = game_nb_rows g * game_nb_cols g)
      (fun a c => a.set ((c.1 * game_nb_cols g + c.2) % 4294967296)
        (game_get_piece_orientation g c.1 c.2))
      (fun a c => a.getD (c.1 * game_nb_cols g + c.2) direction.NORTH)
      (fun c => game_get_piece_orientation g c.1 c.2)
      (cells (game_nb_rows g) (game_nb_cols g))
      (by intro a c _ ha; dsimp only; rw [List.length_set, ha])
      (by
        intro a c hc ha
        dsimp only
        rw [hmod c hc]
        exact getD_set_same _ _ _ _ (by rw [ha]; exact hlt c hc))
      (by
        intro a c c' hc hc' hcc _
        dsimp only
        rw [hmod c hc]
        exact getD_set_other _ _ _ _ _ (hne c c' hc hc' hcc))
      dr hdr (i, j) ((mem_cells _ _ _).2 ⟨hi, hj⟩)

/-- The grid that `game_load` returns on the text of `game_save`. -/
theorem game_load_game_save (g : game) (hwf : game_wf g)
    (hr : 0 < game_nb_rows g) (hc : 0 < game_nb_cols g)
    (hsz : game_nb_rows g * game_nb_cols g < 4294967296) :
    game_load (game_save g) =
      some (game_new_ext (game_nb_rows g) (game_nb_cols g)
        (some (for_cells (game_nb_rows g) (game_nb_cols g)
          (fun i j a =>
            a.set ((i * game_nb_cols g + j) % 4294967296) (game_get_piece_shape g i j))
          (List.replicate (game_nb_rows g * game_nb_cols g) shape.EMPTY)))
        (some (for_cells (game_nb_rows g) (game_nb_cols g)
          (fun i j a =>
            a.set ((i * game_nb_cols g + j) % 4294967296) (game_get_piece_orientation g i j))
          (List.replicate (game_nb_rows g * game_nb_cols g) direction.NORTH)))
        (game_is_wrapping g)) := by
  have hpos : 0 < game_nb_rows g * game_nb_cols g := Nat.mul_pos hr hc
  have hmod : game_nb_rows g * game_nb_cols g % 4294967296 = game_nb_rows g * game_nb_cols g :=
    Nat.mod_eq_of_lt hsz
  obtain ⟨f1, h1, _⟩ := load_rows g (game_nb_cols g) (List.range (game_nb_rows g))
    (skip_space ((List.range (game_nb_rows g)).flatMap
      (row_text g (List.range (game_nb_cols g))))) []
    (List.replicate (game_nb_rows g * game_nb_cols g) shape.EMPTY)
    (List.replicate (game_nb_rows g * game_nb_cols g) direction.NORTH)
    (by rw [skip_space_idem, List.append_nil])
  have hww : ((if game_is_wrapping g then 1 else 0) != 0) = game_is_wrapping g := by
    cases game_is_wrapping g <;> rfl
  unfold game_load
  rw [game_save_eq, scan_header_header_text g _ hwf.1 hwf.2.1]
  dsimp only
  rw [hmod, if_neg (by omega)]
  unfold for_cells
  rw [h1]
  dsimp only
  rw [hww]

/-- C28. Save/load round trip: for a grid `g` with at least one row and one
column (a well-formed one, whose number of cells is a `uint` as
`game_new_empty_ext` computes it), `game_load` succeeds on the text that
`game_save` writes for `g`, and the grid it returns has the dimensions, the
wrapping flag and, in every cell, the shape and the orientation of `g`, so
that `game_equal` with the orientations compared holds.  The character tables
invert each other: `shape_map[shapeToChar[s]] = s` for the six shapes and
`direction_map[directionToChar[d]] = d` for the four directions. -/
theorem game_save_load_round_trip (g : game) (hwf : game_wf g)
    (hr : 0 < game_nb_rows g) (hc : 0 < game_nb_cols g)
    (hsz : game_nb_rows g * game_nb_cols g < 4294967296) :
    (∃ g2, game_load (game_save g) = some g2 ∧
      game_nb_rows g2 = game_nb_rows g ∧ game_nb_cols g2 = game_nb_cols g ∧
      game_is_wrapping g2 = game_is_wrapping g ∧
      (∀ i j, i < game_nb_rows g → j < game_nb_cols g →
        game_get_piece_shape g2 i j = game_get_piece_shape g i j ∧
        game_get_piece_orientation g2 i j = game_get_piece_orientation g i j) ∧
      game_equal g g2 false = true) ∧
    (∀ s, shape_map (shapeToChar s) = s) ∧
    (∀ d, direction_map (directionToChar d) = d) := by
  refine ⟨⟨_, game_load_game_save g hwf hr hc hsz, ?_⟩, shape_map_shapeToChar,
    direction_map_directionToChar⟩
  obtain ⟨h1, h2, h3, -, -, -, -, h8⟩ := game_new_ext_cells (game_nb_rows g) (game_nb_cols g)
    (some (for_cells (game_nb_rows g) (game_nb_cols g)
      (fun i j a => a.set ((i * game_nb_cols g + j) % 4294967296) (game_get_piece_shape g i j))
      (List.replicate (game_nb_rows g * game_nb_cols g) shape.EMPTY)))
    (some (for_cells (game_nb_rows g) (game_nb_cols g)
      (fun i j a =>
        a.set ((i * game_nb_cols g + j) % 4294967296) (game_get_piece_orientation g i j))
      (List.replicate (game_nb_rows g * game_nb_cols g) direction.NORTH)))
    (game_is_wrapping g) hsz
  have hcells : ∀ i j, i < game_nb_rows g → j < game_nb_cols g →
      game_get_piece_shape (game_new_ext (game_nb_rows g) (game_nb_cols g)
        (some (for_cells (game_nb_rows g) (game_nb_cols g)
          (fun i j a =>
            a.set ((i * game_nb_cols g + j) % 4294967296) (game_get_piece_shape g i j))
          (List.replicate (game_nb_rows g * game_nb_cols g) shape.EMPTY)))
        (some (for_cells (game_nb_rows g) (game_nb_cols g)
          (fun i j a =>
            a.set ((i * game_nb_cols g + j) % 4294967296) (game_get_piece_orientation g i j))
          (List.replicate (game_nb_rows g * game_nb_cols g) direction.NORTH)))
        (game_is_wrapping g)) i j = game_get_piece_shape g i j ∧
      game_get_piece_orientation (game_new_ext (game_nb_rows g) (game_nb_cols g)
        (some (for_cells (game_nb_rows g) (game_nb_cols g)
          (fun i j a =>
            a.set ((i * game_nb_cols g + j) % 4294967296) (game_get_piece_shape g i j))
          (List.replicate (game_nb_rows g * game_nb_cols g) shape.EMPTY)))
        (some (for_cells (game_nb_rows g) (game_nb_cols g)
          (fun i j a =>
            a.set ((i * game_nb_cols g + j) % 4294967296) (game_get_piece_orientation g i j))
          (List.replicate (game_nb_rows g * game_nb_cols g) direction.NORTH)))
        (game_is_wrapping g)) i j = game_get_piece_orientation g i j := by
    intro i j hi hj
    obtain ⟨a, b⟩ := h8 i j hi hj
    obtain ⟨c, d⟩ := load_arrays g _ _ (List.length_replicate _ _) (List.length_replicate _ _)
      hsz i j hi hj
    exact ⟨a.trans c, b.trans d⟩
  refine ⟨h1, h2, h3, hcells, ?_⟩
  rw [game_equal_iff]
  exact ⟨h1.symm, h2.symm, h3.symm, fun i j hi hj =>
    ⟨(hcells i j hi hj).1.symm, fun _ => (hcells i j hi hj).2.symm⟩⟩

theorem game_save_load_round_trip_witness :
    game_wf grid_2x3 ∧ 0 < game_nb_rows grid_2x3 ∧ 0 < game_nb_cols grid_2x3 ∧
    game_nb_rows grid_2x3 * game_nb_cols grid_2x3 < 4294967296 ∧
    ((∃ g2, game_load (game_save grid_2x3) = some g2 ∧
      game_nb_rows g2 = game_nb_rows grid_2x3 ∧ game_nb_cols g2 = game_nb_cols grid_2x3 ∧
      game_is_wrapping g2 = game_is_wrapping grid_2x3 ∧
      (∀ i j, i < game_nb_rows grid_2x3 → j < game_nb_cols grid_2x3 →
        game_get_piece_shape g2 i j = game_get_piece_shape grid_2x3 i j ∧
        game_get_piece_orientation g2 i j = game_get_piece_orientation grid_2x3 i j) ∧
      game_equal grid_2x3 g2 false = true) ∧
    (∀ s, shape_map (shapeToChar s) = s) ∧
    (∀ d, direction_map (directionToChar d) = d)) :=
  ⟨by decide, by decide, by decide, by decide,
    game_save_load_round_trip grid_2x3 (by decide) (by decide) (by decide) (by decide)⟩

/-- The text written for `grid_2x3`, and the grid read back from it. -/
theorem game_save_grid_2x3 :
    game_save grid_2x3 =
      ['2', SPACE, '3', SPACE, '0', NEWLINE,
        'C', 'E', SPACE, 'T', 'S', SPACE, 'N', 'W', SPACE, NEWLINE,
        'S', 'N', SPACE, 'X', 'N', SPACE, 'E', 'N', SPACE, NEWLINE] ∧
    game_load (game_save grid_2x3) = some grid_2x3 := by decide

/-! ## The solver and the history -/

theorem game_solve_fields (g : game) :
    (game_solve g).2.undo_mooves = g.undo_mooves ∧
    (game_solve g).2.redo_mooves = g.redo_mooves ∧
    (game_solve g).2.tab_direction.length = g.tab_direction.length := by
  rw [game_solve_eq]
  split
  · exact ⟨rfl, rfl, rfl⟩
  · dsimp only
    split
    · obtain ⟨_, _, _, k4, k5, _, k7⟩ := copy_loop_fields
        (solve_rec (g.WIDTH * g.HEIGHT + 1) (game_copy g) 0 (g.WIDTH * g.HEIGHT) none
          (init_Array (game_copy g) (List.replicate (g.WIDTH * g.HEIGHT) 0))).g
        g.HEIGHT g.WIDTH g
      exact ⟨k4, k5, k7⟩
    · exact ⟨rfl, rfl, rfl⟩

/-- C37.  `game_solve` is not recorded in the history: whatever it returns, the
undo stack and the redo stack after the call are the stacks before it; so on a
valid game a following `game_undo` pops the last move played before the call
and writes the orientation `old` stored in it. -/
theorem game_solve_not_recorded (g : game) :
    (game_solve g).2.undo_mooves = g.undo_mooves ∧
    (game_solve g).2.redo_mooves = g.redo_mooves ∧
    (∀ m rest, g.undo_mooves = m :: rest → game_wf g →
      m.i < game_nb_rows g → m.j < game_nb_cols g →
      game_get_piece_orientation (game_undo (game_solve g).2) m.i m.j = m.old ∧
      (game_undo (game_solve g).2).undo_mooves = rest ∧
      (game_undo (game_solve g).2).redo_mooves = m :: g.redo_mooves) := by
  obtain ⟨h1, h2, h3⟩ := game_solve_fields g
  obtain ⟨f2, f3, _⟩ := game_solve_dims g
  refine ⟨h1, h2, ?_⟩
  intro m rest hm hwf hi hj
  have hu : (game_solve g).2.undo_mooves = m :: rest := by rw [h1, hm]
  unfold game_undo
  rw [hu]
  dsimp only
  refine ⟨?_, rfl, ?_⟩
  · unfold game_get_piece_orientation game_set_piece_orientation game_nb_cols
    dsimp only
    apply getD_set_same
    rw [h3, hwf.2.2.2.1, f3, cell_idx_mod g (game_wf_size g hwf) m.i m.j hi hj]
    exact idx_lt _ _ _ _ hi hj
  · unfold game_set_piece_orientation
    dsimp only
    rw [h2]

/-- Witness of C37 on the 1 by 3 grid of two Endpoints after one move. -/
theorem game_solve_not_recorded_witness :
    (game_play_move two_endpoints_1x3 0 0 1).undo_mooves =
      [{ i := 0, j := 0, old := direction.NORTH, new := direction.EAST }] ∧
    game_get_piece_orientation
      (game_undo (game_solve (game_play_move two_endpoints_1x3 0 0 1)).2) 0 0 =
        direction.NORTH :=
  ⟨rfl, ((game_solve_not_recorded (game_play_move two_endpoints_1x3 0 0 1)).2.2
    { i := 0, j := 0, old := direction.NORTH, new := direction.EAST } [] rfl (by decide)
    (by decide) (by decide)).1⟩

/-! ## The work stack of the flood fill -/

theorem fill_loop_add (g : game) (a b : Nat) (st : fill_state) :
    fill_loop g (a + b) st = fill_loop g b (fill_loop g a st) := by
  induction a generalizing st with
  | zero => rw [Nat.zero_add]; rfl
  | succ a ih =>
    rw [Nat.add_right_comm]
    cases hs : st.stack with
    | nil =>
      have e1 : fill_loop g (a + b + 1) st = st := by
        unfold fill_loop; rw [hs]
      have e2 : fill_loop g (a + 1) st = st := by
        unfold fill_loop; rw [hs]
      rw [e1, e2]
      cases b with
      | zero => rfl
      | succ b => unfold fill_loop; rw [hs]
    | cons c rest =>
      have e1 : fill_loop g (a + b + 1) st = fill_loop g (a + b) (fill_step g st) := by
        conv => lhs; unfold fill_loop
        rw [hs]
      have e2 : fill_loop g (a + 1) st = fill_loop g a (fill_step g st) := by
        conv => lhs; unfold fill_loop
        rw [hs]
      rw [e1, e2, ih]

/-- C35 fails with wrapping on.  On the 2 by 2 wrapping grid of four Crosses
the flood fill of `game_is_connected` starts at `(0, 0)`; after two iterations
of its loop the work stack holds 5 entries and after three iterations 6
entries, more than the `rows * cols = 4` entries the C array is allocated
for.  These states are states of the run of `game_is_connected`, whose loop is
`fill_loop` with the fuel `4 * (rows * cols) + 1 = 17`. -/
theorem fill_stack_exceeds_capacity :
    cross_2x2.is_wrapping = true ∧ game_nb_rows cross_2x2 * game_nb_cols cross_2x2 = 4 ∧
    find_start cross_2x2 = some (0, 0) ∧
    (fill_loop cross_2x2 1 (fill_state.mk [(0, 0)] (List.replicate 4 false))).stack =
      [(0, 1), (1, 0), (0, 1), (1, 0)] ∧
    (fill_loop cross_2x2 2 (fill_state.mk [(0, 0)] (List.replicate 4 false))).stack =
      [(1, 1), (1, 1), (1, 0), (0, 1), (1, 0)] ∧
    (fill_loop cross_2x2 3 (fill_state.mk [(0, 0)] (List.replicate 4 false))).stack.length = 6 ∧
    fill_loop cross_2x2 17 (fill_state.mk [(0, 0)] (List.replicate 4 false)) =
      fill_loop cross_2x2 14
        (fill_loop cross_2x2 3 (fill_state.mk [(0, 0)] (List.replicate 4 false))) :=
  ⟨rfl, rfl, by decide, by decide, by decide, by decide, fill_loop_add cross_2x2 3 14 _⟩

/-! ## The facing-endpoints rule -/

/-- C31 fails on a grid of more than two cells that holds two pieces.  On the
1 by 3 grid `two_endpoints_1x3_facing` the Endpoint at `(0, 0)` points east to
the Endpoint at `(0, 1)`, the edge between them is MATCH and the third cell is
Empty, so the grid holds 2 non-empty pieces; `isMismatch` returns true for the
orientation East of `(0, 0)` and clears its bit in the mask. -/
theorem isMismatch_rejects_with_two_pieces :
    nb_non_empty two_endpoints_1x3_facing = 2 ∧
    game_get_piece_shape two_endpoints_1x3_facing 0 0 = shape.ENDPOINT ∧
    game_get_piece_orientation two_endpoints_1x3_facing 0 0 = direction.EAST ∧
    game_get_ajacent_square two_endpoints_1x3_facing 0 0 direction.EAST = some (0, 1) ∧
    game_get_piece_shape two_endpoints_1x3_facing 0 1 = shape.ENDPOINT ∧
    game_check_edge two_endpoints_1x3_facing 0 0 direction.EAST = edge_status.MATCH ∧
    isMismatch two_endpoints_1x3_facing 0 0 direction.EAST [15, 15, 1] = (true, [13, 15, 1]) := by
  decide

/-! ## History: states reached by moves, undo, redo and reset -/

theorem undo_ok_mem (h w : Nat) (ms : List move) (tab : List direction)
    (hok : undo_ok h w tab ms) : ∀ m ∈ ms, m.i < h ∧ m.j < w := by
  induction ms generalizing tab with
  | nil => intro m hm; cases hm
  | cons m0 rest ih =>
    intro m hm
    obtain ⟨h1, h2, _, h4⟩ := hok
    rcases List.mem_cons.1 hm with rfl | hm
    · exact ⟨h1, h2⟩
    · exact ih _ h4 m hm

theorem redo_ok_mem (h w : Nat) (ms : List move) (tab : List direction)
    (hok : redo_ok h w tab ms) : ∀ m ∈ ms, m.i < h ∧ m.j < w := by
  induction ms generalizing tab with
  | nil => intro m hm; cases hm
  | cons m0 rest ih =>
    intro m hm
    obtain ⟨h1, h2, _, h4⟩ := hok
    rcases List.mem_cons.1 hm with rfl | hm
    · exact ⟨h1, h2⟩
    · exact ih _ h4 m hm

theorem history_ok_play_move (g : game) (i j : Nat) (n : Int) (hok : history_ok g)
    (hi : i < game_nb_rows g) (hj : j < game_nb_cols g) : history_ok (game_play_move g i j n) := by
  obtain ⟨hu, _⟩ := hok
  unfold history_ok game_play_move game_set_piece_orientation game_get_piece_orientation
    game_nb_cols
  dsimp only
  refine ⟨⟨hi, hj, ?_, ?_⟩, trivial⟩
  · rw [List.set_set]
  · rw [List.set_set, set_getD_self]
    exact hu

theorem history_ok_undo (g : game) (hok : history_ok g) : history_ok (game_undo g) := by
  obtain ⟨hu, hr⟩ := hok
  cases hm : g.undo_mooves with
  | nil =>
    have e : game_undo g = g := by unfold game_undo; rw [hm]
    rw [e]
    exact ⟨hu, hr⟩
  | cons m rest =>
    unfold game_undo
    rw [hm]
    rw [hm] at hu
    obtain ⟨h1, h2, h3, h4⟩ := hu
    unfold history_ok game_set_piece_orientation game_nb_cols
    dsimp only
    refine ⟨h4, h1, h2, ?_, ?_⟩
    · rw [List.set_set]
    · rw [List.set_set, h3]
      exact hr

theorem history_ok_redo (g : game) (hok : history_ok g) : history_ok (game_redo g) := by
  obtain ⟨hu, hr⟩ := hok
  cases hm : g.redo_mooves with
  | nil =>
    have e : game_redo g = g := by unfold game_redo; rw [hm]
    rw [e]
    exact ⟨hu, hr⟩
  | cons m rest =>
    unfold game_redo
    rw [hm]
    rw [hm] at hr
    obtain ⟨h1, h2, h3, h4⟩ := hr
    unfold history_ok game_set_piece_orientation game_nb_cols
    dsimp only
    refine ⟨⟨h1, h2, ?_, ?_⟩, h4⟩
    · rw [List.set_set]
    · rw [List.set_set, h3]
      exact hu

theorem history_ok_reset (g : game) : history_ok (game_reset_orientation g) := by
  unfold history_ok game_reset_orientation
  dsimp only
  exact ⟨trivial, trivial⟩

theorem reachable_history_ok (g0 g : game) (h0 : history_ok g0) (hr : reachable g0 g) :
    history_ok g := by
  induction hr with
  | start => exact h0
  | play_move g i j n _ hi hj ih => exact history_ok_play_move g i j n ih hi hj
  | undo g _ ih => exact history_ok_undo g ih
  | redo g _ ih => exact history_ok_redo g ih
  | reset_orientation g _ _ => exact history_ok_reset g

theorem game_new_ext_history_ok (R C : Nat) (shapes : Option (List shape))
    (orientations : Option (List direction)) (wrapping : Bool) :
    history_ok (game_new_ext R C shapes orientations wrapping) := by
  obtain ⟨_, _, _, h4, h5, _⟩ := game_new_ext_inv R C shapes orientations wrapping
  unfold history_ok
  rw [h4, h5]
  exact ⟨trivial, trivial⟩

theorem history_ok_round_trip (g : game) (hok : history_ok g) :
    (g.undo_mooves ≠ [] → game_redo (game_undo g) = g) ∧
    (g.redo_mooves ≠ [] → game_undo (game_redo g) = g) := by
  obtain ⟨hu, hr⟩ := hok
  constructor
  · intro hne
    cases hm : g.undo_mooves with
    | nil => exact absurd hm hne
    | cons m rest =>
      rw [hm] at hu
      obtain ⟨_, _, h3, _⟩ := hu
      unfold game_undo
      rw [hm]
      unfold game_redo game_set_piece_orientation game_nb_cols
      dsimp only
      rw [List.set_set, h3, ← hm]
  · intro hne
    cases hm : g.redo_mooves with
    | nil => exact absurd hm hne
    | cons m rest =>
      rw [hm] at hr
      obtain ⟨_, _, h3, _⟩ := hr
      unfold game_redo
      rw [hm]
      unfold game_undo game_set_piece_orientation game_nb_cols
      dsimp only
      rw [List.set_set, h3, ← hm]

/-- C36.  In every state `g` reached from a grid newly created by
`game_new_ext` through `game_play_move` on cells of the grid, `game_undo`,
`game_redo` and `game_reset_orientation`: when the undo stack is not empty,
`game_undo` followed by `game_redo` gives back `g` itself (orientations and
both stacks); when the redo stack is not empty, `game_redo` followed by
`game_undo` gives back `g`; and every move held in either stack names a cell
of the grid. -/
theorem history_round_trip (R C : Nat) (shapes : Option (List shape))
    (orientations : Option (List direction)) (wrapping : Bool) (g : game)
    (hreach : reachable (game_new_ext R C shapes orientations wrapping) g) :
    (g.undo_mooves ≠ [] → game_redo (game_undo g) = g) ∧
    (g.redo_mooves ≠ [] → game_undo (game_redo g) = g) ∧
    (∀ m ∈ g.undo_mooves, m.i < game_nb_rows g ∧ m.j < game_nb_cols g) ∧
    (∀ m ∈ g.redo_mooves, m.i < game_nb_rows g ∧ m.j < game_nb_cols g) := by
  have hok := reachable_history_ok _ g (game_new_ext_history_ok R C shapes orientations wrapping)
    hreach
  obtain ⟨h1, h2⟩ := history_ok_round_trip g hok
  exact ⟨h1, h2, undo_ok_mem _ _ _ _ hok.1, redo_ok_mem _ _ _ _ hok.2⟩

/-- Witness of C36: the default grid after a move, a second move and an
undo. -/
theorem history_round_trip_witness :
    reachable (game_new_ext 5 5 (some default_p) (some default_o) false)
      (game_undo (game_play_move
        (game_play_move (game_new_ext 5 5 (some default_p) (some default_o) false) 0 0 1)
        4 3 (-1))) ∧
    game_undo (game_redo (game_undo (game_play_move
        (game_play_move (game_new_ext 5 5 (some default_p) (some default_o) false) 0 0 1)
        4 3 (-1)))) =
      game_undo (game_play_move
        (game_play_move (game_new_ext 5 5 (some default_p) (some default_o) false) 0 0 1)
        4 3 (-1)) :=
  have hr : reachable (game_new_ext 5 5 (some default_p) (some default_o) false)
      (game_undo (game_play_move
        (game_play_move (game_new_ext 5 5 (some default_p) (some default_o) false) 0 0 1)
        4 3 (-1))) :=
    reachable.undo _ (reachable.play_move _ 4 3 (-1)
      (reachable.play_move _ 0 0 1 reachable.start (by decide) (by decide))
      (by decide) (by decide))
  ⟨hr, (history_round_trip 5 5 (some default_p) (some default_o) false _ hr).2.1 (by decide)⟩

/-! ## The win predicate depends on the half-edges only -/

theorem game_has_half_edge_piece (g : game) (i j : Nat) (d : direction) :
    game_has_half_edge g i j d =
      piece_has_half_edge (game_get_piece_shape g i j) (game_get_piece_orientation g i j) d := by
  unfold game_has_half_edge piece_has_half_edge
  rfl

theorem encode_shape_inj (s s' : shape) (o o' : direction)
    (h : _encode_shape s o = _encode_shape s' o') :
    s = s' ∧ ∀ d, piece_has_half_edge s o d = piece_has_half_edge s' o' d := by
  cases s <;> cases o <;> cases s' <;> cases o' <;>
    first
    | exact absurd h (by decide)
    | exact ⟨rfl, fun d => by cases d <;> rfl⟩

theorem code_bit_half_edge (s : shape) (o d : direction) :
    _encode_shape s o &&& (0b1000 >>> dir_val d) ≠ 0 ↔ piece_has_half_edge s o d = true := by
  cases s <;> cases o <;> cases d <;> decide

/-- Codes that are equal on the cells of the grid are equal at every pair of
coordinates, because a valid game stores `rows * cols` entries. -/
theorem encode_eq_everywhere (g1 g2 : game) (hwf1 : game_wf g1) (hwf2 : game_wf g2)
    (hH : g1.HEIGHT = g2.HEIGHT) (hW : g1.WIDTH = g2.WIDTH)
    (hcode : ∀ i j, i < game_nb_rows g1 → j < game_nb_cols g1 →
      _encode_shape (game_get_piece_shape g1 i j) (game_get_piece_orientation g1 i j) =
        _encode_shape (game_get_piece_shape g2 i j) (game_get_piece_orientation g2 i j))
    (i j : Nat) :
    _encode_shape (game_get_piece_shape g1 i j) (game_get_piece_orientation g1 i j) =
      _encode_shape (game_get_piece_shape g2 i j) (game_get_piece_orientation g2 i j) := by
  have hsz := game_wf_size g1 hwf1
  by_cases hk : (g1.WIDTH * i + j) % 4294967296 < g1.HEIGHT * g1.WIDTH
  · have hWpos : 0 < g1.WIDTH := by
      rcases Nat.eq_zero_or_pos g1.WIDTH with hz | hp
      · rw [hz] at hk; simp at hk
      · exact hp
    have hi' : (g1.WIDTH * i + j) % 4294967296 / g1.WIDTH < g1.HEIGHT := by
      apply Nat.div_lt_of_lt_mul
      rw [Nat.mul_comm g1.WIDTH g1.HEIGHT]; exact hk
    have hj' : (g1.WIDTH * i + j) % 4294967296 % g1.WIDTH < g1.WIDTH := Nat.mod_lt _ hWpos
    have hidx : g1.WIDTH * ((g1.WIDTH * i + j) % 4294967296 / g1.WIDTH) +
        (g1.WIDTH * i + j) % 4294967296 % g1.WIDTH = (g1.WIDTH * i + j) % 4294967296 :=
      Nat.div_add_mod _ _
    have key := hcode _ _ hi' hj'
    simp only [game_get_piece_shape, game_get_piece_orientation, game_nb_cols] at key ⊢
    rw [← hW] at key ⊢
    rw [hidx, Nat.mod_mod] at key
    exact key
  · have e1 : game_get_piece_shape g1 i j = shape.EMPTY := by
      unfold game_get_piece_shape game_nb_cols
      exact List.getD_eq_default _ _ (by rw [hwf1.2.2.1]; omega)
    have e2 : game_get_piece_shape g2 i j = shape.EMPTY := by
      unfold game_get_piece_shape game_nb_cols
      exact List.getD_eq_default _ _ (by rw [hwf2.2.2.1, ← hH, ← hW]; omega)
    have e3 : game_get_piece_orientation g1 i j = direction.NORTH := by
      unfold game_get_piece_orientation game_nb_cols
      exact List.getD_eq_default _ _ (by rw [hwf1.2.2.2.1]; omega)
    have e4 : game_get_piece_orientation g2 i j = direction.NORTH := by
      unfold game_get_piece_orientation game_nb_cols
      exact List.getD_eq_default _ _ (by rw [hwf2.2.2.2.1, ← hH, ← hW]; omega)
    rw [e1, e2, e3, e4]

theorem adj_congr (g1 g2 : game) (hH : g1.HEIGHT = g2.HEIGHT) (hW : g1.WIDTH = g2.WIDTH)
    (hwr : g1.is_wrapping = g2.is_wrapping) :
    game_get_ajacent_square g1 = game_get_ajacent_square g2 := by
  funext i j d
  unfold game_get_ajacent_square game_nb_rows game_nb_cols game_is_wrapping
  rw [hH, hW, hwr]

/-- Two games of the same dimensions and wrapping flag whose cells hold the
same shapes and have the same half-edges give the same results to
`game_is_well_paired`, `game_is_connected` and `game_won`. -/
theorem won_congr_half_edges (g1 g2 : game) (hH : g1.HEIGHT = g2.HEIGHT)
    (hW : g1.WIDTH = g2.WIDTH) (hwr : g1.is_wrapping = g2.is_wrapping)
    (hs : game_get_piece_shape g1 = game_get_piece_shape g2)
    (hhe : game_has_half_edge g1 = game_has_half_edge g2) :
    game_is_well_paired g1 = game_is_well_paired g2 ∧
    game_is_connected g1 = game_is_connected g2 ∧ game_won g1 = game_won g2 := by
  have hadj := adj_congr g1 g2 hH hW hwr
  have hce : game_check_edge g1 = game_check_edge g2 := by
    funext i j d
    unfold game_check_edge
    rw [hadj, hhe]
  have hwp : game_is_well_paired g1 = game_is_well_paired g2 := by
    unfold game_is_well_paired game_nb_rows game_nb_cols
    rw [hce, hH, hW]
  have hfs : find_start g1 = find_start g2 := by
    unfold find_start game_nb_rows game_nb_cols
    rw [hs, hH, hW]
  have hpush : fill_push g1 = fill_push g2 := by
    funext i j st d
    unfold fill_push game_nb_cols
    rw [hadj, hhe, hce, hW]
  have hstep : fill_step g1 = fill_step g2 := by
    funext st
    unfold fill_step game_nb_cols
    rw [hpush, hW]
  have hloop : ∀ fuel st, fill_loop g1 fuel st = fill_loop g2 fuel st := by
    intro fuel
    induction fuel with
    | zero => intro st; rfl
    | succ fuel ih =>
      intro st
      unfold fill_loop
      rw [hstep]
      split
      · rfl
      · exact ih _
  have hcon : game_is_connected g1 = game_is_connected g2 := by
    unfold game_is_connected game_nb_rows game_nb_cols
    rw [hfs, hs, hH, hW]
    simp only [hloop]
  refine ⟨hwp, hcon, ?_⟩
  unfold game_won
  rw [hwp, hcon]

theorem won_congr_encode (g1 g2 : game) (hwf1 : game_wf g1) (hwf2 : game_wf g2)
    (hH : g1.HEIGHT = g2.HEIGHT) (hW : g1.WIDTH = g2.WIDTH)
    (hwr : g1.is_wrapping = g2.is_wrapping)
    (hcode : ∀ i j, i < game_nb_rows g1 → j < game_nb_cols g1 →
      _encode_shape (game_get_piece_shape g1 i j) (game_get_piece_orientation g1 i j) =
        _encode_shape (game_get_piece_shape g2 i j) (game_get_piece_orientation g2 i j)) :
    game_is_well_paired g1 = game_is_well_paired g2 ∧
    game_is_connected g1 = game_is_connected g2 ∧ game_won g1 = game_won g2 := by
  have hall := encode_eq_everywhere g1 g2 hwf1 hwf2 hH hW hcode
  apply won_congr_half_edges g1 g2 hH hW hwr
  · funext i j
    exact (encode_shape_inj _ _ _ _ (hall i j)).1
  · funext i j d
    rw [game_has_half_edge_piece, game_has_half_edge_piece]
    exact (encode_shape_inj _ _ _ _ (hall i j)).2 d

/-- C38.  The win predicate depends on the half-edges only: two valid games
with the same dimensions and wrapping flag in which `_encode_shape` of the
shape and the orientation is the same in every cell give the same results to
`game_is_well_paired`, `game_is_connected` and `game_won`. -/
theorem game_won_depends_on_half_edges (g1 g2 : game) (hwf1 : game_wf g1) (hwf2 : game_wf g2)
    (hrows : game_nb_rows g1 = game_nb_rows g2) (hcols : game_nb_cols g1 = game_nb_cols g2)
    (hwr : game_is_wrapping g1 = game_is_wrapping g2)
    (hcode : ∀ i j, i < game_nb_rows g1 → j < game_nb_cols g1 →
      _encode_shape (game_get_piece_shape g1 i j) (game_get_piece_orientation g1 i j) =
        _encode_shape (game_get_piece_shape g2 i j) (game_get_piece_orientation g2 i j)) :
    game_is_well_paired g1 = game_is_well_paired g2 ∧
    game_is_connected g1 = game_is_connected g2 ∧ game_won g1 = game_won g2 :=
  won_congr_encode g1 g2 hwf1 hwf2 hrows hcols hwr hcode

/-- Witness of C38: the grid `grid_2x3` and the same grid with its Segment
turned by a half-turn and its Cross and its Empty cell turned. -/
theorem game_won_depends_on_half_edges_witness :
    game_wf grid_2x3 ∧ game_wf grid_2x3_turned ∧
    grid_2x3.tab_direction ≠ grid_2x3_turned.tab_direction ∧
    game_won grid_2x3 = game_won grid_2x3_turned :=
  ⟨by decide, by decide, by decide,
    (game_won_depends_on_half_edges grid_2x3 grid_2x3_turned (by decide) (by decide) rfl rfl rfl
      (by
        intro i j hi hj
        have hi2 : i < 2 := hi
        have hj3 : j < 3 := hj
        interval_cases i <;> interval_cases j <;> rfl)).2.2⟩

/-! ## Adding an edge -/

theorem well_paired_iff (g : game) :
    game_is_well_paired g = true ↔
      ∀ i j, i < game_nb_rows g → j < game_nb_cols g → ∀ d : direction,
        game_check_edge g i j d ≠ edge_status.MISMATCH := by
  unfold game_is_well_paired
  simp only [List.all_eq_true, List.mem_range, bne_iff_ne, ne_eq]
  constructor
  · intro h i j hi hj d
    exact h i hi j hj d (by cases d <;> simp [all_dirs])
  · intro h i hi j hj d _
    exact h i j hi hj d

/-- Adding the bit of the direction `d` to the code of a piece that has no
half-edge toward `d` gives the code of a piece, which `_decode_shape` finds. -/
theorem add_code (s : shape) (o d : direction) (h : piece_has_half_edge s o d = false) :
    _encode_shape s o &&& (0b1000 >>> dir_val d) = 0 ∧
    _encode_shape s o ||| (0b1000 >>> dir_val d) < 16 ∧
    ∃ news newo, _decode_shape (_encode_shape s o ||| (0b1000 >>> dir_val d)) =
        some (news, newo) ∧
      ∀ e, piece_has_half_edge news newo e = (piece_has_half_edge s o e || e == d) := by
  cases s <;> cases o <;> cases d <;>
    first
    | exact absurd h (by decide)
    | exact ⟨by decide, by decide, _, _, rfl, fun e => by cases e <;> rfl⟩

theorem add_half_edge_spec (g : game) (i j : Nat) (d : direction) (hwf : game_wf g)
    (hi : i < game_nb_rows g) (hj : j < game_nb_cols g)
    (hhe : game_has_half_edge g i j d = false) :
    ∃ g2, _add_half_edge g i j d = some g2 ∧ game_wf g2 ∧
      g2.HEIGHT = g.HEIGHT ∧ g2.WIDTH = g.WIDTH ∧ g2.is_wrapping = g.is_wrapping ∧
      g2.undo_mooves = g.undo_mooves ∧ g2.redo_mooves = g.redo_mooves ∧
      (∀ e, game_has_half_edge g2 i j e = (game_has_half_edge g i j e || e == d)) ∧
      (∀ i2 j2, i2 < game_nb_rows g → j2 < game_nb_cols g → (i2, j2) ≠ (i, j) →
        game_get_piece_shape g2 i2 j2 = game_get_piece_shape g i2 j2 ∧
        game_get_piece_orientation g2 i2 j2 = game_get_piece_orientation g i2 j2) := by
  rw [game_has_half_edge_piece] at hhe
  obtain ⟨c1, c2, news, newo, c3, c4⟩ := add_code _ _ _ hhe
  have hk : g.WIDTH * i + j < g.HEIGHT * g.WIDTH := idx_lt _ _ _ _ hi hj
  have hm := cell_idx_mod g (game_wf_size g hwf) i j hi hj
  refine ⟨game_set_piece_orientation (game_set_piece_shape g i j news) i j newo, ?_, ?_, rfl, rfl,
    rfl, rfl, rfl, ?_, ?_⟩
  · unfold _add_half_edge
    rw [if_pos ⟨hi, hj⟩]
    dsimp only
    rw [if_pos c1, if_pos c2, c3]
  · obtain ⟨w1, w2, w3, w4, w5⟩ := hwf
    refine ⟨w1, w2, ?_, ?_, w5⟩
    · simp only [game_set_piece_orientation, game_set_piece_shape, List.length_set]
      exact w3
    · simp only [game_set_piece_orientation, game_set_piece_shape, List.length_set]
      exact w4
  · intro e
    rw [game_has_half_edge_piece, game_has_half_edge_piece, shape_set_orientation,
      shape_set_shape g i j news (by rw [hm, hwf.2.2.1]; exact hk),
      orientation_set_orientation (game_set_piece_shape g i j news) i j newo (by
        simp only [game_set_piece_shape]
        rw [hm, hwf.2.2.2.1]; exact hk)]
    exact c4 e
  · intro i2 j2 hi2 hj2 hne
    have hm2 := cell_idx_mod g (game_wf_size g hwf) i2 j2 hi2 hj2
    have hidx : (g.WIDTH * i + j) % 4294967296 ≠ (g.WIDTH * i2 + j2) % 4294967296 := by
      rw [hm, hm2]
      intro e
      have := idx_inj _ _ _ _ _ hj hj2 e
      exact hne (Prod.ext this.1.symm this.2.symm)
    rw [shape_set_orientation, shape_set_shape_other g i j i2 j2 news hidx,
      orientation_set_orientation_other (game_set_piece_shape g i j news) i j i2 j2 newo hidx,
      orientation_set_shape]
    exact ⟨rfl, rfl⟩

theorem half_edge_of_cell (g g2 : game) (c : Nat × Nat)
    (h : game_get_piece_shape g2 c.1 c.2 = game_get_piece_shape g c.1 c.2 ∧
      game_get_piece_orientation g2 c.1 c.2 = game_get_piece_orientation g c.1 c.2)
    (e : direction) : game_has_half_edge g2 c.1 c.2 e = game_has_half_edge g c.1 c.2 e := by
  rw [game_has_half_edge_piece, game_has_half_edge_piece, h.1, h.2]

theorem OPPOSITE_DIR_ne (d : direction) : OPPOSITE_DIR d ≠ d := by
  cases d <;> decide

theorem OPPOSITE_DIR_inj (d e : direction) (h : OPPOSITE_DIR d = OPPOSITE_DIR e) : d = e := by
  rw [← OPPOSITE_DIR_involutive d, h, OPPOSITE_DIR_involutive]

/-- What `_add_edge` does when it does not return false. -/
theorem add_edge_true (g : game) (i j : Nat) (d : direction) (n : Nat × Nat) (hwf : game_wf g)
    (hi : i < game_nb_rows g) (hj : j < game_nb_cols g)
    (hadj : game_get_ajacent_square g i j d = some n)
    (hhe : game_has_half_edge g i j d = false)
    (hnext : game_has_half_edge g n.1 n.2 (OPPOSITE_DIR d) = false) :
    ∃ g2, _add_edge g i j d = some (true, g2) ∧ game_wf g2 ∧
      g2.HEIGHT = g.HEIGHT ∧ g2.WIDTH = g.WIDTH ∧ g2.is_wrapping = g.is_wrapping ∧
      g2.undo_mooves = g.undo_mooves ∧ g2.redo_mooves = g.redo_mooves ∧
      (∀ c e, cell_in g c →
        (game_has_half_edge g2 c.1 c.2 e = true ↔
          game_has_half_edge g c.1 c.2 e = true ∨ (c = (i, j) ∧ e = d) ∨
            (c = n ∧ e = OPPOSITE_DIR d))) ∧
      (∀ c, cell_in g c → c ≠ (i, j) → c ≠ n →
        game_get_piece_shape g2 c.1 c.2 = game_get_piece_shape g c.1 c.2 ∧
        game_get_piece_orientation g2 c.1 c.2 = game_get_piece_orientation g c.1 c.2) := by
  obtain ⟨ni, nj⟩ := n
  obtain ⟨hni, hnj⟩ := adj_in_range g i j ni nj d hadj
  obtain ⟨g1, a1, wf1, aH, aW, awr, au, ar, ahe, aoth⟩ := add_half_edge_spec g i j d hwf hi hj hhe
  have hni1 : ni < game_nb_rows g1 := by unfold game_nb_rows; rw [aH]; exact hni
  have hnj1 : nj < game_nb_cols g1 := by unfold game_nb_cols; rw [aW]; exact hnj
  have hnext1 : game_has_half_edge g1 ni nj (OPPOSITE_DIR d) = false := by
    by_cases hsame : (ni, nj) = (i, j)
    · have e1 : ni = i := congrArg Prod.fst hsame
      have e2 : nj = j := congrArg Prod.snd hsame
      rw [e1, e2] at hnext ⊢
      rw [ahe, hnext]
      simp only [Bool.false_or, beq_eq_false_iff_ne, ne_eq]
      exact OPPOSITE_DIR_ne d
    · rw [half_edge_of_cell g g1 (ni, nj) (aoth ni nj hni hnj hsame)]
      exact hnext
  obtain ⟨g2, b1, wf2, bH, bW, bwr, bu, br, bhe, both⟩ :=
    add_half_edge_spec g1 ni nj (OPPOSITE_DIR d) wf1 hni1 hnj1 hnext1
  refine ⟨g2, ?_, wf2, bH.trans aH, bW.trans aW, bwr.trans awr, bu.trans au, br.trans ar, ?_, ?_⟩
  · unfold _add_edge
    rw [if_pos ⟨hi, hj⟩, hadj]
    dsimp only
    rw [hhe, hnext]
    simp only [Bool.false_eq_true, ↓reduceIte]
    rw [a1]
    dsimp only
    rw [b1]
  · intro c e hc
    obtain ⟨ci, cj⟩ := c
    have hc1 : ci < game_nb_rows g1 ∧ cj < game_nb_cols g1 := by
      unfold game_nb_rows game_nb_cols; rw [aH, aW]; exact hc
    -- half-edges of the cell after the first call
    have h1 : game_has_half_edge g1 ci cj e = true ↔
        game_has_half_edge g ci cj e = true ∨ ((ci, cj) = (i, j) ∧ e = d) := by
      by_cases hsame : (ci, cj) = (i, j)
      · have e1 : ci = i := congrArg Prod.fst hsame
        have e2 : cj = j := congrArg Prod.snd hsame
        rw [e1, e2, ahe]
        simp only [Bool.or_eq_true, beq_iff_eq, true_and]
      · rw [half_edge_of_cell g g1 (ci, cj) (aoth ci cj hc.1 hc.2 hsame)]
        simp only [hsame, false_and, or_false]
    have h2 : game_has_half_edge g2 ci cj e = true ↔
        game_has_half_edge g1 ci cj e = true ∨ ((ci, cj) = (ni, nj) ∧ e = OPPOSITE_DIR d) := by
      by_cases hsame : (ci, cj) = (ni, nj)
      · have e1 : ci = ni := congrArg Prod.fst hsame
        have e2 : cj = nj := congrArg Prod.snd hsame
        rw [e1, e2, bhe]
        simp only [Bool.or_eq_true, beq_iff_eq, true_and]
      · rw [half_edge_of_cell g1 g2 (ci, cj) (both ci cj hc1.1 hc1.2 hsame)]
        simp only [hsame, false_and, or_false]
    dsimp only
    rw [h2, h1, or_assoc]
  · intro c hc hne1 hne2
    obtain ⟨ci, cj⟩ := c
    have hc1 : ci < game_nb_rows g1 ∧ cj < game_nb_cols g1 := by
      unfold game_nb_rows game_nb_cols; rw [aH, aW]; exact hc
    obtain ⟨p1, p2⟩ := aoth ci cj hc.1 hc.2 hne1
    obtain ⟨q1, q2⟩ := both ci cj hc1.1 hc1.2 hne2
    exact ⟨q1.trans p1, q2.trans p2⟩


theorem check_edge_match_iff (g : game) (i j : Nat) (d : direction) (n : Nat × Nat)
    (hadj : game_get_ajacent_square g i j d = some n) :
    game_check_edge g i j d = edge_status.MATCH ↔
      game_has_half_edge g i j d = true ∧ game_has_half_edge g n.1 n.2 (OPPOSITE_DIR d) = true := by
  unfold game_check_edge
  rw [hadj]
  dsimp only
  cases game_has_half_edge g i j d <;> cases game_has_half_edge g n.1 n.2 (OPPOSITE_DIR d) <;>
    decide

theorem check_edge_mismatch_some (g : game) (i j : Nat) (d : direction) (n : Nat × Nat)
    (hadj : game_get_ajacent_square g i j d = some n) :
    game_check_edge g i j d ≠ edge_status.MISMATCH ↔
      (game_has_half_edge g i j d = true ↔
        game_has_half_edge g n.1 n.2 (OPPOSITE_DIR d) = true) := by
  unfold game_check_edge
  rw [hadj]
  dsimp only
  cases game_has_half_edge g i j d <;> cases game_has_half_edge g n.1 n.2 (OPPOSITE_DIR d) <;>
    decide

theorem check_edge_mismatch_none (g : game) (i j : Nat) (d : direction)
    (hadj : game_get_ajacent_square g i j d = none) :
    game_check_edge g i j d ≠ edge_status.MISMATCH ↔ game_has_half_edge g i j d = false := by
  unfold game_check_edge
  rw [hadj]
  dsimp only
  cases game_has_half_edge g i j d <;> decide

/-- C39, amended.  On a valid game, a cell `(i, j)` of the grid and a direction
`d`: `_add_edge` returns false and leaves the game as it is when there is no
adjacent cell in the direction `d`, or `(i, j)` has a half-edge toward `d`, or
the adjacent cell has a half-edge toward the opposite of `d`.  Otherwise it
returns true; afterwards `game_check_edge` at `(i, j)` toward `d` is MATCH, the
half-edges of the grid are the ones before the call, plus the half-edge of
`(i, j)` toward `d`, plus the half-edge of the adjacent cell toward the
opposite of `d` (both on the same cell when `(i, j)` is its own neighbour),
and every other cell, the dimensions, the wrapping flag and the two stacks are
as before.  No assertion fails. -/
theorem add_edge_spec (g : game) (i j : Nat) (d : direction) (hwf : game_wf g)
    (hi : i < game_nb_rows g) (hj : j < game_nb_cols g) :
    ((game_get_ajacent_square g i j d = none ∨ game_has_half_edge g i j d = true ∨
        ∃ n, game_get_ajacent_square g i j d = some n ∧
          game_has_half_edge g n.1 n.2 (OPPOSITE_DIR d) = true) →
      _add_edge g i j d = some (false, g)) ∧
    (¬ (game_get_ajacent_square g i j d = none ∨ game_has_half_edge g i j d = true ∨
        ∃ n, game_get_ajacent_square g i j d = some n ∧
          game_has_half_edge g n.1 n.2 (OPPOSITE_DIR d) = true) →
      ∃ g2 n, game_get_ajacent_square g i j d = some n ∧
        _add_edge g i j d = some (true, g2) ∧
        game_check_edge g2 i j d = edge_status.MATCH ∧
        (∀ c e, cell_in g c →
          (game_has_half_edge g2 c.1 c.2 e = true ↔
            game_has_half_edge g c.1 c.2 e = true ∨ (c = (i, j) ∧ e = d) ∨
              (c = n ∧ e = OPPOSITE_DIR d))) ∧
        (∀ c, cell_in g c → c ≠ (i, j) → c ≠ n →
          game_get_piece_shape g2 c.1 c.2 = game_get_piece_shape g c.1 c.2 ∧
          game_get_piece_orientation g2 c.1 c.2 = game_get_piece_orientation g c.1 c.2) ∧
        game_nb_rows g2 = game_nb_rows g ∧ game_nb_cols g2 = game_nb_cols g ∧
        game_is_wrapping g2 = game_is_wrapping g ∧
        g2.undo_mooves = g.undo_mooves ∧ g2.redo_mooves = g.redo_mooves) := by
  constructor
  · intro hcond
    unfold _add_edge
    rw [if_pos ⟨hi, hj⟩]
    cases hadj : game_get_ajacent_square g i j d with
    | none => rfl
    | some n =>
      obtain ⟨ni, nj⟩ := n
      dsimp only
      cases hhe : game_has_half_edge g i j d with
      | true => rfl
      | false =>
        rcases hcond with h | h | ⟨n2, h1, h2⟩
        · rw [hadj] at h; cases h
        · rw [hhe] at h; cases h
        · rw [hadj] at h1
          cases h1
          dsimp only at h2
          rw [h2]
          rfl
  · intro hcond
    cases hadj : game_get_ajacent_square g i j d with
    | none => exact absurd (Or.inl hadj) hcond
    | some n =>
      have hhe : game_has_half_edge g i j d = false := by
        cases h : game_has_half_edge g i j d with
        | false => rfl
        | true => exact absurd (Or.inr (Or.inl h)) hcond
      have hnext : game_has_half_edge g n.1 n.2 (OPPOSITE_DIR d) = false := by
        cases h : game_has_half_edge g n.1 n.2 (OPPOSITE_DIR d) with
        | false => rfl
        | true => exact absurd (Or.inr (Or.inr ⟨n, hadj, h⟩)) hcond
      obtain ⟨g2, a1, _, aH, aW, awr, au, ar, ahe, aoth⟩ :=
        add_edge_true g i j d n hwf hi hj hadj hhe hnext
      refine ⟨g2, n, rfl, a1, ?_, ahe, aoth, aH, aW, awr, au, ar⟩
      have hadj2 : game_get_ajacent_square g2 i j d = some n := by
        rw [adj_congr g2 g aH aW awr]; exact hadj
      have hn : cell_in g n := adj_in_range g i j n.1 n.2 d hadj
      rw [check_edge_match_iff g2 i j d n hadj2]
      exact ⟨(ahe (i, j) d ⟨hi, hj⟩).2 (Or.inr (Or.inl ⟨rfl, rfl⟩)),
        (ahe n (OPPOSITE_DIR d) hn).2 (Or.inr (Or.inr ⟨rfl, rfl⟩))⟩

/-- Witness of C39, amended, on the grid `grid_2x3`: the Endpoint at `(0, 2)`
gets an edge to the Empty cell below it. -/
theorem add_edge_spec_witness :
    game_wf grid_2x3 ∧ 0 < game_nb_rows grid_2x3 ∧ 2 < game_nb_cols grid_2x3 ∧
    ∃ g2 n, game_get_ajacent_square grid_2x3 0 2 direction.SOUTH = some n ∧
      _add_edge grid_2x3 0 2 direction.SOUTH = some (true, g2) ∧
      game_check_edge g2 0 2 direction.SOUTH = edge_status.MATCH :=
  ⟨by decide, by decide, by decide,
    match (add_edge_spec grid_2x3 0 2 direction.SOUTH (by decide) (by decide) (by decide)).2
      (by decide) with
    | ⟨g2, n, h1, h2, h3, _⟩ => ⟨g2, n, h1, h2, h3⟩⟩

/-- C39 as stated fails when the cell is its own neighbour.  On the 1 by 1
grid with wrapping whose cell is Empty, the cell adjacent to `(0, 0)` toward
North is `(0, 0)`; `_add_edge` returns true and turns the cell into a Segment:
the cell had no half-edge, and it now has the new half-edge toward North and a
half-edge toward South as well. -/
theorem add_edge_own_neighbour :
    game_wf empty_1x1_wrapping ∧
    game_get_ajacent_square empty_1x1_wrapping 0 0 direction.NORTH = some (0, 0) ∧
    _add_edge empty_1x1_wrapping 0 0 direction.NORTH =
      some (true, game_set_piece_shape empty_1x1_wrapping 0 0 shape.SEGMENT) ∧
    game_has_half_edge empty_1x1_wrapping 0 0 direction.SOUTH = false ∧
    game_has_half_edge (game_set_piece_shape empty_1x1_wrapping 0 0 shape.SEGMENT) 0 0
      direction.SOUTH = true ∧
    direction.SOUTH ≠ direction.NORTH := by
  decide

theorem add_edge_keeps_well_paired (g g2 : game) (i j : Nat) (d : direction) (hwf : game_wf g)
    (hi : i < game_nb_rows g) (hj : j < game_nb_cols g)
    (hwp : game_is_well_paired g = true) (h : _add_edge g i j d = some (true, g2)) :
    game_is_well_paired g2 = true ∧ game_wf g2 ∧ g2.HEIGHT = g.HEIGHT ∧ g2.WIDTH = g.WIDTH ∧
      g2.is_wrapping = g.is_wrapping := by
  -- the call returned true: find the neighbour and the two missing half-edges
  have hspec : ∃ n, game_get_ajacent_square g i j d = some n ∧
      game_has_half_edge g i j d = false ∧
      game_has_half_edge g n.1 n.2 (OPPOSITE_DIR d) = false := by
    unfold _add_edge at h
    rw [if_pos ⟨hi, hj⟩] at h
    cases hadj : game_get_ajacent_square g i j d with
    | none => rw [hadj] at h; cases h
    | some n =>
      obtain ⟨ni, nj⟩ := n
      rw [hadj] at h
      dsimp only at h
      cases hhe : game_has_half_edge g i j d with
      | true => rw [hhe] at h; cases h
      | false =>
        cases hnext : game_has_half_edge g ni nj (OPPOSITE_DIR d) with
        | true => rw [hhe, hnext] at h; cases h
        | false => exact ⟨(ni, nj), rfl, rfl, hnext⟩
  obtain ⟨n, hadj, hhe, hnext⟩ := hspec
  obtain ⟨g3, a1, wf3, aH, aW, awr, _, _, ahe, _⟩ :=
    add_edge_true g i j d n hwf hi hj hadj hhe hnext
  have e : g2 = g3 := by
    rw [a1] at h
    cases h
    rfl
  subst e
  refine ⟨?_, wf3, aH, aW, awr⟩
  have hn : cell_in g n := adj_in_range g i j n.1 n.2 d hadj
  have hback : game_get_ajacent_square g n.1 n.2 (OPPOSITE_DIR d) = some (i, j) :=
    (adj_symm g i j n.1 n.2 d hwf.1 hwf.2.1 hi hj hadj).2.2
  rw [well_paired_iff] at hwp ⊢
  intro ci cj hci hcj e
  have hc : cell_in g (ci, cj) := by
    unfold game_nb_rows at hci; unfold game_nb_cols at hcj
    rw [aH] at hci; rw [aW] at hcj
    exact ⟨hci, hcj⟩
  have hold := hwp ci cj hc.1 hc.2 e
  cases hadjc : game_get_ajacent_square g ci cj e with
  | none =>
    have hadjc2 : game_get_ajacent_square g2 ci cj e = none := by
      rw [adj_congr g2 g aH aW awr]; exact hadjc
    rw [check_edge_mismatch_none g ci cj e hadjc] at hold
    rw [check_edge_mismatch_none g2 ci cj e hadjc2]
    cases hnew : game_has_half_edge g2 ci cj e with
    | false => rfl
    | true =>
      rcases (ahe (ci, cj) e hc).1 hnew with h1 | ⟨h1, h2⟩ | ⟨h1, h2⟩
      · dsimp only at h1; rw [hold] at h1; cases h1
      · have e1 : ci = i := congrArg Prod.fst h1
        have e2 : cj = j := congrArg Prod.snd h1
        rw [e1, e2, h2, hadj] at hadjc
        cases hadjc
      · have e1 : ci = n.1 := congrArg Prod.fst h1
        have e2 : cj = n.2 := congrArg Prod.snd h1
        rw [e1, e2, h2, hback] at hadjc
        cases hadjc
  | some c2 =>
    have hadjc2 : game_get_ajacent_square g2 ci cj e = some c2 := by
      rw [adj_congr g2 g aH aW awr]; exact hadjc
    have hc2 : cell_in g c2 := adj_in_range g ci cj c2.1 c2.2 e hadjc
    have hbackc : game_get_ajacent_square g c2.1 c2.2 (OPPOSITE_DIR e) = some (ci, cj) :=
      (adj_symm g ci cj c2.1 c2.2 e hwf.1 hwf.2.1 hc.1 hc.2 hadjc).2.2
    rw [check_edge_mismatch_some g ci cj e c2 hadjc] at hold
    rw [check_edge_mismatch_some g2 ci cj e c2 hadjc2]
    have k1 := ahe (ci, cj) e hc
    have k2 := ahe c2 (OPPOSITE_DIR e) hc2
    dsimp only at k1
    rw [k1, k2, hold]
    have hP : ((ci, cj) = (i, j) ∧ e = d) ∨ ((ci, cj) = n ∧ e = OPPOSITE_DIR d) ↔
        (c2 = (i, j) ∧ OPPOSITE_DIR e = d) ∨ (c2 = n ∧ OPPOSITE_DIR e = OPPOSITE_DIR d) := by
      constructor
      · rintro (⟨h1, h2⟩ | ⟨h1, h2⟩)
        · right
          have e1 : ci = i := congrArg Prod.fst h1
          have e2 : cj = j := congrArg Prod.snd h1
          rw [e1, e2, h2, hadj] at hadjc
          exact ⟨(Option.some.inj hadjc).symm, by rw [h2]⟩
        · left
          have e1 : ci = n.1 := congrArg Prod.fst h1
          have e2 : cj = n.2 := congrArg Prod.snd h1
          rw [e1, e2, h2, hback] at hadjc
          exact ⟨(Option.some.inj hadjc).symm, by rw [h2, OPPOSITE_DIR_involutive]⟩
      · rintro (⟨h1, h2⟩ | ⟨h1, h2⟩)
        · right
          have h3 : e = OPPOSITE_DIR d := by rw [← h2, OPPOSITE_DIR_involutive]
          rw [h1, h2, hadj] at hbackc
          exact ⟨(Option.some.inj hbackc).symm, h3⟩
        · left
          have h3 : e = d := OPPOSITE_DIR_inj e d h2
          rw [h1, h2, hback] at hbackc
          exact ⟨(Option.some.inj hbackc).symm, h3⟩
    constructor
    · rintro (h | h)
      · exact Or.inl h
      · exact Or.inr (hP.1 h)
    · rintro (h | h)
      · exact Or.inl h
      · exact Or.inr (hP.2 h)


/-- A call of `_add_edge` on a cell of a valid game returns, and when it
returns false the game is the one before the call. -/
theorem add_edge_total (g : game) (i j : Nat) (d : direction) (hwf : game_wf g)
    (hi : i < game_nb_rows g) (hj : j < game_nb_cols g) :
    _add_edge g i j d = some (false, g) ∨ ∃ g2, _add_edge g i j d = some (true, g2) := by
  by_cases hcond : game_get_ajacent_square g i j d = none ∨ game_has_half_edge g i j d = true ∨
      ∃ n, game_get_ajacent_square g i j d = some n ∧
        game_has_half_edge g n.1 n.2 (OPPOSITE_DIR d) = true
  · left
    unfold _add_edge
    rw [if_pos ⟨hi, hj⟩]
    cases hadj : game_get_ajacent_square g i j d with
    | none => rfl
    | some n =>
      obtain ⟨ni, nj⟩ := n
      dsimp only
      cases hhe : game_has_half_edge g i j d with
      | true => rfl
      | false =>
        rcases hcond with h | h | ⟨n2, h1, h2⟩
        · rw [hadj] at h; cases h
        · rw [hhe] at h; cases h
        · rw [hadj] at h1
          cases h1
          dsimp only at h2
          rw [h2]
          rfl
  · right
    cases hadj : game_get_ajacent_square g i j d with
    | none => exact absurd (Or.inl hadj) hcond
    | some n =>
      have hhe : game_has_half_edge g i j d = false := by
        cases h : game_has_half_edge g i j d with
        | false => rfl
        | true => exact absurd (Or.inr (Or.inl h)) hcond
      have hnext : game_has_half_edge g n.1 n.2 (OPPOSITE_DIR d) = false := by
        cases h : game_has_half_edge g n.1 n.2 (OPPOSITE_DIR d) with
        | false => rfl
        | true => exact absurd (Or.inr (Or.inr ⟨n, hadj, h⟩)) hcond
      obtain ⟨g2, a1, _⟩ := add_edge_true g i j d n hwf hi hj hadj hhe hnext
      exact ⟨g2, a1⟩

theorem add_edges_well_paired (calls : List (Nat × Nat × direction)) (g : game)
    (hwf : game_wf g) (hwp : game_is_well_paired g = true)
    (hin : ∀ c ∈ calls, c.1 < game_nb_rows g ∧ c.2.1 < game_nb_cols g) :
    ∃ g2, add_edges g calls = some g2 ∧ game_is_well_paired g2 = true := by
  induction calls generalizing g with
  | nil => exact ⟨g, rfl, hwp⟩
  | cons c rest ih =>
    obtain ⟨hi, hj⟩ := hin c (List.mem_cons_self _ _)
    unfold add_edges
    rcases add_edge_total g c.1 c.2.1 c.2.2 hwf hi hj with h | ⟨g2, h⟩
    · rw [h]
      exact ih g hwf hwp (fun x hx => hin x (List.mem_cons_of_mem _ hx))
    · rw [h]
      obtain ⟨k1, k2, k3, k4, _⟩ := add_edge_keeps_well_paired g g2 c.1 c.2.1 c.2.2 hwf hi hj hwp h
      apply ih g2 k2 k1
      intro x hx
      unfold game_nb_rows game_nb_cols
      rw [k3, k4]
      exact hin x (List.mem_cons_of_mem _ hx)

/-- C40.  `_add_edge` preserves well-pairedness: on a valid game that
satisfies `game_is_well_paired`, wrapping or not, a call of `_add_edge` on a
cell of the grid that returns true leaves a game that satisfies
`game_is_well_paired`.  Hence any sequence of calls of `_add_edge` on cells of
the grid, started from the all-Empty grid of `game_new_empty_ext` with less
than `2^32` cells, runs without a failed assertion and ends with a well-paired
grid. -/
theorem add_edge_preserves_well_paired :
    (∀ (g g2 : game) (i j : Nat) (d : direction), game_wf g →
      i < game_nb_rows g → j < game_nb_cols g → game_is_well_paired g = true →
      _add_edge g i j d = some (true, g2) → game_is_well_paired g2 = true) ∧
    (∀ (nb_rows nb_cols : Nat) (wrapping : Bool) (calls : List (Nat × Nat × direction)),
      nb_rows < 4294967296 → nb_cols < 4294967296 → nb_rows * nb_cols < 4294967296 →
      (∀ c ∈ calls, c.1 < nb_rows ∧ c.2.1 < nb_cols) →
      ∃ g2, add_edges (game_new_empty_ext nb_rows nb_cols wrapping) calls = some g2 ∧
        game_is_well_paired g2 = true) := by
  constructor
  · intro g g2 i j d hwf hi hj hwp h
    exact (add_edge_keeps_well_paired g g2 i j d hwf hi hj hwp h).1
  · intro R C w calls hR hC hsz hin
    have hwf : game_wf (game_new_empty_ext R C w) :=
      ⟨hR, hC, (List.length_replicate _ _).trans (Nat.mod_eq_of_lt hsz),
        (List.length_replicate _ _).trans (Nat.mod_eq_of_lt hsz), hsz⟩
    have hempty : ∀ i j, i < game_nb_rows (game_new_empty_ext R C w) →
        j < game_nb_cols (game_new_empty_ext R C w) →
        game_get_piece_shape (game_new_empty_ext R C w) i j = shape.EMPTY := by
      intro i j _ _
      unfold game_get_piece_shape game_new_empty_ext
      exact getD_replicate_same _ _ _
    have hwp : game_is_well_paired (game_new_empty_ext R C w) = true := by
      rw [well_paired_iff]
      intro i j hi hj d
      rw [all_empty_noedge _ hempty i j hi hj d]
      decide
    exact add_edges_well_paired calls _ hwf hwp hin

/-- Witness of C40: on the 1 by 1 grid with wrapping, whose cell is its own
neighbour, and on a 2 by 2 grid with wrapping after three calls. -/
theorem add_edge_preserves_well_paired_witness :
    game_is_well_paired (game_set_piece_shape empty_1x1_wrapping 0 0 shape.SEGMENT) = true ∧
    ∃ g2, add_edges (game_new_empty_ext 2 2 true)
        [(0, 0, direction.EAST), (0, 1, direction.SOUTH), (0, 0, direction.WEST)] = some g2 ∧
      game_is_well_paired g2 = true :=
  ⟨add_edge_preserves_well_paired.1 empty_1x1_wrapping _ 0 0 direction.NORTH (by decide)
      (by decide) (by decide) (by decide) (by decide),
    add_edge_preserves_well_paired.2 2 2 true
      [(0, 0, direction.EAST), (0, 1, direction.SOUTH), (0, 0, direction.WEST)]
      (by decide) (by decide) (by decide) (by decide)⟩

/-! ## Two Endpoints that face each other -/

theorem cells_nodup (h w : Nat) : (cells h w).Nodup := by
  unfold cells
  rw [List.nodup_flatMap]
  constructor
  · intro i _
    exact List.Nodup.map (fun a b h => by cases h; rfl) (List.nodup_range w)
  · apply List.Nodup.pairwise_of_forall_ne (List.nodup_range h)
    intro a _ b _ hab
    simp only [Function.onFun, List.disjoint_left, List.mem_map, List.mem_range, not_exists,
      not_and]
    rintro x ⟨j, _, rfl⟩ j2 _ h
    cases h
    exact hab rfl

/-- A grid that holds at least three pieces has a piece outside any two given
cells. -/
theorem third_piece (g : game) (h3 : 3 ≤ nb_non_empty g) (a b : Nat × Nat) :
    ∃ c, non_empty_cell g c ∧ c ≠ a ∧ c ≠ b := by
  unfold nb_non_empty at h3
  have hnd : ((cells (game_nb_rows g) (game_nb_cols g)).filter
      fun c => game_get_piece_shape g c.1 c.2 != shape.EMPTY).Nodup :=
    List.Nodup.filter _ (cells_nodup _ _)
  generalize hL : (cells (game_nb_rows g) (game_nb_cols g)).filter
      (fun c => game_get_piece_shape g c.1 c.2 != shape.EMPTY) = L at h3 hnd
  have hlen : 0 < ((L.erase a).erase b).length := by
    have h1 := List.length_erase a L
    have h2 := List.length_erase b (L.erase a)
    split at h1 <;> split at h2 <;> omega
  obtain ⟨c, hc⟩ := List.exists_mem_of_length_pos hlen
  have hc1 := (List.Nodup.mem_erase_iff (hnd.erase a)).1 hc
  have hc2 := (List.Nodup.mem_erase_iff hnd).1 hc1.2
  have hcL : c ∈ L := hc2.2
  rw [← hL, List.mem_filter, mem_cells] at hcL
  refine ⟨c, ⟨hcL.1, ?_⟩, hc2.1, hc1.1⟩
  have := hcL.2
  simpa using this

theorem endpoint_half_edge (g : game) (i j : Nat) (e : direction)
    (hs : game_get_piece_shape g i j = shape.ENDPOINT)
    (h : game_has_half_edge g i j e = true) : e = game_get_piece_orientation g i j := by
  unfold game_has_half_edge at h
  rw [hs] at h
  simpa using h

/-- Two Endpoints that point to each other are joined to no other cell. -/
theorem facing_endpoints_closed (g : game) (a b x : Nat × Nat)
    (hsa : game_get_piece_shape g a.1 a.2 = shape.ENDPOINT)
    (hsb : game_get_piece_shape g b.1 b.2 = shape.ENDPOINT)
    (hab : game_get_ajacent_square g a.1 a.2 (game_get_piece_orientation g a.1 a.2) = some b)
    (hba : game_get_ajacent_square g b.1 b.2 (game_get_piece_orientation g b.1 b.2) = some a)
    (h : joined g a x) : x = a ∨ x = b := by
  unfold joined at h
  induction h with
  | refl => exact Or.inl rfl
  | tail _ hstep ih =>
    obtain ⟨_, d0, h1, h2⟩ := hstep
    have hhe := match_has_half_edge g _ _ d0 h2
    rcases ih with e | e
    · rw [e] at h1 hhe
      have hd := endpoint_half_edge g a.1 a.2 d0 hsa hhe
      rw [hd, hab] at h1
      exact Or.inr (Option.some.inj h1).symm
    · rw [e] at h1 hhe
      have hd := endpoint_half_edge g b.1 b.2 d0 hsb hhe
      rw [hd, hba] at h1
      exact Or.inl (Option.some.inj h1).symm

theorem facing_endpoints_not_connected (g : game) (hwf : game_wf g) (a b : Nat × Nat)
    (ha : cell_in g a)
    (hsa : game_get_piece_shape g a.1 a.2 = shape.ENDPOINT)
    (hsb : game_get_piece_shape g b.1 b.2 = shape.ENDPOINT)
    (hab : game_get_ajacent_square g a.1 a.2 (game_get_piece_orientation g a.1 a.2) = some b)
    (hba : game_get_ajacent_square g b.1 b.2 (game_get_piece_orientation g b.1 b.2) = some a)
    (h3 : 3 ≤ nb_non_empty g) : game_is_connected g = false := by
  cases hcon : game_is_connected g with
  | false => rfl
  | true =>
    exfalso
    have hna : non_empty_cell g a := ⟨ha, by rw [hsa]; decide⟩
    obtain ⟨c, hc, hca, hcb⟩ := third_piece g h3 a b
    cases hfs : find_start g with
    | none =>
      have := find_start_none g hfs a ha
      rw [hsa] at this
      cases this
    | some s =>
      have hall := (game_is_connected_start g hwf s hfs).1 hcon
      have h1 : joined g a s := joined_symm g hwf s a (hall a hna)
      have h2 : joined g a c := Relation.ReflTransGen.trans h1 (hall c hc)
      rcases facing_endpoints_closed g a b c hsa hsb hab hba h2 with e | e
      · exact hca e
      · exact hcb e

theorem isMismatch_eq (g : game) (i j : Nat) (d : direction) (t : List Nat) :
    isMismatch g i j d t =
      match mismatch_check g i j with
      | some clear => (true, if clear then clear_dir g i j d t else t)
      | none => if facing_check g i j d then (true, clear_dir g i j d t) else (false, t) := by
  unfold isMismatch mismatch_check facing_check
  dsimp only
  by_cases h1 : (!game_is_wrapping g && i == 0 &&
      game_check_edge g i j direction.NORTH == edge_status.MISMATCH) = true
  · simp only [h1, Bool.false_eq_true, ↓reduceIte]
  simp only [h1, Bool.false_eq_true, ↓reduceIte]
  by_cases h2 : (!game_is_wrapping g && j == 0 &&
      game_check_edge g i j direction.WEST == edge_status.MISMATCH) = true
  · simp only [h2, Bool.false_eq_true, ↓reduceIte]
  simp only [h2, Bool.false_eq_true, ↓reduceIte]
  by_cases h3 : (!game_is_wrapping g && i == (game_nb_rows g + 4294967295) % 4294967296 &&
      game_check_edge g i j direction.SOUTH == edge_status.MISMATCH) = true
  · simp only [h3, Bool.false_eq_true, ↓reduceIte]
  simp only [h3, Bool.false_eq_true, ↓reduceIte]
  by_cases h4 : (!game_is_wrapping g && j == (game_nb_cols g + 4294967295) % 4294967296 &&
      game_check_edge g i j direction.EAST == edge_status.MISMATCH) = true
  · simp only [h4, Bool.false_eq_true, ↓reduceIte]
  simp only [h4, Bool.false_eq_true, ↓reduceIte]
  by_cases h5 : (decide (i ≥ 1) &&
      game_check_edge g i j direction.NORTH == edge_status.MISMATCH) = true
  · simp only [h5, Bool.false_eq_true, ↓reduceIte]
  simp only [h5, Bool.false_eq_true, ↓reduceIte]
  by_cases h6 : (decide (j ≥ 1) &&
      game_check_edge g i j direction.WEST == edge_status.MISMATCH) = true
  · simp only [h6, Bool.false_eq_true, ↓reduceIte]
  simp only [h6, Bool.false_eq_true, ↓reduceIte]
  by_cases h7 : (game_is_wrapping g && i == (game_nb_rows g + 4294967295) % 4294967296 &&
      game_check_edge g i j direction.SOUTH == edge_status.MISMATCH) = true
  · simp only [h7, Bool.false_eq_true, ↓reduceIte]
  simp only [h7, Bool.false_eq_true, ↓reduceIte]
  by_cases h8 : (game_is_wrapping g && j == (game_nb_cols g + 4294967295) % 4294967296 &&
      game_check_edge g i j direction.EAST == edge_status.MISMATCH) = true
  · simp only [h8, Bool.false_eq_true, ↓reduceIte]
  simp only [h8, Bool.false_eq_true, ↓reduceIte]
  by_cases hA : (game_get_piece_shape g i j == shape.ENDPOINT &&
      decide (game_nb_cols g * game_nb_rows g > 2) &&
      game_check_edge g i j d == edge_status.MATCH) = true
  · simp only [hA, ↓reduceIte]
    by_cases hB : (game_get_piece_shape g ((game_get_ajacent_square g i j d).getD (0, 0)).1
        ((game_get_ajacent_square g i j d).getD (0, 0)).2 == shape.ENDPOINT) = true
    · simp only [hB, ↓reduceIte]
    · simp only [hB, Bool.false_eq_true, ↓reduceIte]
  · simp only [hA, Bool.false_eq_true, ↓reduceIte]

theorem adj_none_or_plain (g : game) (i j : Nat) (d : direction) (hwf : game_wf g)
    (hi : i < g.HEIGHT) (hj : j < g.WIDTH) :
    game_get_ajacent_square g i j d = none ∨
      game_get_ajacent_square g i j d = adj_plain g i j d := by
  by_cases hbig : 2147483648 ≤ g.HEIGHT ∨ 2147483648 ≤ g.WIDTH
  · exact Or.inl (adj_big g i j d hwf.1 hwf.2.1 hbig)
  · exact Or.inr (adj_eq_plain g i j d (by omega) (by omega) hi hj)

theorem adj_north (g : game) (i j : Nat) (hwf : game_wf g) (hi : i < g.HEIGHT)
    (hj : j < g.WIDTH) :
    (g.is_wrapping = false → i = 0 → game_get_ajacent_square g i j direction.NORTH = none) ∧
    (1 ≤ i → game_get_ajacent_square g i j direction.NORTH = none ∨
      game_get_ajacent_square g i j direction.NORTH = some (i - 1, j)) := by
  have hp : adj_plain g i j direction.NORTH =
      if i = 0 then (if g.is_wrapping then some (g.HEIGHT - 1, j) else none)
      else some (i - 1, j) := by
    unfold adj_plain coord_next
    simp only [DIR2OFFSET]
    split_ifs <;> simp_all
  rcases adj_none_or_plain g i j direction.NORTH hwf hi hj with h | h
  · exact ⟨fun _ _ => h, fun _ => Or.inl h⟩
  · rw [h, hp]
    constructor
    · intro hw h0
      rw [if_pos h0, hw]
      rfl
    · intro h1
      rw [if_neg (by omega)]
      exact Or.inr rfl

theorem adj_west (g : game) (i j : Nat) (hwf : game_wf g) (hi : i < g.HEIGHT)
    (hj : j < g.WIDTH) :
    (g.is_wrapping = false → j = 0 → game_get_ajacent_square g i j direction.WEST = none) ∧
    (1 ≤ j → game_get_ajacent_square g i j direction.WEST = none ∨
      game_get_ajacent_square g i j direction.WEST = some (i, j - 1)) := by
  have hp : adj_plain g i j direction.WEST =
      if j = 0 then (if g.is_wrapping then some (i, g.WIDTH - 1) else none)
      else some (i, j - 1) := by
    unfold adj_plain coord_next
    simp only [DIR2OFFSET]
    split_ifs <;> simp_all
  rcases adj_none_or_plain g i j direction.WEST hwf hi hj with h | h
  · exact ⟨fun _ _ => h, fun _ => Or.inl h⟩
  · rw [h, hp]
    constructor
    · intro hw h0
      rw [if_pos h0, hw]
      rfl
    · intro h1
      rw [if_neg (by omega)]
      exact Or.inr rfl

theorem adj_south (g : game) (i j : Nat) (hwf : game_wf g) (hi : i < g.HEIGHT)
    (hj : j < g.WIDTH) (hlast : i = (g.HEIGHT + 4294967295) % 4294967296) :
    (g.is_wrapping = false → game_get_ajacent_square g i j direction.SOUTH = none) ∧
    (game_get_ajacent_square g i j direction.SOUTH = none ∨
      game_get_ajacent_square g i j direction.SOUTH = some (0, j)) := by
  have hH := hwf.1
  have hi1 : i + 1 = g.HEIGHT := by omega
  have hp : adj_plain g i j direction.SOUTH =
      if g.is_wrapping then some (0, j) else none := by
    unfold adj_plain coord_next
    simp only [DIR2OFFSET]
    split_ifs <;> simp_all
  rcases adj_none_or_plain g i j direction.SOUTH hwf hi hj with h | h
  · exact ⟨fun _ => h, Or.inl h⟩
  · rw [h, hp]
    constructor
    · intro hw
      rw [hw]
      rfl
    · cases g.is_wrapping
      · exact Or.inl rfl
      · exact Or.inr rfl

theorem adj_east (g : game) (i j : Nat) (hwf : game_wf g) (hi : i < g.HEIGHT)
    (hj : j < g.WIDTH) (hlast : j = (g.WIDTH + 4294967295) % 4294967296) :
    (g.is_wrapping = false → game_get_ajacent_square g i j direction.EAST = none) ∧
    (game_get_ajacent_square g i j direction.EAST = none ∨
      game_get_ajacent_square g i j direction.EAST = some (i, 0)) := by
  have hW := hwf.2.1
  have hj1 : j + 1 = g.WIDTH := by omega
  have hp : adj_plain g i j direction.EAST =
      if g.is_wrapping then some (i, 0) else none := by
    unfold adj_plain coord_next
    simp only [DIR2OFFSET]
    split_ifs <;> simp_all
  rcases adj_none_or_plain g i j direction.EAST hwf hi hj with h | h
  · exact ⟨fun _ => h, Or.inl h⟩
  · rw [h, hp]
    constructor
    · intro hw
      rw [hw]
      rfl
    · cases g.is_wrapping
      · exact Or.inl rfl
      · exact Or.inr rfl

theorem same_shapes_shape (g g2 : game) (h : same_shapes g g2) (i j : Nat) :
    game_get_piece_shape g2 i j = game_get_piece_shape g i j := by
  unfold game_get_piece_shape game_nb_cols
  rw [h.2.2.2.1, h.2.1]

theorem half_edge_same (g g2 : game) (i j : Nat) (e : direction) (hs : same_shapes g g2)
    (ho : game_get_piece_orientation g2 i j = game_get_piece_orientation g i j ∨
      game_get_piece_shape g i j = shape.EMPTY ∨ game_get_piece_shape g i j = shape.CROSS) :
    game_has_half_edge g2 i j e = game_has_half_edge g i j e := by
  rw [game_has_half_edge_piece, game_has_half_edge_piece, same_shapes_shape g g2 hs]
  rcases ho with h | h | h
  · rw [h]
  · rw [h]; rfl
  · rw [h]; rfl

/-- A MISMATCH edge of `g` at the cell `(i, j)` is a MISMATCH edge of every
orientation assignment that has the orientation of `g` at `(i, j)` and, at the
adjacent cell if there is one, either the orientation of `g` or an Empty or
Cross piece. -/
theorem mismatch_transfer (g g2 : game) (i j : Nat) (D : direction) (hs : same_shapes g g2)
    (hi : i < game_nb_rows g) (hj : j < game_nb_cols g)
    (hm : game_check_edge g i j D = edge_status.MISMATCH)
    (ho : game_get_piece_orientation g2 i j = game_get_piece_orientation g i j)
    (hn : ∀ n, game_get_ajacent_square g i j D = some n →
      game_get_piece_orientation g2 n.1 n.2 = game_get_piece_orientation g n.1 n.2 ∨
      game_get_piece_shape g n.1 n.2 = shape.EMPTY ∨
      game_get_piece_shape g n.1 n.2 = shape.CROSS) :
    game_is_well_paired g2 = false := by
  have hce : game_check_edge g2 i j D = edge_status.MISMATCH := by
    rw [← hm]
    unfold game_check_edge
    rw [adj_congr g2 g hs.1 hs.2.1 hs.2.2.1, half_edge_same g g2 i j D hs (Or.inl ho)]
    cases hadj : game_get_ajacent_square g i j D with
    | none => rfl
    | some n =>
      dsimp only
      rw [half_edge_same g g2 n.1 n.2 _ hs (hn n hadj)]
  cases hwp : game_is_well_paired g2 with
  | false => rfl
  | true =>
    rw [well_paired_iff] at hwp
    exact absurd hce (hwp i j (by unfold game_nb_rows; rw [hs.1]; exact hi)
      (by unfold game_nb_cols; rw [hs.2.1]; exact hj) D)

/-- Each MISMATCH check of `isMismatch` finds a MISMATCH edge of the cell
`(i, j)` whose other end, if there is one, is not after `(i, j)` in row-major
order, and holds an Empty or a Cross piece when the check clears the bit. -/
theorem mismatch_check_cases (g : game) (i j : Nat) (clear : Bool) (hwf : game_wf g)
    (hi : i < game_nb_rows g) (hj : j < game_nb_cols g)
    (h : mismatch_check g i j = some clear) :
    ∃ D, game_check_edge g i j D = edge_status.MISMATCH ∧
      ∀ n, game_get_ajacent_square g i j D = some n →
        n.1 * game_nb_cols g + n.2 ≤ i * game_nb_cols g + j ∧
        (clear = true → game_get_piece_shape g n.1 n.2 = shape.EMPTY ∨
          game_get_piece_shape g n.1 n.2 = shape.CROSS) := by
  unfold mismatch_check at h
  dsimp only at h
  have hshape : ∀ s : shape, (s == shape.EMPTY || s == shape.CROSS) = true →
      s = shape.EMPTY ∨ s = shape.CROSS := by
    intro s hs
    cases s <;> first | exact Or.inl rfl | exact Or.inr rfl | exact absurd hs (by decide)
  by_cases h1 : (!game_is_wrapping g && i == 0 &&
      game_check_edge g i j direction.NORTH == edge_status.MISMATCH) = true
  · simp only [Bool.and_eq_true, Bool.not_eq_true', beq_iff_eq] at h1
    refine ⟨direction.NORTH, h1.2, ?_⟩
    intro n hn
    rw [(adj_north g i j hwf hi hj).1 h1.1.1 h1.1.2] at hn
    cases hn
  simp only [h1, Bool.false_eq_true, ↓reduceIte] at h
  by_cases h2 : (!game_is_wrapping g && j == 0 &&
      game_check_edge g i j direction.WEST == edge_status.MISMATCH) = true
  · simp only [Bool.and_eq_true, Bool.not_eq_true', beq_iff_eq] at h2
    refine ⟨direction.WEST, h2.2, ?_⟩
    intro n hn
    rw [(adj_west g i j hwf hi hj).1 h2.1.1 h2.1.2] at hn
    cases hn
  simp only [h2, Bool.false_eq_true, ↓reduceIte] at h
  by_cases h3 : (!game_is_wrapping g && i == (game_nb_rows g + 4294967295) % 4294967296 &&
      game_check_edge g i j direction.SOUTH == edge_status.MISMATCH) = true
  · simp only [Bool.and_eq_true, Bool.not_eq_true', beq_iff_eq] at h3
    refine ⟨direction.SOUTH, h3.2, ?_⟩
    intro n hn
    rw [(adj_south g i j hwf hi hj h3.1.2).1 h3.1.1] at hn
    cases hn
  simp only [h3, Bool.false_eq_true, ↓reduceIte] at h
  by_cases h4 : (!game_is_wrapping g && j == (game_nb_cols g + 4294967295) % 4294967296 &&
      game_check_edge g i j direction.EAST == edge_status.MISMATCH) = true
  · simp only [Bool.and_eq_true, Bool.not_eq_true', beq_iff_eq] at h4
    refine ⟨direction.EAST, h4.2, ?_⟩
    intro n hn
    rw [(adj_east g i j hwf hi hj h4.1.2).1 h4.1.1] at hn
    cases hn
  simp only [h4, Bool.false_eq_true, ↓reduceIte] at h
  by_cases h5 : (decide (i ≥ 1) &&
      game_check_edge g i j direction.NORTH == edge_status.MISMATCH) = true
  · simp only [h5, ↓reduceIte, Option.some.injEq] at h
    simp only [Bool.and_eq_true, decide_eq_true_eq, beq_iff_eq] at h5
    refine ⟨direction.NORTH, h5.2, ?_⟩
    intro n hn
    rcases (adj_north g i j hwf hi hj).2 h5.1 with e | e
    · rw [e] at hn; cases hn
    · rw [e] at hn
      cases hn
      refine ⟨?_, ?_⟩
      · dsimp only
        exact Nat.add_le_add_right (Nat.mul_le_mul_right _ (Nat.sub_le _ _)) _
      · intro hc
        rw [hc] at h
        exact hshape _ h
  simp only [h5, Bool.false_eq_true, ↓reduceIte] at h
  by_cases h6 : (decide (j ≥ 1) &&
      game_check_edge g i j direction.WEST == edge_status.MISMATCH) = true
  · simp only [h6, ↓reduceIte, Option.some.injEq] at h
    simp only [Bool.and_eq_true, decide_eq_true_eq, beq_iff_eq] at h6
    refine ⟨direction.WEST, h6.2, ?_⟩
    intro n hn
    rcases (adj_west g i j hwf hi hj).2 h6.1 with e | e
    · rw [e] at hn; cases hn
    · rw [e] at hn
      cases hn
      refine ⟨?_, ?_⟩
      · dsimp only
        omega
      · intro hc
        rw [hc] at h
        exact hshape _ h
  simp only [h6, Bool.false_eq_true, ↓reduceIte] at h
  by_cases h7 : (game_is_wrapping g && i == (game_nb_rows g + 4294967295) % 4294967296 &&
      game_check_edge g i j direction.SOUTH == edge_status.MISMATCH) = true
  · simp only [h7, ↓reduceIte, Option.some.injEq] at h
    simp only [Bool.and_eq_true, beq_iff_eq] at h7
    refine ⟨direction.SOUTH, h7.2, ?_⟩
    intro n hn
    rcases (adj_south g i j hwf hi hj h7.1.2).2 with e | e
    · rw [e] at hn; cases hn
    · rw [e] at hn
      cases hn
      refine ⟨?_, ?_⟩
      · dsimp only
        rw [Nat.zero_mul, Nat.zero_add]
        exact Nat.le_add_left _ _
      · intro hc
        rw [hc] at h
        exact hshape _ h
  simp only [h7, Bool.false_eq_true, ↓reduceIte] at h
  by_cases h8 : (game_is_wrapping g && j == (game_nb_cols g + 4294967295) % 4294967296 &&
      game_check_edge g i j direction.EAST == edge_status.MISMATCH) = true
  · simp only [h8, ↓reduceIte, Option.some.injEq] at h
    simp only [Bool.and_eq_true, beq_iff_eq] at h8
    refine ⟨direction.EAST, h8.2, ?_⟩
    intro n hn
    rcases (adj_east g i j hwf hi hj h8.1.2).2 with e | e
    · rw [e] at hn; cases hn
    · rw [e] at hn
      cases hn
      refine ⟨?_, ?_⟩
      · dsimp only
        omega
      · intro hc
        rw [hc] at h
        exact hshape _ h
  simp only [h8, Bool.false_eq_true, ↓reduceIte] at h
  cases h

/-- C34.  Mismatch-based pruning is sound.  Let `isMismatch` be called on a
valid working grid `g` at the cell `(i, j)` whose orientation in `g` is the
tried orientation `d`, and let one of its MISMATCH checks apply
(`mismatch_check g i j = some clear`).  Then `isMismatch` returns true, with
the bit of `d` cleared in the mask of `(i, j)` exactly when `clear` is true;
no orientation assignment of the shapes of `g` that agrees with `g` on every
cell up to and including `(i, j)` in row-major order is well paired; and when
`clear` is true no orientation assignment that has the orientation `d` at
`(i, j)` is well paired, whatever the orientations of the other cells. -/
theorem mismatch_pruning_sound (g : game) (i j : Nat) (d : direction) (t : List Nat)
    (clear : Bool) (hwf : game_wf g) (hi : i < game_nb_rows g) (hj : j < game_nb_cols g)
    (hd : game_get_piece_orientation g i j = d) (hcheck : mismatch_check g i j = some clear) :
    isMismatch g i j d t = (true, if clear then clear_dir g i j d t else t) ∧
    (∀ g2, same_shapes g g2 →
      (∀ i2 j2, i2 < game_nb_rows g → j2 < game_nb_cols g →
        i2 * game_nb_cols g + j2 ≤ i * game_nb_cols g + j →
        game_get_piece_orientation g2 i2 j2 = game_get_piece_orientation g i2 j2) →
      game_is_well_paired g2 = false) ∧
    (clear = true → ∀ g2, same_shapes g g2 → game_get_piece_orientation g2 i j = d →
      game_is_well_paired g2 = false) := by
  obtain ⟨D, hm, hn⟩ := mismatch_check_cases g i j clear hwf hi hj hcheck
  refine ⟨?_, ?_, ?_⟩
  · rw [isMismatch_eq, hcheck]
  · intro g2 hs hagree
    apply mismatch_transfer g g2 i j D hs hi hj hm (hagree i j hi hj (Nat.le_refl _))
    intro n hadj
    obtain ⟨hn1, hn2⟩ := adj_in_range g i j n.1 n.2 D hadj
    exact Or.inl (hagree n.1 n.2 hn1 hn2 (hn n hadj).1)
  · intro hc g2 hs ho
    apply mismatch_transfer g g2 i j D hs hi hj hm (by rw [ho, hd])
    intro n hadj
    exact Or.inr ((hn n hadj).2 hc)

/-- Witness of C34 on the grid `grid_2x3`: the Corner at `(0, 0)` points east
and south; turned north it has a half-edge toward the border. -/
theorem mismatch_pruning_sound_witness :
    game_wf (game_set_piece_orientation grid_2x3 0 0 direction.NORTH) ∧
    mismatch_check (game_set_piece_orientation grid_2x3 0 0 direction.NORTH) 0 0 = some true ∧
    isMismatch (game_set_piece_orientation grid_2x3 0 0 direction.NORTH) 0 0 direction.NORTH
      [15, 15, 15, 3, 1, 1] = (true, [14, 15, 15, 3, 1, 1]) :=
  ⟨by decide, by decide,
    (mismatch_pruning_sound (game_set_piece_orientation grid_2x3 0 0 direction.NORTH) 0 0
      direction.NORTH [15, 15, 15, 3, 1, 1] true (by decide) (by decide) (by decide)
      (by decide) (by decide)).1⟩

/-! ## Completeness of the search -/

theorem solve_rec_succ (fuel : Nat) (g : game) (pos size : Nat) (count : Option Nat)
    (t_shape : List Nat) :
    solve_rec (fuel + 1) g pos size count t_shape =
      if (pos == size) = true then
        { ret := game_won g
          g := g
          count := if game_won g = true then count.map (fun c => (c + 1) % 4294967296) else count
          t_shape := t_shape }
      else
        all_dirs.foldl
          (solve_step fuel size pos (game_nb_cols g) (pos / game_nb_cols g) (pos % game_nb_cols g))
          { ret := false, g := g, count := count, t_shape := t_shape } := by
  rfl

theorem orientation_assignments_length (S : List shape) (os : List direction)
    (h : os ∈ orientation_assignments S) : os.length = S.length := by
  induction S generalizing os with
  | nil =>
    simp only [orientation_assignments, List.mem_singleton] at h
    rw [h]
    rfl
  | cons s rest ih =>
    simp only [orientation_assignments, List.mem_flatMap, List.mem_map] at h
    obtain ⟨o, _, os2, h2, rfl⟩ := h
    simp only [List.length_cons, ih os2 h2]

theorem normal_orientation_mem (s : shape) (o : direction) :
    normal_orientation s o ∈ distinct_orientations s := by
  cases s <;> cases o <;> decide

theorem normal_orientation_code (s : shape) (o : direction) :
    _encode_shape s (normal_orientation s o) = _encode_shape s o := by
  cases s <;> cases o <;> rfl

theorem zipWith_normal_mem (S : List shape) (os : List direction) (h : os.length = S.length) :
    List.zipWith normal_orientation S os ∈ orientation_assignments S := by
  induction S generalizing os with
  | nil => simp [orientation_assignments]
  | cons s rest ih =>
    cases os with
    | nil => simp at h
    | cons o os2 =>
      simp only [List.zipWith_cons_cons, orientation_assignments, List.mem_flatMap, List.mem_map]
      exact ⟨normal_orientation s o, normal_orientation_mem s o, _,
        ih os2 (by simpa using h), rfl⟩

theorem filter_flatMap_length {α β : Type} (L : List α) (f : α → List β) (p : β → Bool) :
    ((L.flatMap f).filter p).length = (L.map fun x => ((f x).filter p).length).sum := by
  induction L with
  | nil => rfl
  | cons x L ih =>
    rw [List.flatMap_cons, List.filter_append, List.length_append, ih, List.map_cons,
      List.sum_cons]

theorem take_succ_set {α : Type} (l : List α) (k : Nat) (a : α) (hk : k < l.length) :
    (l.set k a).take (k + 1) = l.take k ++ [a] := by
  rw [List.take_succ, List.set_take, List.set_eq_of_length_le (by simp)]
  rw [List.getElem?_set, if_pos rfl, if_pos hk]
  rfl

/-- The completions at a leaf. -/
theorem completions_leaf (g : game) (pos : Nat) (hs : g.tab_shape.length = pos)
    (hd : g.tab_direction.length = pos) :
    completions g pos = if game_won g = true then 1 else 0 := by
  unfold completions
  rw [List.drop_of_length_le (by omega), List.take_of_length_le (by omega)]
  simp only [orientation_assignments, List.append_nil]
  cases hw : game_won g <;> simp [hw]

/-- The completions at an inner node, according to the orientation of the
next cell. -/
theorem completions_node (g : game) (pos : Nat) (hs : pos < g.tab_shape.length)
    (hd : pos < g.tab_direction.length) :
    completions g pos =
      ((distinct_orientations (g.tab_shape.getD pos shape.EMPTY)).map fun o =>
        completions { g with tab_direction := g.tab_direction.set pos o } (pos + 1)).sum := by
  unfold completions
  rw [List.drop_eq_getElem_cons hs, List.getD_eq_getElem _ _ hs]
  simp only [orientation_assignments]
  rw [filter_flatMap_length]
  congr 1
  apply List.map_congr_left
  intro o _
  rw [List.filter_map, List.length_map]
  congr 1
  apply List.filter_congr
  intro os _
  simp only [Function.comp]
  rw [take_succ_set _ _ _ hd, List.append_assoc]
  rfl

theorem completions_congr (g1 g2 : game) (pos : Nat) (hH : g1.HEIGHT = g2.HEIGHT)
    (hW : g1.WIDTH = g2.WIDTH) (hwr : g1.is_wrapping = g2.is_wrapping)
    (hs : g1.tab_shape = g2.tab_shape)
    (hd : g1.tab_direction.take pos = g2.tab_direction.take pos) :
    completions g1 pos = completions g2 pos := by
  unfold completions
  rw [hs, hd]
  congr 1
  apply List.filter_congr
  intro os _
  exact game_won_congr _ _ hH hW hwr rfl rfl

/-- A completion of the first `pos` orientations of `g` is a winning
assignment that has these orientations. -/
theorem completions_pos (g : game) (pos : Nat) (hs : g.tab_shape.length = g.tab_direction.length)
    (hpos : pos ≤ g.tab_direction.length) (h : 0 < completions g pos) :
    ∃ gw, winning_assignment g gw ∧ gw.tab_direction.take pos = g.tab_direction.take pos := by
  unfold completions at h
  obtain ⟨os, hos⟩ := List.exists_mem_of_length_pos h
  rw [List.mem_filter] at hos
  have hlen := orientation_assignments_length _ _ hos.1
  refine ⟨{ g with tab_direction := g.tab_direction.take pos ++ os },
    ⟨⟨rfl, rfl, rfl, rfl, ?_⟩, hos.2⟩, ?_⟩
  · simp only [List.length_append, List.length_take, List.length_drop] at hlen ⊢
    omega
  · exact List.take_left' (by simp only [List.length_take]; omega)

theorem completions_zero (g : game) (pos : Nat)
    (hs : g.tab_shape.length = g.tab_direction.length) (hpos : pos ≤ g.tab_direction.length)
    (h : ∀ gw, winning_assignment g gw →
      gw.tab_direction.take pos ≠ g.tab_direction.take pos) :
    completions g pos = 0 := by
  rcases Nat.eq_zero_or_pos (completions g pos) with h0 | h0
  · exact h0
  · obtain ⟨gw, h1, h2⟩ := completions_pos g pos hs hpos h0
    exact absurd h2 (h gw h1)


theorem same_shapes_wf (g g2 : game) (hwf : game_wf g) (hs : same_shapes g g2) : game_wf g2 := by
  obtain ⟨a, b, _, c, d⟩ := hs
  obtain ⟨w1, w2, w3, w4⟩ := hwf
  unfold game_wf
  rw [a, b, c, d]
  exact ⟨w1, w2, w3, w4⟩

theorem same_shapes_symm (g g2 : game) (hs : same_shapes g g2) : same_shapes g2 g :=
  ⟨hs.1.symm, hs.2.1.symm, hs.2.2.1.symm, hs.2.2.2.1.symm, hs.2.2.2.2.symm⟩

theorem same_shapes_trans (g1 g2 g3 : game) (h12 : same_shapes g1 g2)
    (h23 : same_shapes g2 g3) : same_shapes g1 g3 :=
  ⟨h23.1.trans h12.1, h23.2.1.trans h12.2.1, h23.2.2.1.trans h12.2.2.1,
    h23.2.2.2.1.trans h12.2.2.2.1, h23.2.2.2.2.trans h12.2.2.2.2⟩

theorem nb_non_empty_same (g g2 : game) (hs : same_shapes g g2) :
    nb_non_empty g2 = nb_non_empty g := by
  have h : game_get_piece_shape g2 = game_get_piece_shape g := by
    funext i j
    exact same_shapes_shape g g2 hs i j
  unfold nb_non_empty game_nb_rows game_nb_cols
  rw [h, hs.1, hs.2.1]

/-- In a winning assignment of a grid of at least 3 pieces, an Endpoint does
not point to an adjacent Endpoint. -/
theorem endpoint_not_toward_endpoint (gw : game) (hwf : game_wf gw) (i j : Nat) (d : direction)
    (n : Nat × Nat) (hi : i < game_nb_rows gw) (hj : j < game_nb_cols gw)
    (h3 : 3 ≤ nb_non_empty gw) (hwon : game_won gw = true)
    (hs : game_get_piece_shape gw i j = shape.ENDPOINT)
    (hadj : game_get_ajacent_square gw i j d = some n)
    (hsn : game_get_piece_shape gw n.1 n.2 = shape.ENDPOINT) :
    game_get_piece_orientation gw i j ≠ d := by
  intro ho
  unfold game_won at hwon
  rw [Bool.and_eq_true] at hwon
  obtain ⟨hcon, hwp⟩ := hwon
  rw [well_paired_iff] at hwp
  have hne := hwp i j hi hj d
  rw [check_edge_mismatch_some gw i j d n hadj] at hne
  have he1 : game_has_half_edge gw i j d = true := by
    unfold game_has_half_edge
    rw [hs, ho]
    simp
  have he2 := hne.1 he1
  have hon := endpoint_half_edge gw n.1 n.2 _ hsn he2
  have hback := (adj_symm gw i j n.1 n.2 d hwf.1 hwf.2.1 hi hj hadj).2.2
  have hfalse := facing_endpoints_not_connected gw hwf (i, j) n ⟨hi, hj⟩ hs hsn
    (by dsimp only; rw [ho]; exact hadj) (by rw [← hon]; exact hback) h3
  rw [hfalse] at hcon
  cases hcon

theorem facing_check_sound (g gw : game) (i j : Nat) (d : direction) (hwf : game_wf g)
    (hi : i < game_nb_rows g) (hj : j < game_nb_cols g) (h3 : 3 ≤ nb_non_empty g)
    (hw : winning_assignment g gw) (hf : facing_check g i j d = true) :
    game_get_piece_orientation gw i j ≠ d := by
  obtain ⟨hs, hwon⟩ := hw
  unfold facing_check at hf
  dsimp only at hf
  split at hf
  · rename_i hA
    split at hf
    · rename_i hB
      simp only [Bool.and_eq_true, beq_iff_eq, decide_eq_true_eq] at hA hB
      obtain ⟨⟨hsh, _⟩, hm⟩ := hA
      cases hadj : game_get_ajacent_square g i j d with
      | none =>
        unfold game_check_edge at hm
        rw [hadj] at hm
        simp only [Bool.and_false, Bool.false_eq_true, ↓reduceIte, Bool.or_false] at hm
        split at hm <;> cases hm
      | some n =>
        rw [hadj] at hB
        simp only [Option.getD_some] at hB
        have hwfw := same_shapes_wf g gw hwf hs
        apply endpoint_not_toward_endpoint gw hwfw i j d n
          (by unfold game_nb_rows; rw [hs.1]; exact hi)
          (by unfold game_nb_cols; rw [hs.2.1]; exact hj)
          (by rw [nb_non_empty_same g gw hs]; exact h3) hwon
          (by rw [same_shapes_shape g gw hs]; exact hsh)
          (by rw [adj_congr gw g hs.1 hs.2.1 hs.2.2.1]; exact hadj)
          (by rw [same_shapes_shape g gw hs]; exact hB)
    · cases hf
  · cases hf

theorem directions_and_clear (x : Nat) (d e : direction) :
    (x &&& (255 - directions d)) &&& directions e =
      if e = d then 0 else x &&& directions e := by
  have h : (255 - directions d) &&& directions e = if e = d then 0 else directions e := by
    cases d <;> cases e <;> decide
  rw [Nat.land_assoc, h]
  split
  · exact Nat.and_zero x
  · rfl

theorem clear_dir_getD_other (g : game) (i j : Nat) (d : direction) (t : List Nat) (k : Nat)
    (hk : i * game_nb_cols g + j ≠ k) : (clear_dir g i j d t).getD k 0 = t.getD k 0 := by
  unfold clear_dir
  exact getD_set_other _ _ _ _ _ hk

theorem clear_dir_getD_same (g : game) (i j : Nat) (d : direction) (t : List Nat) :
    (clear_dir g i j d t).getD (i * game_nb_cols g + j) 0 =
      t.getD (i * game_nb_cols g + j) 0 &&& (255 - directions d) := by
  unfold clear_dir
  by_cases hk : i * game_nb_cols g + j < t.length
  · exact getD_set_same _ _ _ _ hk
  · rw [List.set_eq_of_length_le (by omega), List.getD_eq_default _ _ (by omega)]
    simp

theorem getD_of_take_eq {α : Type} (l1 l2 : List α) (p k : Nat) (dflt : α) (hk : k < p)
    (h : l1.take p = l2.take p) : l1.getD k dflt = l2.getD k dflt := by
  have h1 : (l1.take p)[k]? = (l2.take p)[k]? := by rw [h]
  rw [List.getElem?_take, List.getElem?_take, if_pos hk, if_pos hk] at h1
  rw [List.getD_eq_getElem?_getD, List.getD_eq_getElem?_getD, h1]

/-- The mask of a cell after `clear_dir`, when no winning assignment has the
orientation `d` at the cell. -/
theorem mask_ok_clear (g0 g : game) (i j : Nat) (d : direction) (t : List Nat)
    (hW : g.WIDTH = g0.WIDTH) (hok : mask_ok g0 t)
    (hno : ∀ gw, winning_assignment g0 gw →
      gw.tab_direction.getD (i * g0.WIDTH + j) direction.NORTH ≠ d) :
    mask_ok g0 (clear_dir g i j d t) := by
  intro k e hk
  obtain ⟨h1, h2⟩ := hok k e hk
  by_cases hidx : i * game_nb_cols g + j = k
  · rw [← hidx, clear_dir_getD_same, directions_and_clear]
    rw [← hidx] at h1 h2
    by_cases hed : e = d
    · rw [if_pos hed]
      refine ⟨fun h => absurd rfl h, ?_⟩
      intro _ _ gw hw
      rw [hed]
      have := hno gw hw
      unfold game_nb_cols
      rw [hW]
      exact this
    · rw [if_neg hed]
      exact ⟨h1, h2⟩
  · rw [clear_dir_getD_other g i j d t k hidx]
    exact ⟨h1, h2⟩

/-- What a call of `isMismatch` by `solve_rec` means for the winning
assignments, on a grid of at least 3 pieces: the invariant of the masks is
kept, and when the call returns true no winning assignment has the
orientations of the working game up to the cell `(i, j)`. -/
theorem isMismatch_sound (g0 g : game) (i j : Nat) (d : direction) (t : List Nat)
    (hwf : game_wf g0) (hs : same_shapes g0 g) (h3 : 3 ≤ nb_non_empty g0)
    (hi : i < game_nb_rows g0) (hj : j < game_nb_cols g0)
    (hd : game_get_piece_orientation g i j = d) :
    (mask_ok g0 t → mask_ok g0 (isMismatch g i j d t).2) ∧
    ((isMismatch g i j d t).1 = true → ∀ gw, winning_assignment g0 gw →
      gw.tab_direction.take (i * g0.WIDTH + j + 1) ≠
        g.tab_direction.take (i * g0.WIDTH + j + 1)) := by
  have hwfg := same_shapes_wf g0 g hwf hs
  have hig : i < game_nb_rows g := by unfold game_nb_rows; rw [hs.1]; exact hi
  have hjg : j < game_nb_cols g := by unfold game_nb_cols; rw [hs.2.1]; exact hj
  have h3g : 3 ≤ nb_non_empty g := by rw [nb_non_empty_same g0 g hs]; exact h3
  have hwin : ∀ gw, winning_assignment g0 gw → winning_assignment g gw := by
    intro gw hw
    exact ⟨same_shapes_trans g g0 gw (same_shapes_symm g0 g hs) hw.1, hw.2⟩
  have hidx : g0.WIDTH * i + j = i * g0.WIDTH + j := by rw [Nat.mul_comm]
  -- orientation of a winning assignment at the cell, read in the array
  have hsz := game_wf_size g0 hwf
  have horient : ∀ gw, winning_assignment g0 gw → ∀ i2 j2, i2 < g0.HEIGHT → j2 < g0.WIDTH →
      game_get_piece_orientation gw i2 j2 =
        gw.tab_direction.getD (i2 * g0.WIDTH + j2) direction.NORTH := by
    intro gw hw i2 j2 h1 h2
    unfold game_get_piece_orientation game_nb_cols
    rw [hw.1.2.1, cell_idx_mod g0 hsz i2 j2 h1 h2, Nat.mul_comm]
  have horientg : ∀ i2 j2, i2 < g0.HEIGHT → j2 < g0.WIDTH →
      game_get_piece_orientation g i2 j2 =
        g.tab_direction.getD (i2 * g0.WIDTH + j2) direction.NORTH := by
    intro i2 j2 h1 h2
    unfold game_get_piece_orientation game_nb_cols
    rw [hs.2.1, cell_idx_mod g0 hsz i2 j2 h1 h2, Nat.mul_comm]
  have hnr : ∀ (D : direction) (n : Nat × Nat), game_get_ajacent_square g i j D = some n →
      n.1 < g0.HEIGHT ∧ n.2 < g0.WIDTH := by
    intro D n hadj
    have := adj_in_range g i j n.1 n.2 D hadj
    rw [hs.1, hs.2.1] at this
    exact this
  rw [isMismatch_eq]
  cases hmc : mismatch_check g i j with
  | some clear =>
    obtain ⟨D, hm, hn⟩ := mismatch_check_cases g i j clear hwfg hig hjg hmc
    dsimp only
    constructor
    · intro hok
      cases clear with
      | false => simpa using hok
      | true =>
        simp only [↓reduceIte]
        apply mask_ok_clear g0 g i j d t hs.2.1 hok
        intro gw hw ho
        have hw2 := hwin gw hw
        have hwp : game_is_well_paired gw = false := by
          apply mismatch_transfer g gw i j D hw2.1 hig hjg hm
          · rw [horient gw hw i j hi hj, ho, hd]
          · intro n hadj
            exact Or.inr ((hn n hadj).2 rfl)
        have hwon := hw.2
        unfold game_won at hwon
        rw [hwp, Bool.and_false] at hwon
        cases hwon
    · intro _ gw hw htake
      have hw2 := hwin gw hw
      have hwp : game_is_well_paired gw = false := by
        apply mismatch_transfer g gw i j D hw2.1 hig hjg hm
        · rw [horient gw hw i j hi hj, horientg i j hi hj]
          exact getD_of_take_eq _ _ _ _ _ (Nat.lt_succ_self _) htake
        · intro n hadj
          left
          rw [horient gw hw n.1 n.2 (hnr D n hadj).1 (hnr D n hadj).2,
            horientg n.1 n.2 (hnr D n hadj).1 (hnr D n hadj).2]
          apply getD_of_take_eq _ _ _ _ _ _ htake
          have := (hn n hadj).1
          unfold game_nb_cols at this
          rw [hs.2.1] at this
          omega
      have hwon := hw.2
      unfold game_won at hwon
      rw [hwp, Bool.and_false] at hwon
      cases hwon
  | none =>
    dsimp only
    cases hfc : facing_check g i j d with
    | false =>
      simp only [Bool.false_eq_true, ↓reduceIte]
      exact ⟨fun h => h, fun h => by cases h⟩
    | true =>
      simp only [↓reduceIte]
      have hno : ∀ gw, winning_assignment g0 gw → game_get_piece_orientation gw i j ≠ d :=
        fun gw hw => facing_check_sound g gw i j d hwfg hig hjg h3g (hwin gw hw) hfc
      constructor
      · intro hok
        apply mask_ok_clear g0 g i j d t hs.2.1 hok
        intro gw hw
        rw [← horient gw hw i j hi hj]
        exact hno gw hw
      · intro _ gw hw htake
        apply hno gw hw
        rw [horient gw hw i j hi hj, ← hd, horientg i j hi hj]
        exact getD_of_take_eq _ _ _ _ _ (Nat.lt_succ_self _) htake


theorem take_of_take_succ {α : Type} (l1 l2 : List α) (p : Nat)
    (h : l1.take (p + 1) = l2.take (p + 1)) : l1.take p = l2.take p := by
  have h2 : (l1.take (p + 1)).take p = (l2.take (p + 1)).take p := by rw [h]
  rw [List.take_take, List.take_take, Nat.min_eq_left (Nat.le_succ p)] at h2
  exact h2

theorem take_set_of_le {α : Type} (l : List α) (p k : Nat) (a : α) (h : p ≤ k) :
    (l.set k a).take p = l.take p := by
  rw [List.set_take, List.set_eq_of_length_le (by simp only [List.length_take]; omega)]

/-- One iteration of the loop of `solve_rec` at the cell `(i, j)` of index
`pos`, from a state that has not returned, when the recursive calls do what
`search_ok` says. -/
theorem solve_step_ok (g0 g : game) (fuel pos i j : Nat) (st : solve_state) (d : direction)
    (hwf : game_wf g0) (h3 : 3 ≤ nb_non_empty g0)
    (hi : i < g0.HEIGHT) (hj : j < g0.WIDTH) (hpos : i * g0.WIDTH + j = pos)
    (hsg : same_shapes g0 g)
    (hrec : ∀ g1 count t1, same_shapes g0 g1 → mask_ok g0 t1 →
      search_ok g0 g1 (pos + 1) count
        (solve_rec fuel g1 (pos + 1) (g0.HEIGHT * g0.WIDTH) count t1))
    (hs : same_shapes g0 st.g) (hok : mask_ok g0 st.t_shape)
    (htake : st.g.tab_direction.take pos = g.tab_direction.take pos)
    (hret : st.ret = false) :
    same_shapes g0 (solve_step fuel (g0.HEIGHT * g0.WIDTH) pos g0.WIDTH i j st d).g ∧
    mask_ok g0 (solve_step fuel (g0.HEIGHT * g0.WIDTH) pos g0.WIDTH i j st d).t_shape ∧
    (solve_step fuel (g0.HEIGHT * g0.WIDTH) pos g0.WIDTH i j st d).g.tab_direction.take pos =
      g.tab_direction.take pos ∧
    (st.count = none →
      (solve_step fuel (g0.HEIGHT * g0.WIDTH) pos g0.WIDTH i j st d).count = none ∧
      (d ∈ distinct_orientations (g0.tab_shape.getD pos shape.EMPTY) →
        0 < completions (game_set_piece_orientation g i j d) (pos + 1) →
        (solve_step fuel (g0.HEIGHT * g0.WIDTH) pos g0.WIDTH i j st d).ret = true)) ∧
    (∀ c, st.count = some c → c < 4294967296 →
      (solve_step fuel (g0.HEIGHT * g0.WIDTH) pos g0.WIDTH i j st d).ret = false ∧
      (solve_step fuel (g0.HEIGHT * g0.WIDTH) pos g0.WIDTH i j st d).count =
        some ((c + (if d ∈ distinct_orientations (g0.tab_shape.getD pos shape.EMPTY) then
          completions (game_set_piece_orientation g i j d) (pos + 1) else 0)) %
            4294967296)) := by
  have hlen0 : g0.tab_direction.length = g0.HEIGHT * g0.WIDTH := hwf.2.2.2.1
  have hslen0 : g0.tab_shape.length = g0.HEIGHT * g0.WIDTH := hwf.2.2.1
  have hposlt : pos < g0.HEIGHT * g0.WIDTH := by
    rw [← hpos, Nat.mul_comm i]; exact idx_lt _ _ _ _ hi hj
  have hidx : ∀ a : game, same_shapes g0 a → (a.WIDTH * i + j) % 4294967296 = pos := by
    intro a ha
    rw [ha.2.1, cell_idx_mod g0 (game_wf_size g0 hwf) i j hi hj, Nat.mul_comm]; exact hpos
  have hlen : ∀ a : game, same_shapes g0 a → pos < a.tab_direction.length := by
    intro a ha
    rw [ha.2.2.2.2, hlen0]; exact hposlt
  -- the working game with the orientation `d` at the cell
  have hs1 : same_shapes g0 (game_set_piece_orientation st.g i j d) := by
    obtain ⟨a1, a2, a3, a4, a5⟩ := hs
    refine ⟨a1, a2, a3, a4, ?_⟩
    simp only [game_set_piece_orientation, List.length_set]
    exact a5
  have hd1 : game_get_piece_orientation (game_set_piece_orientation st.g i j d) i j = d :=
    orientation_set_orientation st.g i j d (by rw [hidx st.g hs]; exact hlen st.g hs)
  have htd1 : (game_set_piece_orientation st.g i j d).tab_direction =
      st.g.tab_direction.set pos d := by
    unfold game_set_piece_orientation game_nb_cols
    rw [hidx st.g hs]
  have htdg : (game_set_piece_orientation g i j d).tab_direction =
      g.tab_direction.set pos d := by
    unfold game_set_piece_orientation game_nb_cols
    rw [hidx g hsg]
  have htake1 : (game_set_piece_orientation st.g i j d).tab_direction.take pos =
      g.tab_direction.take pos := by
    rw [htd1, take_set_of_le _ _ _ _ (Nat.le_refl _)]; exact htake
  have htake1s : (game_set_piece_orientation st.g i j d).tab_direction.take (pos + 1) =
      (game_set_piece_orientation g i j d).tab_direction.take (pos + 1) := by
    rw [htd1, htdg, take_succ_set _ _ _ (hlen st.g hs), take_succ_set _ _ _ (hlen g hsg), htake]
  have hcomp1 : completions (game_set_piece_orientation st.g i j d) (pos + 1) =
      completions (game_set_piece_orientation g i j d) (pos + 1) := by
    apply completions_congr _ _ _ _ _ _ _ htake1s
    · exact hs.1.trans hsg.1.symm
    · exact hs.2.1.trans hsg.2.1.symm
    · exact hs.2.2.1.trans hsg.2.2.1.symm
    · exact hs.2.2.2.1.trans hsg.2.2.2.1.symm
  have hwin1 : ∀ gw, winning_assignment (game_set_piece_orientation st.g i j d) gw →
      winning_assignment g0 gw :=
    fun gw hw => ⟨same_shapes_trans g0 _ gw hs1 hw.1, hw.2⟩
  have hsl1 : (game_set_piece_orientation st.g i j d).tab_shape.length =
      (game_set_piece_orientation st.g i j d).tab_direction.length := by
    rw [hs1.2.2.2.1, hs1.2.2.2.2, hslen0, hlen0]
  have hle1 : pos + 1 ≤ (game_set_piece_orientation st.g i j d).tab_direction.length := by
    rw [hs1.2.2.2.2, hlen0]; omega
  obtain ⟨hsound1, hsound2⟩ := isMismatch_sound g0 (game_set_piece_orientation st.g i j d) i j d
    st.t_shape hwf hs1 h3 hi hj hd1
  rw [hpos] at hsound2
  unfold solve_step
  rw [hret]
  simp only [Bool.false_eq_true, ↓reduceIte]
  rw [hpos]
  by_cases hbit : (st.t_shape.getD pos 0 &&& directions d != 0) = true
  · -- the orientation is tried
    rw [if_pos hbit]
    have hmem : d ∈ distinct_orientations (g0.tab_shape.getD pos shape.EMPTY) := by
      apply (hok pos d (by rw [hslen0]; exact hposlt)).1
      simpa using hbit
    cases hmm : (isMismatch (game_set_piece_orientation st.g i j d) i j d st.t_shape).1 with
    | false =>
      simp only [Bool.not_false, ↓reduceIte]
      obtain ⟨r1, r2, r3, r4⟩ := hrec (game_set_piece_orientation st.g i j d) st.count
        (isMismatch (game_set_piece_orientation st.g i j d) i j d st.t_shape).2 hs1
        (hsound1 hok)
      have hfr := solve_rec_same_frame fuel (game_set_piece_orientation st.g i j d) (pos + 1)
        (g0.HEIGHT * g0.WIDTH) st.count
        (isMismatch (game_set_piece_orientation st.g i j d) i j d st.t_shape).2
      refine ⟨?_, r1, ?_, ?_, ?_⟩
      · obtain ⟨f1, f2, f3, f4, f5, _, _⟩ := hfr
        exact ⟨f1.trans hs1.1, f2.trans hs1.2.1, f3.trans hs1.2.2.1, f4.trans hs1.2.2.2.1,
          f5.trans hs1.2.2.2.2⟩
      · exact (take_of_take_succ _ _ _ r2).trans htake1
      · intro hc
        obtain ⟨k1, k2⟩ := r3 hc
        refine ⟨k1, ?_⟩
        intro _ hpos2
        rw [k1, k2 (by rw [hcomp1]; exact hpos2)]
        rfl
      · intro c hc hcM
        have k := r4 c hc hcM
        rw [k, if_pos hmem, hcomp1]
        exact ⟨by simp, rfl⟩
    | true =>
      simp only [Bool.not_true, Bool.false_eq_true, ↓reduceIte]
      have hzero : completions (game_set_piece_orientation g i j d) (pos + 1) = 0 := by
        rw [← hcomp1]
        apply completions_zero _ _ hsl1 hle1
        intro gw hw
        exact hsound2 hmm gw (hwin1 gw hw)
      refine ⟨hs1, hsound1 hok, htake1, ?_, ?_⟩
      · intro hc
        refine ⟨hc, ?_⟩
        intro _ hpos2
        rw [hzero] at hpos2
        exact absurd hpos2 (Nat.lt_irrefl 0)
      · intro c hc hcM
        refine ⟨trivial, ?_⟩
        rw [hc, hzero]
        simp only [ite_self, Nat.add_zero, Nat.mod_eq_of_lt hcM]
  · -- the bit of the orientation is cleared
    rw [if_neg hbit]
    have hbit0 : st.t_shape.getD pos 0 &&& directions d = 0 := by simpa using hbit
    have hno := (hok pos d (by rw [hslen0]; exact hposlt)).2 hbit0
    refine ⟨hs, hok, htake, ?_, ?_⟩
    · intro hc
      refine ⟨hc, ?_⟩
      intro hmem hpos2
      exfalso
      rw [← hcomp1] at hpos2
      obtain ⟨gw, hw, hgw⟩ := completions_pos _ _ hsl1 hle1 hpos2
      apply hno hmem gw (hwin1 gw hw)
      rw [getD_of_take_eq _ _ _ pos direction.NORTH (Nat.lt_succ_self pos) hgw, htd1]
      exact getD_set_same _ _ _ _ (hlen st.g hs)
    · intro c hc hcM
      refine ⟨hret, ?_⟩
      have hzero : (if d ∈ distinct_orientations (g0.tab_shape.getD pos shape.EMPTY) then
          completions (game_set_piece_orientation g i j d) (pos + 1) else 0) = 0 := by
        split
        · rename_i hmem
          rcases Nat.eq_zero_or_pos
            (completions (game_set_piece_orientation g i j d) (pos + 1)) with h0 | hpos2
          · exact h0
          · exfalso
            rw [← hcomp1] at hpos2
            obtain ⟨gw, hw, hgw⟩ := completions_pos _ _ hsl1 hle1 hpos2
            apply hno hmem gw (hwin1 gw hw)
            rw [getD_of_take_eq _ _ _ pos direction.NORTH (Nat.lt_succ_self pos) hgw, htd1]
            exact getD_set_same _ _ _ _ (hlen st.g hs)
        · rfl
      rw [hc, hzero, Nat.add_zero, Nat.mod_eq_of_lt hcM]

/-- The loop of `solve_rec` over the directions of `L`, from any state. -/
theorem solve_loop_ok (g0 g : game) (fuel pos i j : Nat)
    (hwf : game_wf g0) (h3 : 3 ≤ nb_non_empty g0)
    (hi : i < g0.HEIGHT) (hj : j < g0.WIDTH) (hpos : i * g0.WIDTH + j = pos)
    (hsg : same_shapes g0 g)
    (hrec : ∀ g1 count t1, same_shapes g0 g1 → mask_ok g0 t1 →
      search_ok g0 g1 (pos + 1) count
        (solve_rec fuel g1 (pos + 1) (g0.HEIGHT * g0.WIDTH) count t1))
    (L : List direction) (st : solve_state)
    (hs : same_shapes g0 st.g) (hok : mask_ok g0 st.t_shape)
    (htake : st.g.tab_direction.take pos = g.tab_direction.take pos) :
    mask_ok g0 (L.foldl (solve_step fuel (g0.HEIGHT * g0.WIDTH) pos g0.WIDTH i j) st).t_shape ∧
    (L.foldl (solve_step fuel (g0.HEIGHT * g0.WIDTH) pos g0.WIDTH i j) st).g.tab_direction.take
        pos = g.tab_direction.take pos ∧
    (st.count = none →
      (L.foldl (solve_step fuel (g0.HEIGHT * g0.WIDTH) pos g0.WIDTH i j) st).count = none ∧
      (st.ret = true →
        (L.foldl (solve_step fuel (g0.HEIGHT * g0.WIDTH) pos g0.WIDTH i j) st).ret = true) ∧
      ((∃ o ∈ L, o ∈ distinct_orientations (g0.tab_shape.getD pos shape.EMPTY) ∧
          0 < completions (game_set_piece_orientation g i j o) (pos + 1)) →
        (L.foldl (solve_step fuel (g0.HEIGHT * g0.WIDTH) pos g0.WIDTH i j) st).ret = true)) ∧
    (∀ c, st.count = some c → c < 4294967296 → st.ret = false →
      (L.foldl (solve_step fuel (g0.HEIGHT * g0.WIDTH) pos g0.WIDTH i j) st).count =
        some ((c + (L.map fun d =>
          if d ∈ distinct_orientations (g0.tab_shape.getD pos shape.EMPTY) then
            completions (game_set_piece_orientation g i j d) (pos + 1) else 0).sum) %
              4294967296)) := by
  induction L generalizing st with
  | nil =>
    refine ⟨hok, htake, ?_, ?_⟩
    · intro hc
      refine ⟨hc, fun h => h, ?_⟩
      rintro ⟨o, ho, _⟩
      cases ho
    · intro c hc hcM _
      simp only [List.foldl_nil, List.map_nil, List.sum_nil, Nat.add_zero, Nat.mod_eq_of_lt hcM]
      exact hc
  | cons d L ih =>
    rw [List.foldl_cons]
    cases hret : st.ret with
    | true =>
      have e : solve_step fuel (g0.HEIGHT * g0.WIDTH) pos g0.WIDTH i j st d = st := by
        unfold solve_step
        rw [if_pos hret]
      rw [e]
      obtain ⟨a1, a2, a3, _⟩ := ih st hs hok htake
      refine ⟨a1, a2, ?_, ?_⟩
      · intro hc
        obtain ⟨b1, b2, _⟩ := a3 hc
        exact ⟨b1, fun _ => b2 hret, fun _ => b2 hret⟩
      · intro c _ _ h
        cases h
    | false =>
      obtain ⟨s1, s2, s3, s4, s5⟩ :=
        solve_step_ok g0 g fuel pos i j st d hwf h3 hi hj hpos hsg hrec hs hok htake hret
      obtain ⟨a1, a2, a3, a4⟩ := ih _ s1 s2 s3
      refine ⟨a1, a2, ?_, ?_⟩
      · intro hc
        obtain ⟨t1, t2⟩ := s4 hc
        obtain ⟨b1, b2, b3⟩ := a3 t1
        refine ⟨b1, fun h => absurd h Bool.false_ne_true, ?_⟩
        rintro ⟨o, ho, hmem, hcomp⟩
        rcases List.mem_cons.1 ho with e | ho
        · rw [e] at hmem hcomp
          exact b2 (t2 hmem hcomp)
        · exact b3 ⟨o, ho, hmem, hcomp⟩
      · intro c hc hcM _
        obtain ⟨t1, t2⟩ := s5 c hc hcM
        rw [a4 _ t2 (Nat.mod_lt _ (by decide)) t1, List.map_cons, List.sum_cons]
        congr 1
        omega

theorem sum_distinct_orientations (s : shape) (f : direction → Nat) :
    (all_dirs.map fun d => if d ∈ distinct_orientations s then f d else 0).sum =
      ((distinct_orientations s).map f).sum := by
  cases s <;> simp [all_dirs, distinct_orientations]

/-- The search is complete and counts the winning completions, on a grid of at
least 3 pieces. -/
theorem solve_rec_search_ok (g0 : game) (hwf : game_wf g0) (h3 : 3 ≤ nb_non_empty g0)
    (fuel : Nat) (g : game) (pos : Nat) (count : Option Nat) (t : List Nat)
    (hs : same_shapes g0 g) (hok : mask_ok g0 t) (hpos : pos ≤ g0.HEIGHT * g0.WIDTH)
    (hfuel : g0.HEIGHT * g0.WIDTH - pos < fuel) :
    search_ok g0 g pos count (solve_rec fuel g pos (g0.HEIGHT * g0.WIDTH) count t) := by
  induction fuel generalizing g pos count t with
  | zero => omega
  | succ fuel ih =>
    have hslen : g.tab_shape.length = g0.HEIGHT * g0.WIDTH := by rw [hs.2.2.2.1]; exact hwf.2.2.1
    have hdlen : g.tab_direction.length = g0.HEIGHT * g0.WIDTH := by
      rw [hs.2.2.2.2]; exact hwf.2.2.2.1
    rw [solve_rec_succ]
    by_cases hleaf : (pos == g0.HEIGHT * g0.WIDTH) = true
    · rw [if_pos hleaf]
      have hp : pos = g0.HEIGHT * g0.WIDTH := by simpa using hleaf
      have hcl := completions_leaf g pos (by rw [hslen, hp]) (by rw [hdlen, hp])
      refine ⟨hok, rfl, ?_, ?_⟩
      · intro hc
        dsimp only
        constructor
        · rw [hc]; split <;> rfl
        · intro h
          rw [hcl] at h
          split at h
          · assumption
          · exact absurd h (Nat.lt_irrefl 0)
      · intro c hc hcM
        dsimp only
        rw [hcl, hc]
        split
        · rfl
        · rw [Nat.add_zero, Nat.mod_eq_of_lt hcM]
    · rw [if_neg hleaf]
      have hp : pos ≠ g0.HEIGHT * g0.WIDTH := by simpa using hleaf
      have hlt : pos < g0.HEIGHT * g0.WIDTH := by omega
      have hW : game_nb_cols g = g0.WIDTH := hs.2.1
      have hW0 : 0 < g0.WIDTH := by
        rcases Nat.eq_zero_or_pos g0.WIDTH with h0 | h0
        · rw [h0] at hlt; simp at hlt
        · exact h0
      have hi : pos / g0.WIDTH < g0.HEIGHT := Nat.div_lt_of_lt_mul (by rw [Nat.mul_comm]; exact hlt)
      have hj : pos % g0.WIDTH < g0.WIDTH := Nat.mod_lt _ hW0
      have hidx : pos / g0.WIDTH * g0.WIDTH + pos % g0.WIDTH = pos := Nat.div_add_mod' _ _
      rw [hW]
      have hrec : ∀ g1 count t1, same_shapes g0 g1 → mask_ok g0 t1 →
          search_ok g0 g1 (pos + 1) count
            (solve_rec fuel g1 (pos + 1) (g0.HEIGHT * g0.WIDTH) count t1) :=
        fun g1 count t1 h1 h2 => ih g1 (pos + 1) count t1 h1 h2 (by omega) (by omega)
      obtain ⟨a1, a2, a3, a4⟩ := solve_loop_ok g0 g fuel pos (pos / g0.WIDTH) (pos % g0.WIDTH)
        hwf h3 hi hj hidx hs hrec all_dirs
        { ret := false, g := g, count := count, t_shape := t } hs hok rfl
      have hset : ∀ o, game_set_piece_orientation g (pos / g0.WIDTH) (pos % g0.WIDTH) o =
          { g with tab_direction := g.tab_direction.set pos o } := by
        intro o
        unfold game_set_piece_orientation
        rw [hW, Nat.mul_comm, hidx, Nat.mod_eq_of_lt (Nat.lt_trans hlt (game_wf_size g0 hwf))]
      have hnode := completions_node g pos (by rw [hslen]; exact hlt) (by rw [hdlen]; exact hlt)
      have hshape : g.tab_shape.getD pos shape.EMPTY = g0.tab_shape.getD pos shape.EMPTY := by
        rw [hs.2.2.2.1]
      rw [hshape] at hnode
      refine ⟨a1, a2, ?_, ?_⟩
      · intro hc
        obtain ⟨b1, _, b3⟩ := a3 hc
        refine ⟨b1, ?_⟩
        intro hcomp
        apply b3
        rw [hnode] at hcomp
        by_contra hno
        have hzero : ((distinct_orientations (g0.tab_shape.getD pos shape.EMPTY)).map fun o =>
            completions { g with tab_direction := g.tab_direction.set pos o } (pos + 1)).sum =
            0 := by
          apply List.sum_eq_zero
          intro x hx
          rw [List.mem_map] at hx
          obtain ⟨o, ho, rfl⟩ := hx
          rcases Nat.eq_zero_or_pos
            (completions { g with tab_direction := g.tab_direction.set pos o } (pos + 1))
            with h0 | h0
          · exact h0
          · exfalso
            apply hno
            refine ⟨o, by cases o <;> simp [all_dirs], ho, ?_⟩
            rw [hset]
            exact h0
        rw [hzero] at hcomp
        exact absurd hcomp (Nat.lt_irrefl 0)
      · intro c hc hcM
        rw [a4 c hc hcM rfl, sum_distinct_orientations, hnode]
        simp only [hset]


/-- When the search of `game_solve` returns true, `game_solve` returns true. -/
theorem game_solve_of_search (g : game) (hwf : game_wf g)
    (hret : (solve_rec (g.WIDTH * g.HEIGHT + 1) (game_copy g) 0 (g.WIDTH * g.HEIGHT) none
      (init_Array (game_copy g) (List.replicate (g.WIDTH * g.HEIGHT) 0))).ret = true) :
    (game_solve g).1 = true := by
  rw [game_solve_eq]
  split
  · rfl
  · dsimp only
    have hsound := solve_rec_sound _ _ _ _ _ _ hret
    obtain ⟨f1, f2, f3, f4, f5, f6, f7⟩ := solve_rec_same_frame (g.WIDTH * g.HEIGHT + 1)
      (game_copy g) 0 (g.WIDTH * g.HEIGHT) none
      (init_Array (game_copy g) (List.replicate (g.WIDTH * g.HEIGHT) 0))
    obtain ⟨c1, c2, c3, c4, c5⟩ := game_copy_fields g
    obtain ⟨_, _, w3, w4, w5⟩ := hwf
    rw [Nat.mod_eq_of_lt w5] at c4 c5
    generalize (solve_rec (g.WIDTH * g.HEIGHT + 1) (game_copy g) 0 (g.WIDTH * g.HEIGHT) none
      (init_Array (game_copy g) (List.replicate (g.WIDTH * g.HEIGHT) 0))).g = rg at *
    obtain ⟨k1, k2, k3, _, _, k6, k7⟩ := copy_loop_fields rg g.HEIGHT g.WIDTH g
    have hget := copy_loop_get rg g.HEIGHT g.WIDTH g rfl w3 w4 w5
    have e1 : (copy_loop rg g.HEIGHT g.WIDTH g).tab_shape = rg.tab_shape := by
      apply list_eq_of_cells _ _ shape.EMPTY g.HEIGHT g.WIDTH
      · rw [k6, w3]
      · rw [f4, c4]
      · intro i j hi hj
        have := (hget i j hi hj).1
        simpa [game_get_piece_shape, game_nb_cols, k2, f2, c2,
          idx_mod g.HEIGHT g.WIDTH i j hi hj w5] using this
    have e2 : (copy_loop rg g.HEIGHT g.WIDTH g).tab_direction = rg.tab_direction := by
      apply list_eq_of_cells _ _ direction.NORTH g.HEIGHT g.WIDTH
      · rw [k7, w4]
      · rw [f5, c5]
      · intro i j hi hj
        have := (hget i j hi hj).2
        simpa [game_get_piece_orientation, game_nb_cols, k2, f2, c2,
          idx_mod g.HEIGHT g.WIDTH i j hi hj w5] using this
    have hc := game_won_congr (copy_loop rg g.HEIGHT g.WIDTH g) rg
      (by rw [k1, f1, c1]) (by rw [k2, f2, c2]) (by rw [k3, f3, c3]) e1 e2
    rw [hc, hsound]

theorem game_copy_same_shapes (g : game) (hwf : game_wf g) : same_shapes g (game_copy g) := by
  obtain ⟨c1, c2, c3, c4, c5⟩ := game_copy_fields g
  obtain ⟨_, _, w3, w4, w5⟩ := hwf
  rw [Nat.mod_eq_of_lt w5] at c4 c5
  refine ⟨c1, c2, c3, ?_, by rw [c5, w4]⟩
  apply list_eq_of_cells _ _ shape.EMPTY g.HEIGHT g.WIDTH c4 w3
  intro i j hi hj
  have := (game_copy_get g w5 i j hi hj).1
  simpa [game_get_piece_shape, game_nb_cols, c2,
    idx_mod g.HEIGHT g.WIDTH i j hi hj w5] using this

theorem init_mask_bit (s : shape) (d : direction) :
    init_mask s &&& directions d ≠ 0 ↔ d ∈ distinct_orientations s := by
  cases s <;> cases d <;> decide

/-- The masks of `init_Array` satisfy the invariant of the search. -/
theorem mask_ok_init (g0 : game) (t : List Nat)
    (ht : t.length = game_nb_rows g0 * game_nb_cols g0)
    (hlen : g0.tab_shape.length = g0.HEIGHT * g0.WIDTH)
    (hsz : g0.HEIGHT * g0.WIDTH < 4294967296) : mask_ok g0 (init_Array g0 t) := by
  intro k d hk
  rw [hlen] at hk
  have hW0 : 0 < g0.WIDTH := by
    rcases Nat.eq_zero_or_pos g0.WIDTH with h0 | h0
    · rw [h0] at hk; simp at hk
    · exact h0
  have hi : k / g0.WIDTH < g0.HEIGHT := Nat.div_lt_of_lt_mul (by rw [Nat.mul_comm]; exact hk)
  have hj : k % g0.WIDTH < g0.WIDTH := Nat.mod_lt _ hW0
  have hidx : k / g0.WIDTH * g0.WIDTH + k % g0.WIDTH = k := Nat.div_add_mod' _ _
  have hm := init_Array_mask g0 t (k / g0.WIDTH) (k % g0.WIDTH) ht hi hj
  have hsh : game_get_piece_shape g0 (k / g0.WIDTH) (k % g0.WIDTH) =
      g0.tab_shape.getD k shape.EMPTY := by
    unfold game_get_piece_shape game_nb_cols
    rw [Nat.mul_comm, hidx, Nat.mod_eq_of_lt (Nat.lt_trans hk hsz)]
  unfold game_nb_cols at hm
  rw [hidx, hsh] at hm
  rw [hm]
  constructor
  · exact (init_mask_bit _ d).1
  · intro h0 hmem
    exact absurd h0 ((init_mask_bit _ d).2 hmem)

theorem getD_zipWith {α β γ : Type} (f : α → β → γ) (l1 : List α) (l2 : List β) (k : Nat)
    (a : α) (b : β) (c : γ) (h1 : k < l1.length) (h2 : k < l2.length) :
    (List.zipWith f l1 l2).getD k c = f (l1.getD k a) (l2.getD k b) := by
  rw [List.getD_eq_getElem _ _ (by simp only [List.length_zipWith]; omega),
    List.getD_eq_getElem _ _ h1, List.getD_eq_getElem _ _ h2, List.getElem_zipWith]

theorem completions_zero_pos (g : game) :
    completions g 0 = nb_winning_assignments g := by
  unfold completions nb_winning_assignments
  simp only [List.drop_zero, List.take_zero, List.nil_append]

theorem nb_winning_assignments_congr (g g2 : game) (hs : same_shapes g g2) :
    nb_winning_assignments g2 = nb_winning_assignments g := by
  unfold nb_winning_assignments
  rw [hs.2.2.2.1]
  congr 1
  apply List.filter_congr
  intro os _
  exact game_won_congr _ _ hs.1 hs.2.1 hs.2.2.1 rfl rfl

/-- The counter that `game_nb_solutions` returns is the counter of the search
on the copy. -/
theorem game_nb_solutions_fst (g : game) :
    (game_nb_solutions g).1 =
      (solve_rec (g.WIDTH * g.HEIGHT + 1) (game_copy g) 0 (g.WIDTH * g.HEIGHT) (some 0)
        (init_Array (game_copy g) (List.replicate (g.WIDTH * g.HEIGHT) 0))).count.getD 0 :=
  rfl

/-- A winning assignment gives a winning assignment among the ones that
`nb_winning_assignments` counts. -/
theorem nb_winning_assignments_pos (g gw : game) (hwf : game_wf g)
    (hw : winning_assignment g gw) : 0 < nb_winning_assignments g := by
  obtain ⟨hs, hwon⟩ := hw
  obtain ⟨w1, w2, w3, w4, w5⟩ := hwf
  have hlen : gw.tab_direction.length = g.tab_shape.length := by rw [hs.2.2.2.2, w4, w3]
  have hmem := zipWith_normal_mem g.tab_shape gw.tab_direction hlen
  have hwfw := same_shapes_wf g gw ⟨w1, w2, w3, w4, w5⟩ hs
  have hwfn : game_wf { g with
      tab_direction := List.zipWith normal_orientation g.tab_shape gw.tab_direction } := by
    refine ⟨w1, w2, w3, ?_, w5⟩
    simp only [List.length_zipWith, hlen, Nat.min_self]
    exact w3
  have hcong := won_congr_encode
    { g with tab_direction := List.zipWith normal_orientation g.tab_shape gw.tab_direction } gw
    hwfn hwfw hs.1.symm hs.2.1.symm hs.2.2.1.symm
    (by
      intro i j hi hj
      have hk : g.WIDTH * i + j < g.HEIGHT * g.WIDTH := idx_lt _ _ _ _ hi hj
      rw [same_shapes_shape g gw hs]
      unfold game_get_piece_shape game_get_piece_orientation game_nb_cols
      dsimp only
      rw [hs.2.1, idx_mod g.HEIGHT g.WIDTH i j hi hj w5, getD_zipWith normal_orientation _ _ _ shape.EMPTY direction.NORTH direction.NORTH
        (by rw [w3]; exact hk) (by rw [hlen, w3]; exact hk)]
      exact normal_orientation_code _ _)
  unfold nb_winning_assignments
  apply List.length_pos_of_mem
  rw [List.mem_filter]
  exact ⟨hmem, by rw [hcong.2.2]; exact hwon⟩

/-- Completeness of the search, for the values that runs return.  On a valid
grid that holds at least 3 non-empty pieces and has an orientation assignment
`gw` of its shapes that satisfies `game_won`, the value of `game_solve` is
true; the value of `game_nb_solutions` is the number of winning assignments
(assignments with the same half-edges counted once) modulo `2^32`, its counter
being an `unsigned int`; that number is at least 1, so the value of
`game_nb_solutions` is at least 1 whenever the counter does not wrap. -/
theorem game_solve_complete (g gw : game) (hwf : game_wf g) (h3 : 3 ≤ nb_non_empty g)
    (hs : same_shapes g gw) (hwon : game_won gw = true) :
    (game_solve g).1 = true ∧
    (game_nb_solutions g).1 = nb_winning_assignments g % 4294967296 ∧
    1 ≤ nb_winning_assignments g ∧
    (nb_winning_assignments g < 4294967296 → 1 ≤ (game_nb_solutions g).1) := by
  have hcs := game_copy_same_shapes g hwf
  have hwf0 := same_shapes_wf g (game_copy g) hwf hcs
  have h30 : 3 ≤ nb_non_empty (game_copy g) := by rw [nb_non_empty_same g _ hcs]; exact h3
  have hsize : g.WIDTH * g.HEIGHT = (game_copy g).HEIGHT * (game_copy g).WIDTH := by
    rw [hcs.1, hcs.2.1, Nat.mul_comm]
  have hmask : mask_ok (game_copy g)
      (init_Array (game_copy g) (List.replicate (g.WIDTH * g.HEIGHT) 0)) := by
    apply mask_ok_init _ _ _ hwf0.2.2.1 hwf0.2.2.2.2
    rw [List.length_replicate]
    exact hsize
  have hnb : 0 < nb_winning_assignments g := nb_winning_assignments_pos g gw hwf ⟨hs, hwon⟩
  have hcomp : completions (game_copy g) 0 = nb_winning_assignments g := by
    rw [completions_zero_pos, nb_winning_assignments_congr g _ hcs]
  have hsearch : ∀ count, search_ok (game_copy g) (game_copy g) 0 count
      (solve_rec (g.WIDTH * g.HEIGHT + 1) (game_copy g) 0 (g.WIDTH * g.HEIGHT) count
        (init_Array (game_copy g) (List.replicate (g.WIDTH * g.HEIGHT) 0))) := by
    intro count
    have := solve_rec_search_ok (game_copy g) hwf0 h30 (g.WIDTH * g.HEIGHT + 1) (game_copy g) 0
      count (init_Array (game_copy g) (List.replicate (g.WIDTH * g.HEIGHT) 0))
      ⟨rfl, rfl, rfl, rfl, rfl⟩ hmask (Nat.zero_le _) (by rw [← hsize]; omega)
    rw [← hsize] at this
    exact this
  have hcount : (game_nb_solutions g).1 = nb_winning_assignments g % 4294967296 := by
    obtain ⟨_, _, _, k4⟩ := hsearch (some 0)
    have := k4 0 rfl (by decide)
    rw [game_nb_solutions_fst, this, hcomp, Nat.zero_add]
    rfl
  refine ⟨?_, hcount, hnb, ?_⟩
  · obtain ⟨_, _, k3, _⟩ := hsearch none
    apply game_solve_of_search g hwf
    exact (k3 rfl).2 (by rw [hcomp]; exact hnb)
  · intro hlt
    rw [hcount, Nat.mod_eq_of_lt hlt]
    exact hnb

/-- The search on a 1 by 3 grid that holds two Endpoints around a Segment. -/
theorem game_solve_complete_witness :
    game_wf endpoints_and_segment ∧ 3 ≤ nb_non_empty endpoints_and_segment ∧
    game_won endpoints_and_segment_solved = true ∧
    (game_solve endpoints_and_segment).1 = true ∧
    (game_nb_solutions endpoints_and_segment).1 =
      nb_winning_assignments endpoints_and_segment % 4294967296 :=
  ⟨by decide, by decide, by decide,
    (game_solve_complete endpoints_and_segment endpoints_and_segment_solved (by decide)
      (by decide) ⟨rfl, rfl, rfl, rfl, rfl⟩ (by decide)).1,
    (game_solve_complete endpoints_and_segment endpoints_and_segment_solved (by decide)
      (by decide) ⟨rfl, rfl, rfl, rfl, rfl⟩ (by decide)).2.1⟩

/-! ## The work stack of the source

The functions `_checked` push on the array `stack` of `game_is_connected`.  A
run that stays inside the array returns the value of the function without
`_checked`; on the 2 by 2 grid of four Crosses with wrapping the fifth push
goes past the end of the array. -/

theorem fill_push_checked_some (g : game) (i j : Nat) (st st2 : fill_state) (d : direction)
    (h : fill_push_checked g i j st d = some st2) : fill_push g i j st d = st2 := by
  unfold fill_push_checked at h
  unfold fill_push
  cases hadj : game_get_ajacent_square g i j d with
  | none =>
    rw [hadj] at h
    exact Option.some.inj h
  | some n =>
    rw [hadj] at h
    dsimp only at h ⊢
    split
    · rename_i hc
      rw [if_pos hc] at h
      split at h
      · exact Option.some.inj h
      · cases h
    · rename_i hc
      rw [if_neg hc] at h
      exact Option.some.inj h

/-- A loop whose body can fail agrees with the loop whose body cannot, when it
does not fail. -/
theorem foldl_bind_some {α κ : Type} (fc : α → κ → Option α) (f : α → κ → α)
    (hstep : ∀ a k a2, fc a k = some a2 → f a k = a2) (L : List κ) (a a2 : α)
    (h : L.foldl (fun st k => st.bind fun st => fc st k) (some a) = some a2) :
    L.foldl f a = a2 := by
  induction L generalizing a with
  | nil => exact Option.some.inj h
  | cons k L ih =>
    rw [List.foldl_cons] at h ⊢
    cases hk : fc a k with
    | none =>
      exfalso
      have hnone : ∀ L2 : List κ,
          L2.foldl (fun st k => st.bind fun st => fc st k) (none : Option α) = none := by
        intro L2
        induction L2 with
        | nil => rfl
        | cons _ _ ih2 => exact ih2
      rw [show (some a).bind (fun st => fc st k) = fc a k from rfl, hk, hnone] at h
      cases h
    | some a1 =>
      rw [show (some a).bind (fun st => fc st k) = fc a k from rfl, hk] at h
      rw [hstep a k a1 hk]
      exact ih a1 h

theorem fill_step_checked_some (g : game) (st st2 : fill_state)
    (h : fill_step_checked g st = some st2) : fill_step g st = st2 := by
  unfold fill_step_checked at h
  unfold fill_step
  cases hs : st.stack with
  | nil =>
    rw [hs] at h
    exact Option.some.inj h
  | cons c rest =>
    rw [hs] at h
    dsimp only at h ⊢
    split
    · rename_i hv
      rw [if_pos hv] at h
      exact Option.some.inj h
    · rename_i hv
      rw [if_neg hv] at h
      exact foldl_bind_some (fill_push_checked g c.1 c.2) (fill_push g c.1 c.2)
        (fun a k a2 hk => fill_push_checked_some g c.1 c.2 a a2 k hk) all_dirs _ _ h

theorem fill_loop_checked_some (g : game) (fuel : Nat) (st st2 : fill_state)
    (h : fill_loop_checked g fuel st = some st2) : fill_loop g fuel st = st2 := by
  induction fuel generalizing st with
  | zero => exact Option.some.inj h
  | succ fuel ih =>
    unfold fill_loop_checked at h
    unfold fill_loop
    cases hs : st.stack with
    | nil =>
      rw [hs] at h
      exact Option.some.inj h
    | cons c rest =>
      rw [hs] at h
      dsimp only at h ⊢
      cases hstep : fill_step_checked g st with
      | none =>
        rw [hstep] at h
        cases h
      | some st1 =>
        rw [hstep] at h
        rw [fill_step_checked_some g st st1 hstep]
        exact ih st1 h

/-- A run of `game_is_connected` that stays inside its work stack returns the
value of `game_is_connected`. -/
theorem game_is_connected_checked_some (g : game) (b : Bool)
    (h : game_is_connected_checked g = some b) : game_is_connected g = b := by
  unfold game_is_connected_checked at h
  unfold game_is_connected
  cases hs : find_start g with
  | none =>
    rw [hs] at h
    exact Option.some.inj h
  | some s =>
    rw [hs] at h
    dsimp only at h ⊢
    split at h
    · cases hl : fill_loop_checked g (4 * (game_nb_rows g * game_nb_cols g) + 1)
          { stack := [(s.1, s.2)],
            visited :=
              List.replicate ((game_nb_rows g * game_nb_cols g) % 4294967296) false } with
      | none =>
        rw [hl] at h
        cases h
      | some st =>
        rw [hl] at h
        rw [fill_loop_checked_some g _ _ st hl]
        exact Option.some.inj h
    · cases h

/-- A run of `game_won` that stays inside its work stack returns the value of
`game_won`. -/
theorem game_won_checked_some (g : game) (b : Bool)
    (h : game_won_checked g = some b) : game_won g = b := by
  unfold game_won_checked at h
  unfold game_won
  cases hc : game_is_connected_checked g with
  | none =>
    rw [hc] at h
    cases h
  | some c =>
    rw [hc] at h
    rw [game_is_connected_checked_some g c hc]
    exact Option.some.inj h

theorem solve_rec_checked_succ (fuel : Nat) (g : game) (pos size : Nat) (count : Option Nat)
    (t_shape : List Nat) :
    solve_rec_checked (fuel + 1) g pos size count t_shape =
      if (pos == size) = true then
        (game_won_checked g).map fun won =>
          { ret := won
            g := g
            count := if won then count.map (fun c => (c + 1) % 4294967296) else count
            t_shape := t_shape }
      else
        all_dirs.foldl
          (fun st d => st.bind fun st =>
            solve_step_checked fuel size pos (game_nb_cols g) (pos / game_nb_cols g)
              (pos % game_nb_cols g) st d)
          (some { ret := false, g := g, count := count, t_shape := t_shape }) := by
  rw [solve_rec_checked]
  split
  · cases game_won_checked g <;> rfl
  · dsimp only
    congr 1
    funext st d
    cases st <;> rfl

theorem solve_rec_checked_some (fuel : Nat) (g : game) (pos size : Nat) (count : Option Nat)
    (t_shape : List Nat) (r : solve_state)
    (h : solve_rec_checked fuel g pos size count t_shape = some r) :
    solve_rec fuel g pos size count t_shape = r := by
  induction fuel generalizing g pos count t_shape r with
  | zero => exact Option.some.inj h
  | succ fuel ih =>
    rw [solve_rec_checked_succ] at h
    rw [solve_rec_succ]
    split
    · rename_i hp
      rw [if_pos hp] at h
      cases hw : game_won_checked g with
      | none =>
        rw [hw] at h
        cases h
      | some won =>
        rw [hw] at h
        rw [game_won_checked_some g won hw]
        exact Option.some.inj h
    · rename_i hp
      rw [if_neg hp] at h
      apply foldl_bind_some _ _ _ all_dirs _ _ h
      intro st d st2 hst
      unfold solve_step_checked at hst
      unfold solve_step
      split
      · rename_i hr
        rw [if_pos hr] at hst
        exact Option.some.inj hst
      · rename_i hr
        rw [if_neg hr] at hst
        split
        · rename_i hm
          rw [if_pos hm] at hst
          dsimp only at hst ⊢
          split
          · rename_i hmm
            rw [if_pos hmm] at hst
            cases hrec : solve_rec_checked fuel
                (game_set_piece_orientation st.g (pos / game_nb_cols g) (pos % game_nb_cols g) d)
                (pos + 1) size st.count
                (isMismatch
                  (game_set_piece_orientation st.g (pos / game_nb_cols g)
                    (pos % game_nb_cols g) d)
                  (pos / game_nb_cols g) (pos % game_nb_cols g) d st.t_shape).2 with
            | none =>
              rw [hrec] at hst
              cases hst
            | some r1 =>
              rw [hrec] at hst
              rw [ih _ _ _ _ r1 hrec]
              exact Option.some.inj hst
          · rename_i hmm
            rw [if_neg hmm] at hst
            exact Option.some.inj hst
        · rename_i hm
          rw [if_neg hm] at hst
          exact Option.some.inj hst

/-- A run of `game_solve` that stays inside the work stack of `game_won`
returns what `game_solve` gives. -/
theorem game_solve_checked_some (g : game) (r : Bool × game)
    (h : game_solve_checked g = some r) : game_solve g = r := by
  unfold game_solve_checked at h
  unfold game_solve
  cases hw : game_won_checked g with
  | none =>
    rw [hw] at h
    cases h
  | some won =>
    rw [hw] at h
    rw [game_won_checked_some g won hw]
    cases won with
    | true => exact Option.some.inj h
    | false =>
      dsimp only at h ⊢
      simp only [Bool.false_eq_true, ↓reduceIte]
      cases hrec : solve_rec_checked (game_nb_cols g * game_nb_rows g + 1) (game_copy g) 0
          (game_nb_cols g * game_nb_rows g) none
          (init_Array (game_copy g) (List.replicate (game_nb_cols g * game_nb_rows g) 0)) with
      | none =>
        rw [hrec] at h
        cases h
      | some r1 =>
        rw [hrec] at h
        rw [solve_rec_checked_some _ _ _ _ _ _ r1 hrec]
        dsimp only at h
        split at h
        · rename_i won2 hw2
          rw [game_won_checked_some _ won2 hw2]
          exact Option.some.inj h
        · cases h

/-- A run of `game_nb_solutions` that stays inside the work stack of `game_won`
returns the counter that `game_nb_solutions` gives. -/
theorem game_nb_solutions_checked_some (g : game) (n : Nat)
    (h : game_nb_solutions_checked g = some n) : (game_nb_solutions g).1 = n := by
  unfold game_nb_solutions_checked at h
  rw [game_nb_solutions_fst]
  dsimp only at h
  cases hrec : solve_rec_checked (game_nb_cols g * game_nb_rows g + 1) (game_copy g) 0
      (game_nb_cols g * game_nb_rows g) (some 0)
      (init_Array (game_copy g) (List.replicate (game_nb_cols g * game_nb_rows g) 0)) with
  | none =>
    rw [hrec] at h
    cases h
  | some r1 =>
    rw [hrec] at h
    have := solve_rec_checked_some _ _ _ _ _ _ r1 hrec
    unfold game_nb_cols game_nb_rows at this
    rw [this]
    exact Option.some.inj h


/-- On a valid game, a run of `game_is_connected` that stays inside its work
stack returns true exactly when every two non-empty cells are joined. -/
theorem game_is_connected_checked_spec (g : game) (hwf : game_wf g) (b : Bool)
    (h : game_is_connected_checked g = some b) :
    b = true ↔ ∀ a c, non_empty_cell g a → non_empty_cell g c → joined g a c := by
  rw [← game_is_connected_checked_some g b h]
  exact (game_is_connected_spec g hwf).1

/-- On a valid grid of at least 3 pieces that has a winning assignment, a run
of `game_solve` that stays inside the work stack returns true, and a run of
`game_nb_solutions` that stays inside it returns the number of winning
assignments modulo `2^32`. -/
theorem game_solve_checked_complete (g gw : game) (hwf : game_wf g) (h3 : 3 ≤ nb_non_empty g)
    (hs : same_shapes g gw) (hwon : game_won gw = true) :
    (∀ r, game_solve_checked g = some r → r.1 = true) ∧
    (∀ n, game_nb_solutions_checked g = some n → n = nb_winning_assignments g % 4294967296) := by
  obtain ⟨h1, h2, _, _⟩ := game_solve_complete g gw hwf h3 hs hwon
  constructor
  · intro r hr
    rw [← game_solve_checked_some g r hr]
    exact h1
  · intro n hn
    rw [← game_nb_solutions_checked_some g n hn]
    exact h2

set_option maxRecDepth 100000 in
/-- C1 fails on the 2 by 2 grid of four Crosses with wrapping, a valid game in
which every two cells are joined by MATCH edges, so that the claim requires
the result true: the array `stack` holds 8 integers, that is 4 pairs, and the
run of `game_is_connected` pushes a fifth pair, past the end of the array. -/
theorem game_is_connected_overruns_stack :
    game_wf cross_2x2 ∧
    (∀ a b, non_empty_cell cross_2x2 a → non_empty_cell cross_2x2 b → joined cross_2x2 a b) ∧
    stack_capacity cross_2x2 = 8 ∧
    game_is_connected_checked cross_2x2 = none :=
  ⟨by decide, ((game_is_connected_spec cross_2x2 (by decide)).1).1 (by decide), by decide,
    by decide⟩

set_option maxRecDepth 100000 in
/-- C33 fails on the 2 by 2 grid of four Crosses with wrapping: the grid holds
4 pieces and it is won as it stands (it is well paired and every two cells are
joined), but the first call of `game_won` by `game_solve`, and the call of
`game_won` at the end of the search of `game_nb_solutions`, push a fifth pair
on the work stack of 4 pairs, past the end of the array. -/
theorem game_solve_overruns_stack :
    game_wf cross_2x2 ∧ 3 ≤ nb_non_empty cross_2x2 ∧
    game_is_well_paired cross_2x2 = true ∧
    (∀ a b, non_empty_cell cross_2x2 a → non_empty_cell cross_2x2 b → joined cross_2x2 a b) ∧
    game_solve_checked cross_2x2 = none ∧
    game_nb_solutions_checked cross_2x2 = none :=
  ⟨by decide, by decide, by decide,
    ((game_is_connected_spec cross_2x2 (by decide)).1).1 (by decide), by decide, by decide⟩

end Pipegame
